import Mathlib

/-!
# Channel v2 query server

A shallow embedding of `modules/core/04-channel/v2/keeper/grpc_query.go`:
the seven gRPC queries of the channel/v2 keeper, the byte codecs they use
and the key-value store they read.

Conventions.
* A Go `[]byte` or `string` is a `Bytes`, a list of byte values.
* A `uint64` is a `Nat`; wrap-around is written `% 2 ^ 64` where the source can overflow.
* A Go `(*Response, error)` result is an `Except Error Response`; a nil request
  pointer is `none`.
* A Go runtime panic is the result `Error.runtimePanic`.

The second part, namespace `Transfer`, models the packet lifecycle, the escrow
accounting of the transfer application and the authorization gate, whose
end-to-end tests are `e2e/tests/transfer`. The definitions of both parts come
first, the theorems follow.
-/

namespace ChannelV2

/-! ## Bytes and the big-endian codec -/

/-- A byte string: the contents of a Go byte slice or string. -/
abbrev Bytes := List Nat

/-- The byte of the separator "/" that `PacketCommitments` splits keys on. -/
def slash : Nat := 47

/-- Lexicographic byte order (the order of `bytes.Compare`), the iteration order of the store. -/
def bytesLt : Bytes → Bytes → Bool
  | [], [] => false
  | [], _ :: _ => true
  | _ :: _, [] => false
  | a :: as, b :: bs => decide (a < b) || (decide (a = b) && bytesLt as bs)

/-- The SDK helper `sdk.Uint64ToBigEndian`: `binary.BigEndian.PutUint64` into 8 fresh bytes. -/
def Uint64ToBigEndian (i : Nat) : Bytes :=
  [i / 2 ^ 56 % 256, i / 2 ^ 48 % 256, i / 2 ^ 40 % 256, i / 2 ^ 32 % 256,
   i / 2 ^ 24 % 256, i / 2 ^ 16 % 256, i / 2 ^ 8 % 256, i % 256]

/-- The Go library function `binary.BigEndian.Uint64`: reads the first 8 bytes and
panics (`none`) with an index out of range when fewer than 8 are given. -/
def binaryBigEndianUint64 : Bytes → Option Nat
  | b0 :: b1 :: b2 :: b3 :: b4 :: b5 :: b6 :: b7 :: _ =>
    some (b7 + b6 * 2 ^ 8 + b5 * 2 ^ 16 + b4 * 2 ^ 24 + b3 * 2 ^ 32 + b2 * 2 ^ 40
      + b1 * 2 ^ 48 + b0 * 2 ^ 56)
  | _ => none

/-- The SDK helper `sdk.BigEndianToUint64`: zero for an empty encoding, otherwise
`binary.BigEndian.Uint64`; `none` is the panic of the latter. -/
def BigEndianToUint64 (bz : Bytes) : Option Nat :=
  if bz.length = 0 then some 0 else binaryBigEndianUint64 bz

/-- The number a byte string denotes when read as a big-endian numeral of its full
length (the specification of the codec, used to state its order property). -/
def beValue : Bytes → Nat
  | [] => 0
  | x :: xs => x * 256 ^ xs.length + beValue xs

/-- The Go library function `strings.Split(s, sep)` for a one-byte separator: the
segments of `s` between occurrences of `sep`; never an empty list. -/
def stringsSplit (sep : Nat) : Bytes → List Bytes
  | [] => [[]]
  | b :: rest =>
    if b = sep then [] :: stringsSplit sep rest
    else
      match stringsSplit sep rest with
      | [] => [[b]]
      | seg :: segs => (b :: seg) :: segs

/-! ## The key-value store -/

/-- The module's key-value store (`storeService.OpenKVStore(ctx)`): its entries in
iteration order. -/
structure KVStore where
  entries : List (Bytes × Bytes)
deriving DecidableEq, Repr

/-- The store operation `Get`: the value under `key`, if any. -/
def KVStore.Get (s : KVStore) (key : Bytes) : Option Bytes :=
  s.entries.lookup key

/-- The store operation `Has`: whether `key` is present. -/
def KVStore.Has (s : KVStore) (key : Bytes) : Bool :=
  (s.Get key).isSome

/-- A store is well formed when its keys are strictly ascending in byte order, as
the entries of an ordered key-value store are. -/
def KVStore.WF (s : KVStore) : Prop :=
  s.entries.Pairwise (fun a b => bytesLt a.1 b.1 = true)

/-- The entries of `prefix.NewStore(store, pre)`: the entries of `store` whose key
starts with `pre`, the key stripped of it, in the order of the parent store. -/
def KVStore.prefixEntries (s : KVStore) (pre : Bytes) : List (Bytes × Bytes) :=
  s.entries.filterMap
    (fun kv => if pre.isPrefixOf kv.1 then some (kv.1.drop pre.length, kv.2) else none)

/-- A consensus height, as returned by `clienttypes.GetSelfHeight`. -/
structure Height where
  RevisionNumber : Nat
  RevisionHeight : Nat
deriving DecidableEq, Repr

/-- The request context: the store the keeper opens from it and the height
`clienttypes.GetSelfHeight(ctx)` reads from it. -/
structure Context where
  store : KVStore
  selfHeight : Height
deriving DecidableEq, Repr

/-- The function `clienttypes.GetSelfHeight`. -/
def GetSelfHeight (ctx : Context) : Height := ctx.selfHeight

/-! ## Errors -/

/-- The gRPC status codes the queries use. -/
inductive Code where
  | InvalidArgument
  | NotFound
deriving DecidableEq, Repr

/-- The ways a query can fail. -/
inductive Error where
  /-- A gRPC status error, `status.Error(code, msg)`. -/
  | status (code : Code)
  /-- The module error `types.ErrInvalidPacket`, returned unwrapped. -/
  | ErrInvalidPacket
  /-- The error of `query.Paginate` on a page request that sets both offset and key. -/
  | invalidPageRequest
  /-- A Go runtime panic (index out of range). -/
  | runtimePanic
deriving DecidableEq, Repr

deriving instance DecidableEq for Except

/-! ## Pagination -/

/-- The SDK page request (`query.PageRequest`): a cursor key, an offset, a limit, the
count-total flag and the reverse flag. -/
structure PageRequest where
  Key : Bytes
  Offset : Nat
  Limit : Nat
  CountTotal : Bool
  Reverse : Bool
deriving DecidableEq, Repr

/-- The SDK page response (`query.PageResponse`). -/
structure PageResponse where
  NextKey : Bytes
  Total : Nat
deriving DecidableEq, Repr

/-- The SDK constant `query.DefaultLimit`. -/
def DefaultLimit : Nat := 100

/-- The SDK helper `initPageRequestDefaults`: a nil request is the empty one, and a
zero limit becomes the default limit with count-total switched on. -/
def initPageRequestDefaults (pageRequest : Option PageRequest) : PageRequest :=
  let p := pageRequest.getD (PageRequest.mk [] 0 0 false false)
  if p.Limit = 0 then PageRequest.mk p.Key p.Offset DefaultLimit true p.Reverse else p

/-- The iterator `prefixStore.Iterator(start, nil)`: the entries whose key is not
below `start`, ascending; every entry when `start` is nil. -/
def storeIterator (entries : List (Bytes × Bytes)) (start : Bytes) : List (Bytes × Bytes) :=
  entries.filter (fun kv => !bytesLt kv.1 start)

/-- The iterator `prefixStore.ReverseIterator(nil, end)`: the entries whose key is
below `end`, descending; every entry when `end` is nil (`none`). -/
def storeReverseIterator (entries : List (Bytes × Bytes)) (endKey : Option Bytes) :
    List (Bytes × Bytes) :=
  match endKey with
  | none => entries.reverse
  | some e => (entries.filter (fun kv => bytesLt kv.1 e)).reverse

/-- The SDK helper `getIterator(prefixStore, start, reverse)`. A forward request
iterates from `start` upwards. A reverse request iterates downwards; with a start
key it opens a forward iterator at `start`, steps it once and takes the key it then
stands on as the exclusive end, so the iteration begins at the first entry not
below `start`. When that entry is the last one of the store the stepped iterator
is exhausted and the call of `Key()` on it panics: the result is `none`. -/
def getIterator (entries : List (Bytes × Bytes)) (start : Bytes) (reverse : Bool) :
    Option (List (Bytes × Bytes)) :=
  if reverse then
    if start.length ≠ 0 then
      match storeIterator entries start with
      | [] => some (storeReverseIterator entries none)
      | [_] => none
      | _ :: next :: _ => some (storeReverseIterator entries (some next.1))
    else some (storeReverseIterator entries none)
  else some (storeIterator entries start)

/-- The cursor loop of `query.Paginate`: visit entries until `limit` of them were
visited; the key of the entry after them is the next key. -/
def paginateKeyLoop {σ : Type} (onResult : Bytes → Bytes → σ → Except Error σ) (limit : Nat) :
    List (Bytes × Bytes) → Nat → σ → Except Error (σ × Bytes)
  | [], _, acc => .ok (acc, [])
  | (key, value) :: rest, count, acc =>
    if count = limit then .ok (acc, key)
    else
      match onResult key value acc with
      | .error e => .error e
      | .ok acc1 => paginateKeyLoop onResult limit rest (count + 1) acc1

/-- The offset loop of `query.Paginate`: entries are counted from 1; those with
`offset < count ≤ end` are visited, the one at `end + 1` gives the next key, and
the loop runs on to the last entry only when the total is to be counted. -/
def paginateOffsetLoop {σ : Type} (onResult : Bytes → Bytes → σ → Except Error σ)
    (offset endCount : Nat) (countTotal : Bool) :
    List (Bytes × Bytes) → Nat → Bytes → σ → Except Error (σ × Nat × Bytes)
  | [], count, nextKey, acc => .ok (acc, count, nextKey)
  | (key, value) :: rest, count0, nextKey, acc =>
    let count := count0 + 1
    if count ≤ offset then
      paginateOffsetLoop onResult offset endCount countTotal rest count nextKey acc
    else if count ≤ endCount then
      match onResult key value acc with
      | .error e => .error e
      | .ok acc1 => paginateOffsetLoop onResult offset endCount countTotal rest count nextKey acc1
    else if count = (endCount + 1) % 2 ^ 64 then
      if !countTotal then .ok (acc, count, key)
      else paginateOffsetLoop onResult offset endCount countTotal rest count key acc
    else
      paginateOffsetLoop onResult offset endCount countTotal rest count nextKey acc

/-- The SDK function `query.Paginate` over the entries of a prefix store. The
callback's captured variables are the accumulator `acc`. A request with both an
offset and a key is refused; the iterator is opened in the direction of the
request; with a key the cursor loop runs over it, otherwise the offset loop. -/
def Paginate {σ : Type} (entries : List (Bytes × Bytes)) (pageRequest : Option PageRequest)
    (onResult : Bytes → Bytes → σ → Except Error σ) (acc : σ) :
    Except Error (σ × PageResponse) :=
  let pageRequest := initPageRequestDefaults pageRequest
  if 0 < pageRequest.Offset ∧ pageRequest.Key.length ≠ 0 then .error .invalidPageRequest
  else
    match getIterator entries pageRequest.Key pageRequest.Reverse with
    | none => .error .runtimePanic
    | some iterator =>
      if pageRequest.Key.length ≠ 0 then
        match paginateKeyLoop onResult pageRequest.Limit iterator 0 acc with
        | .error e => .error e
        | .ok (acc1, nextKey) => .ok (acc1, PageResponse.mk nextKey 0)
      else
        let endCount := (pageRequest.Offset + pageRequest.Limit) % 2 ^ 64
        match paginateOffsetLoop onResult pageRequest.Offset endCount pageRequest.CountTotal
            iterator 0 [] acc with
        | .error e => .error e
        | .ok (acc1, count, nextKey) =>
          .ok (acc1, PageResponse.mk nextKey (if pageRequest.CountTotal then count else 0))

/-! ## Store keys and keeper reads -/

/-- Modelled from the spec: the identifier validator `host.ChannelIdentifierValidator`
(24-host) is not among the sources. An identifier is accepted when it has 8 to 64
characters, all of them letters, digits or one of `. _ + - # [ ] < >`. The queries
below take the validator as a parameter; this one instantiates it. -/
def ChannelIdentifierValidator (id : Bytes) : Bool :=
  decide (8 ≤ id.length) && decide (id.length ≤ 64) &&
    id.all (fun c =>
      (decide (97 ≤ c) && decide (c ≤ 122)) || (decide (65 ≤ c) && decide (c ≤ 90)) ||
      (decide (48 ≤ c) && decide (c ≤ 57)) ||
      [46, 95, 43, 45, 35, 91, 93, 60, 62].contains c)

/-- Modelled from the spec: the store path of a channel end (keeper and 24-host key
builders are not among the sources): the tag "channel" followed by the channel id. -/
def ChannelKey (channelID : Bytes) : Bytes :=
  [99, 104, 97, 110, 110, 101, 108] ++ channelID

/-- Modelled from the spec: the store path of the next-sequence-send counter: the
tag "nextSequenceSend/" followed by the channel id. -/
def NextSequenceSendKey (channelID : Bytes) : Bytes :=
  [110, 101, 120, 116, 83, 101, 113, 117, 101, 110, 99, 101, 83, 101, 110, 100, 47] ++ channelID

/-- Modelled from the spec: the key prefix of the packet commitments of a channel
(`hostv2.PacketCommitmentPrefixKey`): the channel id followed by the byte 1. -/
def PacketCommitmentPrefixKey (channelID : Bytes) : Bytes :=
  channelID ++ [1]

/-- Modelled from the spec: the store path of a packet commitment: the channel's
commitment prefix followed by the big-endian sequence. -/
def PacketCommitmentKey (channelID : Bytes) (sequence : Nat) : Bytes :=
  PacketCommitmentPrefixKey channelID ++ Uint64ToBigEndian sequence

/-- Modelled from the spec: the store path of a packet receipt: the channel id, the
byte 2 and the big-endian sequence. -/
def PacketReceiptKey (channelID : Bytes) (sequence : Nat) : Bytes :=
  channelID ++ [2] ++ Uint64ToBigEndian sequence

/-- Modelled from the spec: the store path of a packet acknowledgement: the channel
id, the byte 3 and the big-endian sequence. -/
def PacketAcknowledgementKey (channelID : Bytes) (sequence : Nat) : Bytes :=
  channelID ++ [3] ++ Uint64ToBigEndian sequence

/-- Modelled from the spec: the keeper read `GetChannel` (keeper.go is not among the
sources): the channel end stored for the id and whether one was found; the stored
encoding stands for the channel. -/
def GetChannel (ctx : Context) (channelID : Bytes) : Bytes × Bool :=
  match ctx.store.Get (ChannelKey channelID) with
  | some bz => (bz, true)
  | none => ([], false)

/-- Modelled from the spec: the keeper read `HasChannel`: whether a channel end is
stored for the id. -/
def HasChannel (ctx : Context) (channelID : Bytes) : Bool :=
  ctx.store.Has (ChannelKey channelID)

/-- Modelled from the spec: the keeper read `GetNextSequenceSend`: the counter stored
for the channel, big-endian decoded, and whether one was found; `none` when the
decoding panics. -/
def GetNextSequenceSend (ctx : Context) (channelID : Bytes) : Option (Nat × Bool) :=
  match ctx.store.Get (NextSequenceSendKey channelID) with
  | some bz => (BigEndianToUint64 bz).map (fun n => (n, true))
  | none => some (0, false)

/-- Modelled from the spec: the keeper read `GetPacketCommitment` (`GetCommitment` of
the spec): the stored commitment hash, nil when there is none. -/
def GetPacketCommitment (ctx : Context) (channelID : Bytes) (sequence : Nat) : Bytes :=
  (ctx.store.Get (PacketCommitmentKey channelID sequence)).getD []

/-- Modelled from the spec: the keeper read `GetPacketAcknowledgement`
(`GetAcknowledgement` of the spec): the stored acknowledgement hash, nil when there
is none. -/
def GetPacketAcknowledgement (ctx : Context) (channelID : Bytes) (sequence : Nat) : Bytes :=
  (ctx.store.Get (PacketAcknowledgementKey channelID sequence)).getD []

/-- Modelled from the spec: the keeper read `HasPacketReceipt` (`HasReceipt` of the
spec): whether a receipt is stored for the sequence. -/
def HasPacketReceipt (ctx : Context) (channelID : Bytes) (sequence : Nat) : Bool :=
  ctx.store.Has (PacketReceiptKey channelID sequence)

/-- Modelled from the spec: the keeper read `GetPacketReceipt`: the stored receipt
marker and whether a receipt is stored for the sequence. -/
def GetPacketReceipt (ctx : Context) (channelID : Bytes) (sequence : Nat) : Bytes × Bool :=
  match ctx.store.Get (PacketReceiptKey channelID sequence) with
  | some bz => (bz, true)
  | none => ([], false)

/-! ## Requests and responses -/

/-- The request type `types.QueryChannelRequest`. -/
structure QueryChannelRequest where
  ChannelId : Bytes
deriving DecidableEq, Repr

/-- The response type `types.QueryChannelResponse`. -/
structure QueryChannelResponse where
  Channel : Bytes
deriving DecidableEq, Repr

/-- The request type `types.QueryNextSequenceSendRequest`. -/
structure QueryNextSequenceSendRequest where
  ChannelId : Bytes
deriving DecidableEq, Repr

/-- The response type `types.QueryNextSequenceSendResponse`. -/
structure QueryNextSequenceSendResponse where
  NextSequenceSend : Nat
  Proof : Bytes
  ProofHeight : Height
deriving DecidableEq, Repr

/-- The request type `types.QueryPacketCommitmentRequest`. -/
structure QueryPacketCommitmentRequest where
  ChannelId : Bytes
  Sequence : Nat
deriving DecidableEq, Repr

/-- The response type `types.QueryPacketCommitmentResponse`. -/
structure QueryPacketCommitmentResponse where
  Commitment : Bytes
  Proof : Bytes
  ProofHeight : Height
deriving DecidableEq, Repr

/-- The request type `types.QueryPacketCommitmentsRequest`. -/
structure QueryPacketCommitmentsRequest where
  ChannelId : Bytes
  Pagination : Option PageRequest
deriving DecidableEq, Repr

/-- The type `types.PacketState`: a channel id, a sequence and the stored hash. -/
structure PacketState where
  ChannelId : Bytes
  Sequence : Nat
  Data : Bytes
deriving DecidableEq, Repr

/-- The constructor `types.NewPacketState`. -/
def NewPacketState (channelID : Bytes) (sequence : Nat) (data : Bytes) : PacketState :=
  PacketState.mk channelID sequence data

/-- The response type `types.QueryPacketCommitmentsResponse`. -/
structure QueryPacketCommitmentsResponse where
  Commitments : List PacketState
  Pagination : PageResponse
  Height : Height
deriving DecidableEq, Repr

/-- The request type `types.QueryPacketAcknowledgementRequest`. -/
structure QueryPacketAcknowledgementRequest where
  ChannelId : Bytes
  Sequence : Nat
deriving DecidableEq, Repr

/-- The response type `types.QueryPacketAcknowledgementResponse`. -/
structure QueryPacketAcknowledgementResponse where
  Acknowledgement : Bytes
  Proof : Bytes
  ProofHeight : Height
deriving DecidableEq, Repr

/-- The request type `types.QueryPacketReceiptRequest`. -/
structure QueryPacketReceiptRequest where
  ChannelId : Bytes
  Sequence : Nat
deriving DecidableEq, Repr

/-- The response type `types.QueryPacketReceiptResponse`. -/
structure QueryPacketReceiptResponse where
  Received : Bool
  Proof : Bytes
  ProofHeight : Height
deriving DecidableEq, Repr

/-- The request type `types.QueryUnreceivedPacketsRequest`. -/
structure QueryUnreceivedPacketsRequest where
  ChannelId : Bytes
  Sequences : List Nat
deriving DecidableEq, Repr

/-- The response type `types.QueryUnreceivedPacketsResponse`. -/
structure QueryUnreceivedPacketsResponse where
  Sequences : List Nat
  Height : Height
deriving DecidableEq, Repr

/-! ## The queries

Each query takes the identifier validator `validate` (true when
`host.ChannelIdentifierValidator` returns no error), the context and the request
pointer. -/

/-- The gRPC method `queryServer.Channel`. -/
def Channel (validate : Bytes → Bool) (ctx : Context) (req : Option QueryChannelRequest) :
    Except Error QueryChannelResponse :=
  match req with
  | none => .error (.status .InvalidArgument)
  | some req =>
    if !validate req.ChannelId then .error (.status .InvalidArgument)
    else
      match GetChannel ctx req.ChannelId with
      | (_, false) => .error (.status .NotFound)
      | (channel, true) => .ok (QueryChannelResponse.mk channel)

/-- The gRPC method `queryServer.NextSequenceSend`. -/
def NextSequenceSend (validate : Bytes → Bool) (ctx : Context)
    (req : Option QueryNextSequenceSendRequest) : Except Error QueryNextSequenceSendResponse :=
  match req with
  | none => .error (.status .InvalidArgument)
  | some req =>
    if !validate req.ChannelId then .error (.status .InvalidArgument)
    else
      match GetNextSequenceSend ctx req.ChannelId with
      | none => .error .runtimePanic
      | some (_, false) => .error (.status .NotFound)
      | some (sequence, true) =>
        .ok (QueryNextSequenceSendResponse.mk sequence [] (GetSelfHeight ctx))

/-- The gRPC method `queryServer.PacketCommitment`. -/
def PacketCommitment (validate : Bytes → Bool) (ctx : Context)
    (req : Option QueryPacketCommitmentRequest) : Except Error QueryPacketCommitmentResponse :=
  match req with
  | none => .error (.status .InvalidArgument)
  | some req =>
    if !validate req.ChannelId then .error (.status .InvalidArgument)
    else if req.Sequence = 0 then .error (.status .InvalidArgument)
    else if !HasChannel ctx req.ChannelId then .error (.status .NotFound)
    else
      let commitment := GetPacketCommitment ctx req.ChannelId req.Sequence
      if commitment.length = 0 then .error (.status .NotFound)
      else .ok (QueryPacketCommitmentResponse.mk commitment [] (GetSelfHeight ctx))

/-- The callback `PacketCommitments` hands to `query.Paginate`: split the key on
"/", decode the last segment as a big-endian sequence, refuse sequence 0 and
otherwise append the packet state to the captured `commitments`. -/
def packetCommitmentsCallback (channelID : Bytes) (key value : Bytes)
    (commitments : List PacketState) : Except Error (List PacketState) :=
  let keySplit := stringsSplit slash key
  match keySplit.getLast? with
  | none => .error .runtimePanic
  | some last =>
    match BigEndianToUint64 last with
    | none => .error .runtimePanic
    | some sequence =>
      if sequence = 0 then .error .ErrInvalidPacket
      else .ok (commitments ++ [NewPacketState channelID sequence value])

/-- The gRPC method `queryServer.PacketCommitments`. -/
def PacketCommitments (validate : Bytes → Bool) (ctx : Context)
    (req : Option QueryPacketCommitmentsRequest) : Except Error QueryPacketCommitmentsResponse :=
  match req with
  | none => .error (.status .InvalidArgument)
  | some req =>
    if !validate req.ChannelId then .error (.status .InvalidArgument)
    else if !HasChannel ctx req.ChannelId then .error (.status .NotFound)
    else
      let store := ctx.store.prefixEntries (PacketCommitmentPrefixKey req.ChannelId)
      match Paginate store req.Pagination (packetCommitmentsCallback req.ChannelId) [] with
      | .error err => .error err
      | .ok (commitments, pageRes) =>
        .ok (QueryPacketCommitmentsResponse.mk commitments pageRes (GetSelfHeight ctx))

/-- The gRPC method `queryServer.PacketAcknowledgement`. -/
def PacketAcknowledgement (validate : Bytes → Bool) (ctx : Context)
    (req : Option QueryPacketAcknowledgementRequest) :
    Except Error QueryPacketAcknowledgementResponse :=
  match req with
  | none => .error (.status .InvalidArgument)
  | some req =>
    if !validate req.ChannelId then .error (.status .InvalidArgument)
    else if req.Sequence = 0 then .error (.status .InvalidArgument)
    else if !HasChannel ctx req.ChannelId then .error (.status .NotFound)
    else
      let acknowledgement := GetPacketAcknowledgement ctx req.ChannelId req.Sequence
      if acknowledgement.length = 0 then .error (.status .NotFound)
      else .ok (QueryPacketAcknowledgementResponse.mk acknowledgement [] (GetSelfHeight ctx))

/-- The gRPC method `queryServer.PacketReceipt`. -/
def PacketReceipt (validate : Bytes → Bool) (ctx : Context)
    (req : Option QueryPacketReceiptRequest) : Except Error QueryPacketReceiptResponse :=
  match req with
  | none => .error (.status .InvalidArgument)
  | some req =>
    if !validate req.ChannelId then .error (.status .InvalidArgument)
    else if req.Sequence = 0 then .error (.status .InvalidArgument)
    else if !HasChannel ctx req.ChannelId then .error (.status .NotFound)
    else
      let hasReceipt := HasPacketReceipt ctx req.ChannelId req.Sequence
      .ok (QueryPacketReceiptResponse.mk hasReceipt [] (GetSelfHeight ctx))

/-- The loop of `UnreceivedPackets` over the candidate sequences: a zero sequence
ends the call with InvalidArgument; a sequence without a receipt is appended to
`unreceivedSequences`. -/
def unreceivedLoop (ctx : Context) (channelID : Bytes) :
    List Nat → List Nat → Except Error (List Nat)
  | [], unreceivedSequences => .ok unreceivedSequences
  | seq :: rest, unreceivedSequences =>
    if seq = 0 then .error (.status .InvalidArgument)
    else if !(GetPacketReceipt ctx channelID seq).2 then
      unreceivedLoop ctx channelID rest (unreceivedSequences ++ [seq])
    else unreceivedLoop ctx channelID rest unreceivedSequences

/-- The gRPC method `queryServer.UnreceivedPackets`. -/
def UnreceivedPackets (validate : Bytes → Bool) (ctx : Context)
    (req : Option QueryUnreceivedPacketsRequest) : Except Error QueryUnreceivedPacketsResponse :=
  match req with
  | none => .error (.status .InvalidArgument)
  | some req =>
    if !validate req.ChannelId then .error (.status .InvalidArgument)
    else if !HasChannel ctx req.ChannelId then .error (.status .NotFound)
    else
      match unreceivedLoop ctx req.ChannelId req.Sequences [] with
      | .error err => .error err
      | .ok unreceivedSequences =>
        .ok (QueryUnreceivedPacketsResponse.mk unreceivedSequences (GetSelfHeight ctx))

/-! ## Sample data -/

/-- The identifier "channel-0". -/
def channel0 : Bytes := [99, 104, 97, 110, 110, 101, 108, 45, 48]

/-- The height used by the sample contexts. -/
def height1 : Height := Height.mk 1 10

/-- A context whose store is empty: no channel exists. -/
def emptyCtx : Context := Context.mk (KVStore.mk []) height1

/-- A context in which "channel-0" exists and holds receipts for sequences 1 and 4. -/
def receiptCtx : Context :=
  Context.mk (KVStore.mk
    [(PacketReceiptKey channel0 1, [2]), (PacketReceiptKey channel0 4, [2]),
     (ChannelKey channel0, [1])]) height1

/-- A context without a channel in which a next-sequence-send counter of 5 is stored
under the key of "channel-0". -/
def counterOnlyCtx : Context :=
  Context.mk (KVStore.mk [(NextSequenceSendKey channel0, Uint64ToBigEndian 5)]) height1

/-- A context in which "channel-0" exists with its next-sequence-send counter at 7,
a commitment at sequence 2 and an acknowledgement at sequence 3. -/
def lookupCtx : Context :=
  Context.mk (KVStore.mk
    [(PacketCommitmentKey channel0 2, [171, 205]), (PacketAcknowledgementKey channel0 3, [239]),
     (ChannelKey channel0, [1]), (NextSequenceSendKey channel0, Uint64ToBigEndian 7)]) height1

/-- A context in which "channel-0" exists and nothing else is stored. -/
def channelOnlyCtx : Context :=
  Context.mk (KVStore.mk [(ChannelKey channel0, [1])]) height1

/-- A well-formed store in which "channel-0" exists and holds commitments at the
sequences 1, 2 and 300. -/
def ascendingCtx : Context :=
  Context.mk (KVStore.mk
    [(PacketCommitmentKey channel0 1, [10]), (PacketCommitmentKey channel0 2, [20]),
     (PacketCommitmentKey channel0 300, [30]), (ChannelKey channel0, [1])]) height1

/-- A store in which "channel-0" exists and holds one commitment, at sequence 47,
whose big-endian key ends in the byte of "/". -/
def slashCtx : Context :=
  Context.mk (KVStore.mk
    [(PacketCommitmentKey channel0 47, [171, 205]), (ChannelKey channel0, [1])]) height1

/-- A store in which "channel-0" exists and holds one commitment, at sequence 12032,
whose big-endian key has the byte of "/" in its seventh place. -/
def slashInsideCtx : Context :=
  Context.mk (KVStore.mk
    [(PacketCommitmentKey channel0 12032, [171, 205]), (ChannelKey channel0, [1])]) height1

/-- The sequence the callback of `PacketCommitments` reads from a key (lines 119 to
121 of grpc_query.go): the big-endian value of the last "/"-separated segment;
`none` when the decoding panics. -/
def keySequence (key : Bytes) : Option Nat :=
  (stringsSplit slash key).getLast?.bind BigEndianToUint64

/-- Calling `onResult` on the entries of a list in order, stopping at the first
error: what the loops of `query.Paginate` do with the entries they visit. -/
def visitEntries {σ : Type} (onResult : Bytes → Bytes → σ → Except Error σ) :
    List (Bytes × Bytes) → σ → Except Error σ
  | [], acc => .ok acc
  | (key, value) :: rest, acc =>
    match onResult key value acc with
    | .error e => .error e
    | .ok acc1 => visitEntries onResult rest acc1

/-- The entries a page request selects from the entries of a prefix store, in the
direction of the request: with a cursor key, the first `Limit` entries of the
iterator; otherwise the entries at its places `Offset + 1` to `Offset + Limit`
(the sum taken as a 64-bit number); none when the iterator cannot be opened. -/
def pageWindow (entries : List (Bytes × Bytes)) (pageRequest : Option PageRequest) :
    List (Bytes × Bytes) :=
  let p := initPageRequestDefaults pageRequest
  match getIterator entries p.Key p.Reverse with
  | none => []
  | some iterator =>
    if p.Key.length ≠ 0 then iterator.take p.Limit
    else (iterator.drop p.Offset).take ((p.Offset + p.Limit) % 2 ^ 64 - p.Offset)

/-- A well-formed store in which "channel-0" exists and holds commitments at the
sequences 5 and 47; the key of 47 ends in the byte of "/" and decodes to 0. -/
def zeroKeyCtx : Context :=
  Context.mk (KVStore.mk
    [(PacketCommitmentKey channel0 5, [50]), (PacketCommitmentKey channel0 47, [51]),
     (ChannelKey channel0, [1])]) height1

end ChannelV2

/-!
# Packet lifecycle, escrow accounting and the authorization gate

The transfer application, the packet lifecycle engine under it and the authz
grant of transfers are not among the sources: only their end-to-end tests are
(`e2e/tests/transfer`). The definitions of this part follow sections 3, 4.2, 4.3,
4.4 and 5 of the specification. A chain is a record of the stores the
specification lists; an operation returns the new chain state or an error, and a
failed transaction leaves the state as it was.
-/

namespace Transfer

/-- Modelled from the spec: an account address. -/
abbrev Address := String

/-- Modelled from the spec: a port or channel identifier. -/
abbrev Identifier := String

/-- Modelled from the spec: a denomination with its trace, the (port, channel) hops it
was received over, last hop first, and its base denomination. A native
denomination has an empty trace. -/
structure Denom where
  trace : List (Identifier × Identifier)
  base : String
deriving DecidableEq, Repr

/-- Modelled from the spec: the handshake status of a channel (section 3). -/
inductive ChannelState where
  | Uninitialized
  | Init
  | TryOpen
  | Open
  | Closed
deriving DecidableEq, Repr

/-- Modelled from the spec: the ordering mode of a channel (section 3). -/
inductive Order where
  | Unordered
  | Ordered
deriving DecidableEq, Repr

/-- Modelled from the spec: a channel end (section 3); its identity (port, channel) is
the key it is stored under. -/
structure Channel where
  state : ChannelState
  ordering : Order
  counterpartyPort : Identifier
  counterpartyChannel : Identifier
  connectionHops : List Identifier
deriving DecidableEq, Repr

/-- Modelled from the spec: the data of a transfer packet: denomination, amount,
sender and receiver. -/
structure FungibleTokenPacketData where
  denom : Denom
  amount : Nat
  sender : Address
  receiver : Address
deriving DecidableEq, Repr

/-- Modelled from the spec: a packet (section 3), its data decoded. -/
structure Packet where
  sequence : Nat
  sourcePort : Identifier
  sourceChannel : Identifier
  destPort : Identifier
  destChannel : Identifier
  data : FungibleTokenPacketData
  timeoutHeight : Nat
  timeoutTimestamp : Nat
deriving DecidableEq, Repr

/-- Modelled from the spec: the outcome an acknowledgement encodes, success or error. -/
inductive Acknowledgement where
  | success
  | error
deriving DecidableEq, Repr

/-- Modelled from the spec: an allocation of a transfer authorization (sections 3 and
4.4): a port and channel, a spend limit per denomination and a receiver allow
list, where the empty list allows every receiver. -/
structure Allocation where
  sourcePort : Identifier
  sourceChannel : Identifier
  spendLimit : Denom → Nat
  allowList : List Address

/-- Modelled from the spec: the state of one chain: its clock, the channel ends, the
sequence counters, the commitment, receipt and acknowledgement stores (a
commitment stands for the hash of its packet), the account balances, the escrow
balance per channel and denomination, the total-escrow counter per denomination
and the grants per (granter, grantee). -/
structure Chain where
  height : Nat
  timestamp : Nat
  channels : Identifier → Identifier → Option Channel
  nextSequenceSend : Identifier → Identifier → Nat
  nextSequenceRecv : Identifier → Identifier → Nat
  nextSequenceAck : Identifier → Identifier → Nat
  commitments : Identifier → Identifier → Nat → Option Packet
  receipts : Identifier → Identifier → Nat → Bool
  acknowledgements : Identifier → Identifier → Nat → Option Acknowledgement
  balances : Address → Denom → Nat
  escrow : Identifier → Identifier → Denom → Nat
  totalEscrow : Denom → Nat
  grants : Address → Address → Option (List Allocation)

/-- Modelled from the spec: the errors of sections 4.2, 4.4 and 7. -/
inductive Err where
  | ChannelNotFound
  | ChannelNotOpen
  | InvalidTimeout
  | InsufficientFunds
  | NoAuthorizationFound
  | InvalidAddress
  | ProofVerificationFailed
  | InvalidPacket
  | PacketTimedOut
  | PacketReplayed
  | OutOfOrder
  | CommitmentNotFound
  | TimeoutNotReached
  | EscrowInvariantViolated
deriving DecidableEq, Repr

/-- Modelled from the spec: the largest representable amount (a 256-bit number). -/
def maxAmount : Nat := 2 ^ 256 - 1

/-- Modelled from the spec: a timeout is in the future of a clock when each of
its thresholds is zero (no constraint) or above the clock (section 4.2,
SendPacket). -/
def timeoutInFuture (timeoutHeight timeoutTimestamp height timestamp : Nat) : Bool :=
  (timeoutHeight == 0 || decide (height < timeoutHeight))
    && (timeoutTimestamp == 0 || decide (timestamp < timeoutTimestamp))

/-- Modelled from the spec: a packet is timed out by either threshold, height or
timestamp, that is set to non-zero and is exceeded by the clock; with both zero it
never times out (section 4.2, edge policy). -/
def timedOut (timeoutHeight timeoutTimestamp height timestamp : Nat) : Bool :=
  (timeoutHeight != 0 && decide (timeoutHeight < height))
    || (timeoutTimestamp != 0 && decide (timeoutTimestamp < timestamp))

/-! ## Packet lifecycle engine -/

/-- Modelled from the spec: `SendPacket` (section 4.2): the channel must exist and be
open and the timeout be in the future of the chain's clock; the packet gets the
sequence `nextSequenceSend`, the counter is incremented and the commitment
written. -/
def SendPacket (c : Chain) (port channel : Identifier) (data : FungibleTokenPacketData)
    (timeoutHeight timeoutTimestamp : Nat) : Except Err (Chain × Packet) :=
  match c.channels port channel with
  | none => .error .ChannelNotFound
  | some ch =>
    if ch.state ≠ .Open then .error .ChannelNotOpen
    else if !timeoutInFuture timeoutHeight timeoutTimestamp c.height c.timestamp then
      .error .InvalidTimeout
    else
      let sequence := c.nextSequenceSend port channel
      let packet := Packet.mk sequence port channel ch.counterpartyPort ch.counterpartyChannel
        data timeoutHeight timeoutTimestamp
      .ok ({ c with
              nextSequenceSend := fun p ch1 =>
                if p = port ∧ ch1 = channel then sequence + 1 else c.nextSequenceSend p ch1
              commitments := fun p ch1 s =>
                if p = port ∧ ch1 = channel ∧ s = sequence then some packet
                else c.commitments p ch1 s }, packet)

/-! ## Escrow accounting -/

/-- Modelled from the spec: the sending chain is the source of a token when the
trace of the denomination does not carry the sending channel as its last hop
(section 4.3). -/
def senderIsSource (port channel : Identifier) (denom : Denom) : Bool :=
  denom.trace.head? != some (port, channel)

/-- Modelled from the spec: the accounting of a send (section 4.3): with too few
funds the send fails; a source chain moves the funds from the sender to the escrow
of the channel and increments the total-escrow counter of the denomination; any
other chain burns the voucher. -/
def escrowOrBurn (c : Chain) (port channel : Identifier) (sender : Address) (denom : Denom)
    (amount : Nat) : Except Err Chain :=
  if c.balances sender denom < amount then .error .InsufficientFunds
  else if senderIsSource port channel denom then
    .ok { c with
          balances := fun a d =>
            if a = sender ∧ d = denom then c.balances a d - amount else c.balances a d
          escrow := fun p ch d =>
            if p = port ∧ ch = channel ∧ d = denom then c.escrow p ch d + amount
            else c.escrow p ch d
          totalEscrow := fun d =>
            if d = denom then c.totalEscrow d + amount else c.totalEscrow d }
  else
    .ok { c with
          balances := fun a d =>
            if a = sender ∧ d = denom then c.balances a d - amount else c.balances a d }

/-- Modelled from the spec: the message of a transfer. -/
structure MsgTransfer where
  sourcePort : Identifier
  sourceChannel : Identifier
  denom : Denom
  amount : Nat
  sender : Address
  receiver : Address
  timeoutHeight : Nat
  timeoutTimestamp : Nat
deriving DecidableEq, Repr

/-- Modelled from the spec: the transfer of `MsgTransfer`: `SendPacket`, and on its
success the accounting of the send (section 4.3). -/
def SendTransfer (c : Chain) (msg : MsgTransfer) : Except Err (Chain × Packet) :=
  match SendPacket c msg.sourcePort msg.sourceChannel
      (FungibleTokenPacketData.mk msg.denom msg.amount msg.sender msg.receiver)
      msg.timeoutHeight msg.timeoutTimestamp with
  | .error e => .error e
  | .ok (c1, packet) =>
    match escrowOrBurn c1 msg.sourcePort msg.sourceChannel msg.sender msg.denom msg.amount with
    | .error e => .error e
    | .ok c2 => .ok (c2, packet)

/-- Modelled from the spec: the reversal of a send on an error acknowledgement or a
timeout (section 4.3): a source chain refunds the escrow to the sender and
decrements the counter, any other chain mints the burned voucher again; an escrow
smaller than the amount is an invariant violation. -/
def refund (c : Chain) (packet : Packet) : Except Err Chain :=
  let d := packet.data
  if senderIsSource packet.sourcePort packet.sourceChannel d.denom then
    if c.escrow packet.sourcePort packet.sourceChannel d.denom < d.amount
        ∨ c.totalEscrow d.denom < d.amount then .error .EscrowInvariantViolated
    else
      .ok { c with
            balances := fun a dn =>
              if a = d.sender ∧ dn = d.denom then c.balances a dn + d.amount else c.balances a dn
            escrow := fun p ch dn =>
              if p = packet.sourcePort ∧ ch = packet.sourceChannel ∧ dn = d.denom then
                c.escrow p ch dn - d.amount
              else c.escrow p ch dn
            totalEscrow := fun dn =>
              if dn = d.denom then c.totalEscrow dn - d.amount else c.totalEscrow dn }
  else
    .ok { c with
          balances := fun a dn =>
            if a = d.sender ∧ dn = d.denom then c.balances a dn + d.amount else c.balances a dn }

/-- Modelled from the spec: the application callback of a receive (section 4.3). When
the denomination was sent out over this channel before (its last hop is the
packet's source port and channel) this chain is the source: the amount is released
from escrow to the receiver under the denomination without that hop, and the
counter decremented. Otherwise a voucher, the denomination prefixed by the
destination port and channel, is minted to the receiver; an amount that overflows
gives an error acknowledgement. A failure leaves the state as it is. -/
def OnRecvPacket (c : Chain) (packet : Packet) : Chain × Acknowledgement :=
  let d := packet.data
  if d.denom.trace.head? = some (packet.sourcePort, packet.sourceChannel) then
    let denom := Denom.mk d.denom.trace.tail d.denom.base
    if c.escrow packet.destPort packet.destChannel denom < d.amount
        ∨ c.totalEscrow denom < d.amount then (c, .error)
    else
      ({ c with
          balances := fun a dn =>
            if a = d.receiver ∧ dn = denom then c.balances a dn + d.amount else c.balances a dn
          escrow := fun p ch dn =>
            if p = packet.destPort ∧ ch = packet.destChannel ∧ dn = denom then
              c.escrow p ch dn - d.amount
            else c.escrow p ch dn
          totalEscrow := fun dn =>
            if dn = denom then c.totalEscrow dn - d.amount else c.totalEscrow dn }, .success)
  else
    let voucher := Denom.mk ((packet.destPort, packet.destChannel) :: d.denom.trace) d.denom.base
    if maxAmount < c.balances d.receiver voucher + d.amount then (c, .error)
    else
      ({ c with
          balances := fun a dn =>
            if a = d.receiver ∧ dn = voucher then c.balances a dn + d.amount
            else c.balances a dn }, .success)

/-- Modelled from the spec: `RecvPacket` (section 4.2). `proofVerified` is the answer
of the light client to the membership proof of the packet's commitment. The
channel must be open and be the packet's destination, the packet must not be timed
out on this chain's clock; an ordered channel takes only the sequence
`nextSequenceRecv` and increments it, an unordered one takes only a sequence
without receipt and writes the receipt. Then the application callback runs and its
acknowledgement is written. -/
def RecvPacket (c : Chain) (packet : Packet) (proofVerified : Bool) :
    Except Err (Chain × Acknowledgement) :=
  if !proofVerified then .error .ProofVerificationFailed
  else
    match c.channels packet.destPort packet.destChannel with
    | none => .error .ChannelNotFound
    | some ch =>
      if ch.state ≠ .Open then .error .ChannelNotOpen
      else if ch.counterpartyPort ≠ packet.sourcePort
          ∨ ch.counterpartyChannel ≠ packet.sourceChannel then .error .InvalidPacket
      else if timedOut packet.timeoutHeight packet.timeoutTimestamp c.height c.timestamp then
        .error .PacketTimedOut
      else
        let recorded : Except Err Chain :=
          match ch.ordering with
          | .Ordered =>
            if packet.sequence ≠ c.nextSequenceRecv packet.destPort packet.destChannel then
              .error .OutOfOrder
            else
              .ok { c with
                    nextSequenceRecv := fun p ch1 =>
                      if p = packet.destPort ∧ ch1 = packet.destChannel then packet.sequence + 1
                      else c.nextSequenceRecv p ch1 }
          | .Unordered =>
            if c.receipts packet.destPort packet.destChannel packet.sequence then
              .error .PacketReplayed
            else
              .ok { c with
                    receipts := fun p ch1 s =>
                      if p = packet.destPort ∧ ch1 = packet.destChannel ∧ s = packet.sequence
                      then true
                      else c.receipts p ch1 s }
        match recorded with
        | .error e => .error e
        | .ok c1 =>
          let (c2, ack) := OnRecvPacket c1 packet
          .ok ({ c2 with
                  acknowledgements := fun p ch1 s =>
                    if p = packet.destPort ∧ ch1 = packet.destChannel ∧ s = packet.sequence
                    then some ack
                    else c2.acknowledgements p ch1 s }, ack)

/-- Modelled from the spec: `AcknowledgePacket` (section 4.2). `proofVerified` is the
answer of the light client to the membership proof of the acknowledgement. The
commitment of the packet must still exist; it is deleted, the acknowledgement
counter advances, and the application callback reverses the send on an error
acknowledgement and does nothing on success. -/
def AcknowledgePacket (c : Chain) (packet : Packet) (ack : Acknowledgement)
    (proofVerified : Bool) : Except Err Chain :=
  if !proofVerified then .error .ProofVerificationFailed
  else if c.commitments packet.sourcePort packet.sourceChannel packet.sequence ≠ some packet then
    .error .CommitmentNotFound
  else
    let c1 : Chain :=
      { c with
        commitments := fun p ch s =>
          if p = packet.sourcePort ∧ ch = packet.sourceChannel ∧ s = packet.sequence then none
          else c.commitments p ch s
        nextSequenceAck := fun p ch =>
          if p = packet.sourcePort ∧ ch = packet.sourceChannel then
            c.nextSequenceAck p ch + 1
          else c.nextSequenceAck p ch }
    match ack with
    | .success => .ok c1
    | .error => refund c1 packet

/-- Modelled from the spec: `TimeoutPacket` (section 4.2). `proofVerified` is the
answer of the light client to the proof that the receiving chain has written no
receipt at a height past the timeout. The commitment must still exist; it is
deleted, the application callback reverses the send, and an ordered channel is
closed. -/
def TimeoutPacket (c : Chain) (packet : Packet) (proofVerified : Bool) : Except Err Chain :=
  if !proofVerified then .error .ProofVerificationFailed
  else if c.commitments packet.sourcePort packet.sourceChannel packet.sequence ≠ some packet then
    .error .CommitmentNotFound
  else
    let c1 : Chain :=
      { c with
        commitments := fun p ch s =>
          if p = packet.sourcePort ∧ ch = packet.sourceChannel ∧ s = packet.sequence then none
          else c.commitments p ch s
        channels := fun p ch =>
          if p = packet.sourcePort ∧ ch = packet.sourceChannel then
            (c.channels p ch).map (fun e =>
              match e.ordering with
              | .Ordered => { e with state := .Closed }
              | .Unordered => e)
          else c.channels p ch }
    refund c1 packet

/-! ## The light client of an honest relayer -/

/-- Modelled from the spec: the answer of the light client to a membership proof of a
packet commitment (section 6): the counterparty holds the commitment of this
packet under its source channel and sequence. -/
def verifyCommitment (counterparty : Chain) (packet : Packet) : Bool :=
  decide (counterparty.commitments packet.sourcePort packet.sourceChannel packet.sequence
    = some packet)

/-- Modelled from the spec: the answer of the light client to a membership proof of
an acknowledgement: the counterparty holds this acknowledgement for the packet. -/
def verifyAcknowledgement (counterparty : Chain) (packet : Packet) (ack : Acknowledgement) :
    Bool :=
  decide (counterparty.acknowledgements packet.destPort packet.destChannel packet.sequence
    = some ack)

/-- Modelled from the spec: the answer of the light client to the non-membership
proof of a timeout: the clock of the counterparty is past the packet's timeout and
it has not received the packet (no receipt on an unordered channel, the sequence
not yet reached on an ordered one). -/
def verifyNoReceipt (counterparty : Chain) (packet : Packet) : Bool :=
  timedOut packet.timeoutHeight packet.timeoutTimestamp counterparty.height
      counterparty.timestamp
    && match counterparty.channels packet.destPort packet.destChannel with
       | none => true
       | some ch =>
         match ch.ordering with
         | .Ordered =>
           decide (counterparty.nextSequenceRecv packet.destPort packet.destChannel
             ≤ packet.sequence)
         | .Unordered => !counterparty.receipts packet.destPort packet.destChannel packet.sequence

/-! ## Authorization gate -/

/-- Modelled from the spec: the allocation of an authorization that matches a port
and channel, the first one if several do (section 4.4). -/
def findAllocation (port channel : Identifier) : List Allocation → Option Allocation
  | [] => none
  | al :: rest =>
    if al.sourcePort = port ∧ al.sourceChannel = channel then some al
    else findAllocation port channel rest

/-- Modelled from the spec: the allocations after the matching one has its spend
limit for `denom` decremented by `amount` (section 4.4). -/
def spendAllocation (port channel : Identifier) (denom : Denom) (amount : Nat) :
    List Allocation → List Allocation
  | [] => []
  | al :: rest =>
    if al.sourcePort = port ∧ al.sourceChannel = channel then
      { al with spendLimit := fun d => if d = denom then al.spendLimit d - amount
                                       else al.spendLimit d } :: rest
    else al :: spendAllocation port channel denom amount rest

/-- Modelled from the spec: `MsgGrant` installs or replaces the allocations of
(granter, grantee) (section 4.4). -/
def MsgGrant (c : Chain) (granter grantee : Address) (allocations : List Allocation) : Chain :=
  { c with
    grants := fun g e => if g = granter ∧ e = grantee then some allocations else c.grants g e }

/-- Modelled from the spec: `MsgRevoke` deletes the grant unconditionally
(section 4.4). -/
def MsgRevoke (c : Chain) (granter grantee : Address) : Chain :=
  { c with
    grants := fun g e => if g = granter ∧ e = grantee then none else c.grants g e }

/-- Modelled from the spec: `MsgExec` with an inner transfer message (section 4.4),
the granter being the sender of the transfer. Without a grant or a matching
allocation it fails with NoAuthorizationFound; a receiver outside a non-empty
allow list gives InvalidAddress; an amount above the remaining spend limit of
the denomination gives InsufficientFunds; otherwise the spend limit is
decremented by the amount and the transfer runs. -/
def MsgExec (c : Chain) (grantee : Address) (msg : MsgTransfer) :
    Except Err (Chain × Packet) :=
  match c.grants msg.sender grantee with
  | none => .error .NoAuthorizationFound
  | some allocations =>
    match findAllocation msg.sourcePort msg.sourceChannel allocations with
    | none => .error .NoAuthorizationFound
    | some al =>
      if al.allowList ≠ [] ∧ msg.receiver ∉ al.allowList then .error .InvalidAddress
      else if al.spendLimit msg.denom < msg.amount then .error .InsufficientFunds
      else
        SendTransfer
          { c with
            grants := fun g e =>
              if g = msg.sender ∧ e = grantee then
                some (spendAllocation msg.sourcePort msg.sourceChannel msg.denom msg.amount
                  allocations)
              else c.grants g e }
          msg

/-- Modelled from the spec: the remaining spend limit of the allocation of (granter,
grantee) for a port, channel and denomination, if there is one. -/
def remainingSpendLimit (c : Chain) (granter grantee : Address) (port channel : Identifier)
    (denom : Denom) : Option Nat :=
  match c.grants granter grantee with
  | none => none
  | some allocations => (findAllocation port channel allocations).map (fun al => al.spendLimit denom)

/-- Modelled from the spec: the state after a transaction (section 5): the new state
when the operation succeeded, the old one when it failed. -/
def afterTx {α : Type} (c : Chain) (result : Except Err (Chain × α)) : Chain :=
  match result with
  | .ok (c1, _) => c1
  | .error _ => c

/-- Modelled from the spec: the voucher denomination a chain mints for a denomination
received over one of its channels: the denomination prefixed by that port and
channel (section 4.3). -/
def voucherDenom (port channel : Identifier) (denom : Denom) : Denom :=
  Denom.mk ((port, channel) :: denom.trace) denom.base

/-- Modelled from the spec: whether a chain can take a sequence on a channel
(section 4.2, RecvPacket): an ordered channel takes `nextSequenceRecv` only, an
unordered channel any sequence without a receipt. -/
def sequenceAcceptable (c : Chain) (port channel : Identifier) (sequence : Nat) : Bool :=
  match c.channels port channel with
  | none => false
  | some ch =>
    match ch.ordering with
    | .Ordered => decide (sequence = c.nextSequenceRecv port channel)
    | .Unordered => !c.receipts port channel sequence

/-! ## Sample chains -/

/-- The native denomination "uatom". -/
def uatom : Denom := Denom.mk [] "uatom"

/-- An open unordered transfer channel end whose counterparty is channel-7. -/
def channelEndA : Channel := Channel.mk .Open .Unordered "transfer" "channel-7" ["connection-0"]

/-- An open unordered transfer channel end whose counterparty is channel-0. -/
def channelEndB : Channel := Channel.mk .Open .Unordered "transfer" "channel-0" ["connection-3"]

/-- A chain at height 10 with the transfer channel channel-0 open, on which "alice"
holds 1000 uatom. -/
def chainA : Chain where
  height := 10
  timestamp := 1000
  channels := fun p ch => if p = "transfer" ∧ ch = "channel-0" then some channelEndA else none
  nextSequenceSend := fun _ _ => 1
  nextSequenceRecv := fun _ _ => 1
  nextSequenceAck := fun _ _ => 1
  commitments := fun _ _ _ => none
  receipts := fun _ _ _ => false
  acknowledgements := fun _ _ _ => none
  balances := fun a d => if a = "alice" ∧ d = uatom then 1000 else 0
  escrow := fun _ _ _ => 0
  totalEscrow := fun _ => 0
  grants := fun _ _ => none

/-- The counterparty chain at height 20 with the transfer channel channel-7 open. -/
def chainB : Chain where
  height := 20
  timestamp := 2000
  channels := fun p ch => if p = "transfer" ∧ ch = "channel-7" then some channelEndB else none
  nextSequenceSend := fun _ _ => 1
  nextSequenceRecv := fun _ _ => 1
  nextSequenceAck := fun _ _ => 1
  commitments := fun _ _ _ => none
  receipts := fun _ _ _ => false
  acknowledgements := fun _ _ _ => none
  balances := fun _ _ => 0
  escrow := fun _ _ _ => 0
  totalEscrow := fun _ => 0
  grants := fun _ _ => none

/-- The allocation of the tests: port transfer, channel-0, a limit of uatom and the
receiver "bob" allowed. -/
def sampleAllocation (limit : Nat) : Allocation where
  sourcePort := "transfer"
  sourceChannel := "channel-0"
  spendLimit := fun d => if d = uatom then limit else 0
  allowList := ["bob"]

/-- A transfer of uatom from "alice" to "bob" over transfer/channel-0, timeout
height 15. -/
def sampleTransfer (amount : Nat) : MsgTransfer :=
  MsgTransfer.mk "transfer" "channel-0" uatom amount "alice" "bob" 15 0

/-- The packet of the first transfer of 100 uatom from "alice" to "bob" over
transfer/channel-0. -/
def samplePacket : Packet :=
  Packet.mk 1 "transfer" "channel-0" "transfer" "channel-7"
    (FungibleTokenPacketData.mk uatom 100 "alice" "bob") 15 0

/-- The voucher of uatom on the counterparty chain: uatom received over
transfer/channel-7. -/
def voucherUatom : Denom := Denom.mk [("transfer", "channel-7")] "uatom"

/-- A transfer of uatom from "alice" to "bob" over transfer/channel-0 with timeout
height 30, which chain B at height 20 still accepts. -/
def roundTripTransfer (amount : Nat) : MsgTransfer :=
  MsgTransfer.mk "transfer" "channel-0" uatom amount "alice" "bob" 30 0

/-- The packet of the first transfer of 100 uatom with timeout height 30. -/
def roundTripPacket : Packet :=
  Packet.mk 1 "transfer" "channel-0" "transfer" "channel-7"
    (FungibleTokenPacketData.mk uatom 100 "alice" "bob") 30 0

end Transfer

namespace ChannelV2

/-! ## Helper lemmas -/

theorem GetPacketReceipt_found (ctx : Context) (channelID : Bytes) (seq : Nat) :
    (GetPacketReceipt ctx channelID seq).2 = ctx.store.Has (PacketReceiptKey channelID seq) := by
  unfold GetPacketReceipt KVStore.Has
  cases ctx.store.Get (PacketReceiptKey channelID seq) <;> rfl

theorem unreceivedLoop_eq_filter (ctx : Context) (channelID : Bytes) (seqs : List Nat) :
    ∀ acc : List Nat, (∀ s ∈ seqs, s ≠ 0) →
      unreceivedLoop ctx channelID seqs acc
        = .ok (acc ++ seqs.filter (fun s => !ctx.store.Has (PacketReceiptKey channelID s))) := by
  induction seqs with
  | nil => intro acc _; simp [unreceivedLoop]
  | cons s rest ih =>
    intro acc hnz
    have hs : s ≠ 0 := hnz s (List.mem_cons_self _ _)
    have hrest : ∀ t ∈ rest, t ≠ 0 := fun t ht => hnz t (List.mem_cons_of_mem _ ht)
    unfold unreceivedLoop
    rw [if_neg hs, GetPacketReceipt_found]
    cases hrec : ctx.store.Has (PacketReceiptKey channelID s)
    · simp [ih _ hrest, List.filter_cons, hrec]
    · simp [ih _ hrest, List.filter_cons, hrec]

theorem unreceivedLoop_zero (ctx : Context) (channelID : Bytes) (seqs : List Nat) :
    ∀ acc : List Nat, 0 ∈ seqs →
      unreceivedLoop ctx channelID seqs acc = .error (.status .InvalidArgument) := by
  induction seqs with
  | nil => intro acc h; simp at h
  | cons s rest ih =>
    intro acc h
    unfold unreceivedLoop
    by_cases hs : s = 0
    · rw [if_pos hs]
    · rw [if_neg hs]
      have hrest : 0 ∈ rest := by
        rcases List.mem_cons.mp h with h0 | h0
        · exact absurd h0.symm hs
        · exact h0
      split <;> exact ih _ hrest

theorem unreceivedLoop_ok_nonzero (ctx : Context) (channelID : Bytes) (seqs : List Nat) :
    ∀ acc res : List Nat, unreceivedLoop ctx channelID seqs acc = .ok res → 0 ∉ acc → 0 ∉ res := by
  induction seqs with
  | nil =>
    intro acc res h hacc
    simp [unreceivedLoop] at h
    subst h
    exact hacc
  | cons s rest ih =>
    intro acc res h hacc
    unfold unreceivedLoop at h
    by_cases hs : s = 0
    · rw [if_pos hs] at h
      cases h
    · rw [if_neg hs] at h
      split at h
      · refine ih _ _ h ?_
        simp only [List.mem_append, List.mem_singleton, not_or]
        exact ⟨hacc, fun h0 => hs h0.symm⟩
      · exact ih _ _ h hacc

/-! ## Claims -/

/-- C1: for every store and every non-nil request whose channel id is valid, whose
channel exists and whose candidate sequences are all non-zero, `UnreceivedPackets`
succeeds and returns the candidate list filtered by "no packet receipt is stored
for (channelId, seq)", in the same order and with the same multiplicity. -/
theorem UnreceivedPackets_returns_unreceived (validate : Bytes → Bool) (ctx : Context)
    (req : QueryUnreceivedPacketsRequest)
    (hvalid : validate req.ChannelId = true)
    (hchan : HasChannel ctx req.ChannelId = true)
    (hnz : ∀ s ∈ req.Sequences, s ≠ 0) :
    UnreceivedPackets validate ctx (some req)
      = .ok (QueryUnreceivedPacketsResponse.mk
          (req.Sequences.filter (fun s => !ctx.store.Has (PacketReceiptKey req.ChannelId s)))
          (GetSelfHeight ctx)) := by
  simp [UnreceivedPackets, hvalid, hchan, unreceivedLoop_eq_filter ctx req.ChannelId _ [] hnz]

/-- Witness of C1: on a store with receipts for 1 and 4, the candidates 3, 1, 3, 5, 4
come back as 3, 3, 5. -/
theorem UnreceivedPackets_returns_unreceived_witness :
    UnreceivedPackets ChannelIdentifierValidator receiptCtx
      (some (QueryUnreceivedPacketsRequest.mk channel0 [3, 1, 3, 5, 4]))
      = .ok (QueryUnreceivedPacketsResponse.mk [3, 3, 5] height1) :=
  (UnreceivedPackets_returns_unreceived ChannelIdentifierValidator receiptCtx
    (QueryUnreceivedPacketsRequest.mk channel0 [3, 1, 3, 5, 4])
    (by decide) (by decide) (by decide)).trans (by decide)

/-- C2: for every store and every request with a valid channel id of an existing
channel, a candidate sequence 0 at any position makes `UnreceivedPackets` fail with
InvalidArgument, whatever receipts exist; and no successful call returns a list
containing 0. -/
theorem UnreceivedPackets_rejects_zero (validate : Bytes → Bool) (ctx : Context)
    (req : QueryUnreceivedPacketsRequest) :
    (validate req.ChannelId = true → HasChannel ctx req.ChannelId = true →
      0 ∈ req.Sequences →
      UnreceivedPackets validate ctx (some req) = .error (.status .InvalidArgument))
    ∧ (∀ resp, UnreceivedPackets validate ctx (some req) = .ok resp → 0 ∉ resp.Sequences) := by
  constructor
  · intro hvalid hchan hzero
    simp [UnreceivedPackets, hvalid, hchan, unreceivedLoop_zero ctx req.ChannelId _ [] hzero]
  · intro resp h
    unfold UnreceivedPackets at h
    simp only [] at h
    split at h
    · cases h
    · split at h
      · cases h
      · cases hloop : unreceivedLoop ctx req.ChannelId req.Sequences [] with
        | error e => rw [hloop] at h; cases h
        | ok res =>
          rw [hloop] at h
          cases h
          exact unreceivedLoop_ok_nonzero ctx req.ChannelId _ [] res hloop (by simp)

/-- Witness of C2: with receipts stored for 1 and 4, the candidates 3, 1, 0, 5 are
refused with InvalidArgument. -/
theorem UnreceivedPackets_rejects_zero_witness :
    UnreceivedPackets ChannelIdentifierValidator receiptCtx
      (some (QueryUnreceivedPacketsRequest.mk channel0 [3, 1, 0, 5]))
      = .error (.status .InvalidArgument) :=
  (UnreceivedPackets_rejects_zero ChannelIdentifierValidator receiptCtx
    (QueryUnreceivedPacketsRequest.mk channel0 [3, 1, 0, 5])).1 (by decide) (by decide) (by decide)

/-- C4: input validation precedes every state read. For each of the seven queries a
nil request or a channel id the validator rejects yields InvalidArgument, and for
`PacketCommitment`, `PacketAcknowledgement` and `PacketReceipt` a zero sequence with
a valid channel id yields InvalidArgument; the context is arbitrary, so the result
is the same for every store state. -/
theorem validation_precedes_state_read (validate : Bytes → Bool) (ctx : Context) :
    (Channel validate ctx none = .error (.status .InvalidArgument)
      ∧ NextSequenceSend validate ctx none = .error (.status .InvalidArgument)
      ∧ PacketCommitment validate ctx none = .error (.status .InvalidArgument)
      ∧ PacketCommitments validate ctx none = .error (.status .InvalidArgument)
      ∧ PacketAcknowledgement validate ctx none = .error (.status .InvalidArgument)
      ∧ PacketReceipt validate ctx none = .error (.status .InvalidArgument)
      ∧ UnreceivedPackets validate ctx none = .error (.status .InvalidArgument))
    ∧ (∀ id : Bytes, validate id = false →
        Channel validate ctx (some (QueryChannelRequest.mk id))
          = .error (.status .InvalidArgument)
        ∧ NextSequenceSend validate ctx (some (QueryNextSequenceSendRequest.mk id))
          = .error (.status .InvalidArgument)
        ∧ (∀ seq, PacketCommitment validate ctx (some (QueryPacketCommitmentRequest.mk id seq))
          = .error (.status .InvalidArgument))
        ∧ (∀ page, PacketCommitments validate ctx (some (QueryPacketCommitmentsRequest.mk id page))
          = .error (.status .InvalidArgument))
        ∧ (∀ seq, PacketAcknowledgement validate ctx
            (some (QueryPacketAcknowledgementRequest.mk id seq))
          = .error (.status .InvalidArgument))
        ∧ (∀ seq, PacketReceipt validate ctx (some (QueryPacketReceiptRequest.mk id seq))
          = .error (.status .InvalidArgument))
        ∧ (∀ seqs, UnreceivedPackets validate ctx (some (QueryUnreceivedPacketsRequest.mk id seqs))
          = .error (.status .InvalidArgument)))
    ∧ (∀ id : Bytes, validate id = true →
        PacketCommitment validate ctx (some (QueryPacketCommitmentRequest.mk id 0))
          = .error (.status .InvalidArgument)
        ∧ PacketAcknowledgement validate ctx (some (QueryPacketAcknowledgementRequest.mk id 0))
          = .error (.status .InvalidArgument)
        ∧ PacketReceipt validate ctx (some (QueryPacketReceiptRequest.mk id 0))
          = .error (.status .InvalidArgument)) := by
  refine ⟨⟨rfl, rfl, rfl, rfl, rfl, rfl, rfl⟩, ?_, ?_⟩
  · intro id hid
    refine ⟨?_, ?_, ?_, ?_, ?_, ?_, ?_⟩
    · simp [Channel, hid]
    · simp [NextSequenceSend, hid]
    · intro seq; simp [PacketCommitment, hid]
    · intro page; simp [PacketCommitments, hid]
    · intro seq; simp [PacketAcknowledgement, hid]
    · intro seq; simp [PacketReceipt, hid]
    · intro seqs; simp [UnreceivedPackets, hid]
  · intro id hid
    refine ⟨?_, ?_, ?_⟩
    · simp [PacketCommitment, hid]
    · simp [PacketAcknowledgement, hid]
    · simp [PacketReceipt, hid]

/-- Witness of C4: the identifier "/" is rejected and "channel-0" accepted by the
validator of the model, and a zero-sequence commitment query on the latter fails
with InvalidArgument on a store where the channel exists. -/
theorem validation_precedes_state_read_witness :
    PacketCommitments ChannelIdentifierValidator lookupCtx
        (some (QueryPacketCommitmentsRequest.mk [47] none)) = .error (.status .InvalidArgument)
    ∧ PacketCommitment ChannelIdentifierValidator lookupCtx
        (some (QueryPacketCommitmentRequest.mk channel0 0)) = .error (.status .InvalidArgument) :=
  ⟨((validation_precedes_state_read ChannelIdentifierValidator lookupCtx).2.1 [47]
      (by decide)).2.2.2.1 none,
   ((validation_precedes_state_read ChannelIdentifierValidator lookupCtx).2.2 channel0
      (by decide)).1⟩

/-- Counterexample to C5: on a store without the channel, a request with a valid
channel id whose only candidate is 0 fails with NotFound, not InvalidArgument. -/
theorem UnreceivedPackets_zero_missing_channel_NotFound :
    ChannelIdentifierValidator channel0 = true
    ∧ 0 ∈ [0]
    ∧ UnreceivedPackets ChannelIdentifierValidator emptyCtx
        (some (QueryUnreceivedPacketsRequest.mk channel0 [0])) = .error (.status .NotFound)
    ∧ ¬ (∀ (validate : Bytes → Bool) (ctx : Context) (req : QueryUnreceivedPacketsRequest),
          validate req.ChannelId = true → 0 ∈ req.Sequences →
          UnreceivedPackets validate ctx (some req) = .error (.status .InvalidArgument)) := by
  refine ⟨by decide, by decide, by decide, ?_⟩
  intro h
  have h1 := h ChannelIdentifierValidator emptyCtx
    (QueryUnreceivedPacketsRequest.mk channel0 [0]) (by decide) (by decide)
  revert h1
  decide

/-- C5 (amended): the channel's existence is checked before the candidates are
examined. For a valid channel id, when the channel does not exist the call fails
with NotFound whatever the candidates are; when it exists and the candidate list
contains 0 the call fails with InvalidArgument whatever receipts exist. -/
theorem UnreceivedPackets_zero_after_channel_check (validate : Bytes → Bool) (ctx : Context)
    (req : QueryUnreceivedPacketsRequest) (hvalid : validate req.ChannelId = true) :
    (HasChannel ctx req.ChannelId = false →
      UnreceivedPackets validate ctx (some req) = .error (.status .NotFound))
    ∧ (HasChannel ctx req.ChannelId = true → 0 ∈ req.Sequences →
      UnreceivedPackets validate ctx (some req) = .error (.status .InvalidArgument)) := by
  constructor
  · intro hchan
    simp [UnreceivedPackets, hvalid, hchan]
  · intro hchan hzero
    simp [UnreceivedPackets, hvalid, hchan, unreceivedLoop_zero ctx req.ChannelId _ [] hzero]

/-- Witness of C5 (amended): the candidates 2, 0 on a store where "channel-0" exists. -/
theorem UnreceivedPackets_zero_after_channel_check_witness :
    UnreceivedPackets ChannelIdentifierValidator channelOnlyCtx
      (some (QueryUnreceivedPacketsRequest.mk channel0 [2, 0]))
      = .error (.status .InvalidArgument) :=
  (UnreceivedPackets_zero_after_channel_check ChannelIdentifierValidator channelOnlyCtx
    (QueryUnreceivedPacketsRequest.mk channel0 [2, 0]) (by decide)).2 (by decide) (by decide)

/-! ### Lookups and the empty page -/

theorem HasChannel_false_GetChannel (ctx : Context) (id : Bytes)
    (h : HasChannel ctx id = false) : GetChannel ctx id = ([], false) := by
  unfold HasChannel KVStore.Has at h
  unfold GetChannel
  cases hget : ctx.store.Get (ChannelKey id) with
  | none => rfl
  | some bz => rw [hget] at h; simp at h

theorem bytesLt_nil_right (a : Bytes) : bytesLt a [] = false := by
  cases a <;> rfl

theorem storeIterator_nil_key (entries : List (Bytes × Bytes)) :
    storeIterator entries [] = entries := by
  unfold storeIterator
  simp [bytesLt_nil_right]

theorem getIterator_nil (start : Bytes) (reverse : Bool) :
    getIterator [] start reverse = some [] := by
  unfold getIterator
  cases reverse
  · simp [storeIterator]
  · by_cases hs : start.length ≠ 0
    · simp [hs, storeIterator, storeReverseIterator]
    · simp [hs, storeReverseIterator]

theorem getIterator_sublist (entries : List (Bytes × Bytes)) (start : Bytes) (reverse : Bool)
    (iterator : List (Bytes × Bytes)) (h : getIterator entries start reverse = some iterator) :
    iterator.Sublist (if reverse then entries.reverse else entries) := by
  unfold getIterator at h
  cases reverse
  · simp only [Bool.false_eq_true, if_false, Option.some.injEq] at h ⊢
    rw [← h]
    exact List.filter_sublist _
  · simp only [if_true] at h ⊢
    split at h
    · split at h
      · simp only [Option.some.injEq] at h
        rw [← h]
        exact List.Sublist.refl _
      · cases h
      · simp only [Option.some.injEq] at h
        rw [← h]
        exact (List.filter_sublist _).reverse
    · simp only [Option.some.injEq] at h
      rw [← h]
      exact List.Sublist.refl _

theorem getIterator_mem (entries : List (Bytes × Bytes)) (start : Bytes) (reverse : Bool)
    (iterator : List (Bytes × Bytes)) (h : getIterator entries start reverse = some iterator)
    (kv : Bytes × Bytes) (hkv : kv ∈ iterator) : kv ∈ entries := by
  have hsub := (getIterator_sublist entries start reverse iterator h).subset hkv
  cases reverse
  · simpa using hsub
  · simpa using hsub

theorem Paginate_nil {σ : Type} (page : Option PageRequest)
    (onResult : Bytes → Bytes → σ → Except Error σ) (acc : σ)
    (hpage : ∀ p, page = some p → p.Offset = 0 ∨ p.Key = []) :
    Paginate [] page onResult acc = .ok (acc, PageResponse.mk [] 0) := by
  have hok : ¬ (0 < (initPageRequestDefaults page).Offset
      ∧ (initPageRequestDefaults page).Key.length ≠ 0) := by
    rintro ⟨hoff, hkey⟩
    cases page with
    | none => simp [initPageRequestDefaults] at hoff
    | some p =>
      have hk : (initPageRequestDefaults (some p)).Key = p.Key := by
        unfold initPageRequestDefaults; simp only [Option.getD_some]; split <;> rfl
      have ho : (initPageRequestDefaults (some p)).Offset = p.Offset := by
        unfold initPageRequestDefaults; simp only [Option.getD_some]; split <;> rfl
      rw [hk] at hkey
      rw [ho] at hoff
      rcases hpage p rfl with h0 | h0
      · omega
      · rw [h0] at hkey; simp at hkey
  unfold Paginate
  simp only []
  rw [if_neg hok, getIterator_nil]
  simp only []
  split
  · simp [paginateKeyLoop]
  · simp [paginateOffsetLoop]

/-- C6: a missing channel is reported as NotFound, distinctly from "found but
empty". For a valid channel id, on a store with no such channel `Channel`,
`PacketCommitment`, `PacketCommitments`, `PacketAcknowledgement`, `PacketReceipt`
and `UnreceivedPackets` fail with NotFound on every request with non-zero
sequences; on a store where the channel exists, `PacketCommitments` over no
commitments (for a page request that does not set both offset and key) and
`UnreceivedPackets` over no candidates succeed with an empty list. -/
theorem missing_channel_NotFound_vs_empty (validate : Bytes → Bool) (ctx : Context)
    (id : Bytes) (hvalid : validate id = true) :
    (HasChannel ctx id = false →
      Channel validate ctx (some (QueryChannelRequest.mk id)) = .error (.status .NotFound)
      ∧ (∀ seq, seq ≠ 0 →
          PacketCommitment validate ctx (some (QueryPacketCommitmentRequest.mk id seq))
            = .error (.status .NotFound))
      ∧ (∀ page, PacketCommitments validate ctx (some (QueryPacketCommitmentsRequest.mk id page))
            = .error (.status .NotFound))
      ∧ (∀ seq, seq ≠ 0 →
          PacketAcknowledgement validate ctx (some (QueryPacketAcknowledgementRequest.mk id seq))
            = .error (.status .NotFound))
      ∧ (∀ seq, seq ≠ 0 →
          PacketReceipt validate ctx (some (QueryPacketReceiptRequest.mk id seq))
            = .error (.status .NotFound))
      ∧ (∀ seqs, (∀ s ∈ seqs, s ≠ 0) →
          UnreceivedPackets validate ctx (some (QueryUnreceivedPacketsRequest.mk id seqs))
            = .error (.status .NotFound)))
    ∧ (HasChannel ctx id = true →
      (∀ page, (∀ p, page = some p → p.Offset = 0 ∨ p.Key = []) →
          ctx.store.prefixEntries (PacketCommitmentPrefixKey id) = [] →
          PacketCommitments validate ctx (some (QueryPacketCommitmentsRequest.mk id page))
            = .ok (QueryPacketCommitmentsResponse.mk [] (PageResponse.mk [] 0)
                (GetSelfHeight ctx)))
      ∧ UnreceivedPackets validate ctx (some (QueryUnreceivedPacketsRequest.mk id []))
          = .ok (QueryUnreceivedPacketsResponse.mk [] (GetSelfHeight ctx))) := by
  constructor
  · intro hchan
    refine ⟨?_, ?_, ?_, ?_, ?_, ?_⟩
    · simp [Channel, hvalid, HasChannel_false_GetChannel ctx id hchan]
    · intro seq hseq; simp [PacketCommitment, hvalid, hseq, hchan]
    · intro page; simp [PacketCommitments, hvalid, hchan]
    · intro seq hseq; simp [PacketAcknowledgement, hvalid, hseq, hchan]
    · intro seq hseq; simp [PacketReceipt, hvalid, hseq, hchan]
    · intro seqs _; simp [UnreceivedPackets, hvalid, hchan]
  · intro hchan
    constructor
    · intro page hpage hempty
      simp [PacketCommitments, hvalid, hchan, hempty, Paginate_nil page _ _ hpage]
    · simp [UnreceivedPackets, hvalid, hchan, unreceivedLoop]

/-- Witness of C6: "channel-0" is missing from the empty store and present, without
commitments, in the store that holds only its channel end. -/
theorem missing_channel_NotFound_vs_empty_witness :
    Channel ChannelIdentifierValidator emptyCtx (some (QueryChannelRequest.mk channel0))
      = .error (.status .NotFound)
    ∧ PacketCommitments ChannelIdentifierValidator channelOnlyCtx
        (some (QueryPacketCommitmentsRequest.mk channel0 none))
      = .ok (QueryPacketCommitmentsResponse.mk [] (PageResponse.mk [] 0)
          (GetSelfHeight channelOnlyCtx)) :=
  ⟨((missing_channel_NotFound_vs_empty ChannelIdentifierValidator emptyCtx channel0
      (by decide)).1 (by decide)).1,
   ((missing_channel_NotFound_vs_empty ChannelIdentifierValidator channelOnlyCtx channel0
      (by decide)).2 (by decide)).1 none (by simp) (by decide)⟩

/-! ### The big-endian codec -/

theorem BigEndianToUint64_Uint64ToBigEndian (n : Nat) (h : n < 2 ^ 64) :
    BigEndianToUint64 (Uint64ToBigEndian n) = some n := by
  simp only [BigEndianToUint64, Uint64ToBigEndian, binaryBigEndianUint64, List.length_cons,
    List.length_nil]
  norm_num
  omega

/-- Counterexample to C7: a store in which no channel exists under "channel-0" but a
counter is stored under its next-sequence-send key; the query returns the counter
instead of NotFound. -/
theorem NextSequenceSend_missing_channel_returns_counter :
    ChannelIdentifierValidator channel0 = true
    ∧ HasChannel counterOnlyCtx channel0 = false
    ∧ NextSequenceSend ChannelIdentifierValidator counterOnlyCtx
        (some (QueryNextSequenceSendRequest.mk channel0))
      = .ok (QueryNextSequenceSendResponse.mk 5 [] height1)
    ∧ ¬ (∀ (validate : Bytes → Bool) (ctx : Context) (id : Bytes),
          validate id = true → HasChannel ctx id = false →
          NextSequenceSend validate ctx (some (QueryNextSequenceSendRequest.mk id))
            = .error (.status .NotFound)) := by
  refine ⟨by decide, by decide, by decide, ?_⟩
  intro h
  have h1 := h ChannelIdentifierValidator counterOnlyCtx channel0 (by decide) (by decide)
  revert h1
  decide

/-- C7 (amended): `NextSequenceSend` looks only at the next-sequence-send counter of
the requested (valid) channel id. When no counter is stored under the id the call
fails with NotFound; when a counter is stored it returns that counter, with the
self height, whether or not a channel end is stored. -/
theorem NextSequenceSend_reads_counter (validate : Bytes → Bool) (ctx : Context)
    (id : Bytes) (hvalid : validate id = true) :
    (ctx.store.Get (NextSequenceSendKey id) = none →
      NextSequenceSend validate ctx (some (QueryNextSequenceSendRequest.mk id))
        = .error (.status .NotFound))
    ∧ (∀ n, n < 2 ^ 64 → ctx.store.Get (NextSequenceSendKey id) = some (Uint64ToBigEndian n) →
      NextSequenceSend validate ctx (some (QueryNextSequenceSendRequest.mk id))
        = .ok (QueryNextSequenceSendResponse.mk n [] (GetSelfHeight ctx))) := by
  constructor
  · intro hnone
    simp [NextSequenceSend, hvalid, GetNextSequenceSend, hnone]
  · intro n hn hsome
    simp [NextSequenceSend, hvalid, GetNextSequenceSend, hsome,
      BigEndianToUint64_Uint64ToBigEndian n hn]

/-- Witness of C7 (amended): the counter 7 of "channel-0" is returned, and the empty
store gives NotFound. -/
theorem NextSequenceSend_reads_counter_witness :
    NextSequenceSend ChannelIdentifierValidator emptyCtx
        (some (QueryNextSequenceSendRequest.mk channel0)) = .error (.status .NotFound)
    ∧ NextSequenceSend ChannelIdentifierValidator lookupCtx
        (some (QueryNextSequenceSendRequest.mk channel0))
      = .ok (QueryNextSequenceSendResponse.mk 7 [] (GetSelfHeight lookupCtx)) :=
  ⟨(NextSequenceSend_reads_counter ChannelIdentifierValidator emptyCtx channel0
      (by decide)).1 (by decide),
   (NextSequenceSend_reads_counter ChannelIdentifierValidator lookupCtx channel0
      (by decide)).2 7 (by decide) (by decide)⟩

/-- C8: single commitment and acknowledgement lookups mirror each other and return
exactly what is stored. For a valid channel id of an existing channel and a
non-zero sequence, `PacketCommitment` (resp. `PacketAcknowledgement`) returns the
stored bytes when a non-empty hash is stored at (channelId, sequence), fails with
NotFound when nothing or the empty byte string is stored, and so succeeds if and
only if a non-empty hash is stored. -/
theorem single_lookups_return_stored (validate : Bytes → Bool) (ctx : Context)
    (id : Bytes) (seq : Nat) (hvalid : validate id = true)
    (hchan : HasChannel ctx id = true) (hseq : seq ≠ 0) :
    ((∀ bz, bz ≠ [] → ctx.store.Get (PacketCommitmentKey id seq) = some bz →
        PacketCommitment validate ctx (some (QueryPacketCommitmentRequest.mk id seq))
          = .ok (QueryPacketCommitmentResponse.mk bz [] (GetSelfHeight ctx)))
      ∧ ((ctx.store.Get (PacketCommitmentKey id seq) = none
            ∨ ctx.store.Get (PacketCommitmentKey id seq) = some []) →
        PacketCommitment validate ctx (some (QueryPacketCommitmentRequest.mk id seq))
          = .error (.status .NotFound))
      ∧ ((∃ resp, PacketCommitment validate ctx (some (QueryPacketCommitmentRequest.mk id seq))
            = .ok resp)
          ↔ ∃ bz, bz ≠ [] ∧ ctx.store.Get (PacketCommitmentKey id seq) = some bz))
    ∧ ((∀ bz, bz ≠ [] → ctx.store.Get (PacketAcknowledgementKey id seq) = some bz →
        PacketAcknowledgement validate ctx (some (QueryPacketAcknowledgementRequest.mk id seq))
          = .ok (QueryPacketAcknowledgementResponse.mk bz [] (GetSelfHeight ctx)))
      ∧ ((ctx.store.Get (PacketAcknowledgementKey id seq) = none
            ∨ ctx.store.Get (PacketAcknowledgementKey id seq) = some []) →
        PacketAcknowledgement validate ctx (some (QueryPacketAcknowledgementRequest.mk id seq))
          = .error (.status .NotFound))
      ∧ ((∃ resp, PacketAcknowledgement validate ctx
              (some (QueryPacketAcknowledgementRequest.mk id seq)) = .ok resp)
          ↔ ∃ bz, bz ≠ [] ∧ ctx.store.Get (PacketAcknowledgementKey id seq) = some bz)) := by
  constructor
  · have hsome : ∀ bz, bz ≠ [] → ctx.store.Get (PacketCommitmentKey id seq) = some bz →
        PacketCommitment validate ctx (some (QueryPacketCommitmentRequest.mk id seq))
          = .ok (QueryPacketCommitmentResponse.mk bz [] (GetSelfHeight ctx)) := by
      intro bz hbz hget
      simp [PacketCommitment, hvalid, hchan, hseq, GetPacketCommitment, hget, hbz]
    have hnone : (ctx.store.Get (PacketCommitmentKey id seq) = none
            ∨ ctx.store.Get (PacketCommitmentKey id seq) = some []) →
        PacketCommitment validate ctx (some (QueryPacketCommitmentRequest.mk id seq))
          = .error (.status .NotFound) := by
      rintro (hget | hget) <;>
        simp [PacketCommitment, hvalid, hchan, hseq, GetPacketCommitment, hget]
    refine ⟨hsome, hnone, ?_⟩
    constructor
    · rintro ⟨resp, hresp⟩
      cases hget : ctx.store.Get (PacketCommitmentKey id seq) with
      | none => rw [hnone (Or.inl hget)] at hresp; cases hresp
      | some bz =>
        cases bz with
        | nil => rw [hnone (Or.inr hget)] at hresp; cases hresp
        | cons b bs => exact ⟨b :: bs, by simp, rfl⟩
    · rintro ⟨bz, hbz, hget⟩
      exact ⟨_, hsome bz hbz hget⟩
  · have hsome : ∀ bz, bz ≠ [] → ctx.store.Get (PacketAcknowledgementKey id seq) = some bz →
        PacketAcknowledgement validate ctx (some (QueryPacketAcknowledgementRequest.mk id seq))
          = .ok (QueryPacketAcknowledgementResponse.mk bz [] (GetSelfHeight ctx)) := by
      intro bz hbz hget
      simp [PacketAcknowledgement, hvalid, hchan, hseq, GetPacketAcknowledgement, hget, hbz]
    have hnone : (ctx.store.Get (PacketAcknowledgementKey id seq) = none
            ∨ ctx.store.Get (PacketAcknowledgementKey id seq) = some []) →
        PacketAcknowledgement validate ctx (some (QueryPacketAcknowledgementRequest.mk id seq))
          = .error (.status .NotFound) := by
      rintro (hget | hget) <;>
        simp [PacketAcknowledgement, hvalid, hchan, hseq, GetPacketAcknowledgement, hget]
    refine ⟨hsome, hnone, ?_⟩
    constructor
    · rintro ⟨resp, hresp⟩
      cases hget : ctx.store.Get (PacketAcknowledgementKey id seq) with
      | none => rw [hnone (Or.inl hget)] at hresp; cases hresp
      | some bz =>
        cases bz with
        | nil => rw [hnone (Or.inr hget)] at hresp; cases hresp
        | cons b bs => exact ⟨b :: bs, by simp, rfl⟩
    · rintro ⟨bz, hbz, hget⟩
      exact ⟨_, hsome bz hbz hget⟩

/-- Witness of C8: the commitment stored at sequence 2 of "channel-0" is returned,
and the acknowledgement lookup at sequence 2, where none is stored, is NotFound. -/
theorem single_lookups_return_stored_witness :
    PacketCommitment ChannelIdentifierValidator lookupCtx
        (some (QueryPacketCommitmentRequest.mk channel0 2))
      = .ok (QueryPacketCommitmentResponse.mk [171, 205] [] (GetSelfHeight lookupCtx))
    ∧ PacketAcknowledgement ChannelIdentifierValidator lookupCtx
        (some (QueryPacketAcknowledgementRequest.mk channel0 2))
      = .error (.status .NotFound) :=
  ⟨(single_lookups_return_stored ChannelIdentifierValidator lookupCtx channel0 2
      (by decide) (by decide) (by decide)).1.1 [171, 205] (by decide) (by decide),
   (single_lookups_return_stored ChannelIdentifierValidator lookupCtx channel0 2
      (by decide) (by decide) (by decide)).2.2.1 (Or.inl (by decide))⟩

/-- C9: `PacketReceipt` reports receipt existence as a boolean, not as an error. For
a valid channel id of an existing channel and a non-zero sequence the call
succeeds, and its Received flag is true exactly when a receipt is stored for
(channelId, sequence); a missing receipt never gives NotFound. -/
theorem PacketReceipt_reports_existence (validate : Bytes → Bool) (ctx : Context)
    (id : Bytes) (seq : Nat) (hvalid : validate id = true)
    (hchan : HasChannel ctx id = true) (hseq : seq ≠ 0) :
    PacketReceipt validate ctx (some (QueryPacketReceiptRequest.mk id seq))
        = .ok (QueryPacketReceiptResponse.mk (ctx.store.Has (PacketReceiptKey id seq)) []
            (GetSelfHeight ctx))
    ∧ PacketReceipt validate ctx (some (QueryPacketReceiptRequest.mk id seq))
        ≠ .error (.status .NotFound) := by
  have h : PacketReceipt validate ctx (some (QueryPacketReceiptRequest.mk id seq))
        = .ok (QueryPacketReceiptResponse.mk (ctx.store.Has (PacketReceiptKey id seq)) []
            (GetSelfHeight ctx)) := by
    simp [PacketReceipt, hvalid, hchan, hseq, HasPacketReceipt]
  exact ⟨h, by rw [h]; intro hne; cases hne⟩

/-- Witness of C9: on the store with receipts for 1 and 4, sequence 4 is received and
sequence 5 is not. -/
theorem PacketReceipt_reports_existence_witness :
    PacketReceipt ChannelIdentifierValidator receiptCtx
        (some (QueryPacketReceiptRequest.mk channel0 4))
      = .ok (QueryPacketReceiptResponse.mk true [] height1)
    ∧ PacketReceipt ChannelIdentifierValidator receiptCtx
        (some (QueryPacketReceiptRequest.mk channel0 5))
      = .ok (QueryPacketReceiptResponse.mk false [] height1) :=
  ⟨(PacketReceipt_reports_existence ChannelIdentifierValidator receiptCtx channel0 4
      (by decide) (by decide) (by decide)).1.trans (by decide),
   (PacketReceipt_reports_existence ChannelIdentifierValidator receiptCtx channel0 5
      (by decide) (by decide) (by decide)).1.trans (by decide)⟩

/-! ### Byte order and numeric order -/

theorem beValue_lt (xs : Bytes) (h : ∀ x ∈ xs, x < 256) : beValue xs < 256 ^ xs.length := by
  induction xs with
  | nil => simp [beValue]
  | cons x xs ih =>
    have hx : x < 256 := h x (List.mem_cons_self _ _)
    have hxs := ih (fun y hy => h y (List.mem_cons_of_mem _ hy))
    simp only [beValue, List.length_cons, pow_succ]
    have h1 : x * 256 ^ xs.length + 256 ^ xs.length ≤ 256 ^ xs.length * 256 := by
      have h2 : (x + 1) * 256 ^ xs.length ≤ 256 * 256 ^ xs.length :=
        Nat.mul_le_mul_right _ (by omega)
      rw [Nat.add_mul, Nat.one_mul] at h2
      rw [Nat.mul_comm (256 ^ xs.length) 256]
      exact h2
    omega

theorem digit_lt_iff (x y vx vy P : Nat) (hx : vx < P) (hy : vy < P) :
    x * P + vx < y * P + vy ↔ (x < y ∨ (x = y ∧ vx < vy)) := by
  constructor
  · intro h
    rcases Nat.lt_trichotomy x y with hlt | heq | hgt
    · exact Or.inl hlt
    · subst heq
      exact Or.inr ⟨rfl, by omega⟩
    · exfalso
      have h2 : (y + 1) * P ≤ x * P := Nat.mul_le_mul_right _ (by omega)
      rw [Nat.add_mul, Nat.one_mul] at h2
      omega
  · rintro (hlt | ⟨heq, hv⟩)
    · have h2 : (x + 1) * P ≤ y * P := Nat.mul_le_mul_right _ (by omega)
      rw [Nat.add_mul, Nat.one_mul] at h2
      omega
    · subst heq
      omega

theorem bytesLt_iff_beValue (xs : Bytes) :
    ∀ ys : Bytes, xs.length = ys.length → (∀ x ∈ xs, x < 256) → (∀ y ∈ ys, y < 256) →
      (bytesLt xs ys = true ↔ beValue xs < beValue ys) := by
  induction xs with
  | nil =>
    intro ys hlen _ _
    cases ys with
    | nil => simp [bytesLt, beValue]
    | cons y ys => simp at hlen
  | cons x xs ih =>
    intro ys hlen hxs hys
    cases ys with
    | nil => simp at hlen
    | cons y ys =>
      have hlen1 : xs.length = ys.length := by simpa using hlen
      have hxs1 : ∀ z ∈ xs, z < 256 := fun z hz => hxs z (List.mem_cons_of_mem _ hz)
      have hys1 : ∀ z ∈ ys, z < 256 := fun z hz => hys z (List.mem_cons_of_mem _ hz)
      have hvx := beValue_lt xs hxs1
      have hvy := beValue_lt ys hys1
      rw [hlen1] at hvx
      simp only [bytesLt, beValue, Bool.or_eq_true, Bool.and_eq_true, decide_eq_true_eq,
        ih ys hlen1 hxs1 hys1, hlen1]
      exact (digit_lt_iff x y _ _ _ hvx hvy).symm

theorem Uint64ToBigEndian_length (n : Nat) : (Uint64ToBigEndian n).length = 8 := rfl

theorem Uint64ToBigEndian_bytes (n : Nat) : ∀ x ∈ Uint64ToBigEndian n, x < 256 := by
  intro x hx
  simp only [Uint64ToBigEndian, List.mem_cons, List.mem_singleton, List.not_mem_nil,
    or_false] at hx
  rcases hx with h | h | h | h | h | h | h | h <;> (subst h; exact Nat.mod_lt _ (by norm_num))

theorem beValue_Uint64ToBigEndian (n : Nat) (h : n < 2 ^ 64) :
    beValue (Uint64ToBigEndian n) = n := by
  simp only [Uint64ToBigEndian, beValue, List.length_cons, List.length_nil]
  norm_num at h ⊢
  omega

theorem bytesLt_Uint64ToBigEndian (a b : Nat) (ha : a < 2 ^ 64) (hb : b < 2 ^ 64) :
    bytesLt (Uint64ToBigEndian a) (Uint64ToBigEndian b) = true ↔ a < b := by
  rw [bytesLt_iff_beValue (Uint64ToBigEndian a) (Uint64ToBigEndian b) rfl
      (Uint64ToBigEndian_bytes a) (Uint64ToBigEndian_bytes b),
    beValue_Uint64ToBigEndian a ha, beValue_Uint64ToBigEndian b hb]

/-! ### The key decoding of `PacketCommitments` -/

theorem stringsSplit_getLast (sep : Nat) (l : Bytes) :
    ∃ seg, (stringsSplit sep l).getLast? = some seg ∧ (seg = l ∨ seg.length < l.length) := by
  induction l with
  | nil => exact ⟨[], by simp [stringsSplit], Or.inl rfl⟩
  | cons b rest ih =>
    obtain ⟨seg, hlast, hseg⟩ := ih
    have hlen : seg.length ≤ rest.length := by
      rcases hseg with h | h
      · rw [h]
      · omega
    unfold stringsSplit
    by_cases hb : b = sep
    · rw [if_pos hb]
      refine ⟨seg, ?_, Or.inr (by simp only [List.length_cons]; omega)⟩
      cases hsplit : stringsSplit sep rest with
      | nil => rw [hsplit] at hlast; simp at hlast
      | cons s ss => rw [hsplit] at hlast; rw [List.getLast?_cons_cons]; exact hlast
    · rw [if_neg hb]
      cases hsplit : stringsSplit sep rest with
      | nil => rw [hsplit] at hlast; simp at hlast
      | cons s ss =>
        rw [hsplit] at hlast
        cases ss with
        | nil =>
          simp only [List.getLast?_singleton, Option.some.injEq] at hlast
          subst hlast
          refine ⟨b :: s, by simp, ?_⟩
          rcases hseg with h | h
          · exact Or.inl (by rw [h])
          · exact Or.inr (by simp only [List.length_cons]; omega)
        | cons t ts =>
          rw [List.getLast?_cons_cons] at hlast
          refine ⟨seg, ?_, Or.inr (by simp only [List.length_cons]; omega)⟩
          simp only []
          rw [List.getLast?_cons_cons]
          exact hlast

theorem binaryBigEndianUint64_some_length (bz : Bytes) (v : Nat)
    (h : binaryBigEndianUint64 bz = some v) : 8 ≤ bz.length := by
  unfold binaryBigEndianUint64 at h
  split at h
  · simp only [List.length_cons]; omega
  · cases h

theorem packetCommitmentsCallback_ok (channelID : Bytes) (n : Nat) (hn : n < 2 ^ 64)
    (value : Bytes) (acc acc1 : List PacketState)
    (h : packetCommitmentsCallback channelID (Uint64ToBigEndian n) value acc = .ok acc1) :
    n ≠ 0 ∧ acc1 = acc ++ [NewPacketState channelID n value] := by
  obtain ⟨seg, hlast, hseg⟩ := stringsSplit_getLast slash (Uint64ToBigEndian n)
  unfold packetCommitmentsCallback at h
  simp only [hlast] at h
  rcases hseg with hfull | hshort
  · rw [hfull, BigEndianToUint64_Uint64ToBigEndian n hn] at h
    simp only [] at h
    by_cases h0 : n = 0
    · rw [if_pos h0] at h; cases h
    · rw [if_neg h0] at h
      cases h
      exact ⟨h0, rfl⟩
  · exfalso
    rw [Uint64ToBigEndian_length] at hshort
    cases hdec : BigEndianToUint64 seg with
    | none => rw [hdec] at h; cases h
    | some v =>
      rw [hdec] at h
      simp only [] at h
      unfold BigEndianToUint64 at hdec
      by_cases hl : seg.length = 0
      · rw [if_pos hl] at hdec
        cases hdec
        simp at h
      · rw [if_neg hl] at hdec
        have := binaryBigEndianUint64_some_length seg v hdec
        omega

/-! ### Pagination visits a sublist of the entries -/

theorem paginateKeyLoop_sublist {σ : Type} (step : Bytes × Bytes → σ → σ)
    (onResult : Bytes → Bytes → σ → Except Error σ) (limit : Nat)
    (entries : List (Bytes × Bytes)) :
    (∀ kv ∈ entries, ∀ acc acc1, onResult kv.1 kv.2 acc = .ok acc1 → acc1 = step kv acc) →
    ∀ (count : Nat) (acc acc1 : σ) (nextKey : Bytes),
      paginateKeyLoop onResult limit entries count acc = .ok (acc1, nextKey) →
      ∃ sub : List (Bytes × Bytes), sub.Sublist entries ∧ acc1 = sub.foldl (fun a kv => step kv a) acc := by
  induction entries with
  | nil =>
    intro _ count acc acc1 nextKey h
    simp only [paginateKeyLoop, Except.ok.injEq, Prod.mk.injEq] at h
    exact ⟨[], List.Sublist.refl _, h.1.symm⟩
  | cons kv rest ih =>
    intro hcb count acc acc1 nextKey h
    obtain ⟨key, value⟩ := kv
    have hrest : ∀ kv ∈ rest, ∀ acc acc1, onResult kv.1 kv.2 acc = .ok acc1 → acc1 = step kv acc :=
      fun kv hkv => hcb kv (List.mem_cons_of_mem _ hkv)
    unfold paginateKeyLoop at h
    by_cases hc : count = limit
    · rw [if_pos hc] at h
      simp only [Except.ok.injEq, Prod.mk.injEq] at h
      exact ⟨[], List.nil_sublist _, h.1.symm⟩
    · rw [if_neg hc] at h
      cases hres : onResult key value acc with
      | error e => rw [hres] at h; cases h
      | ok acc2 =>
        rw [hres] at h
        simp only [] at h
        obtain ⟨sub, hsub, hacc⟩ := ih hrest _ _ _ _ h
        have h2 := hcb (key, value) (List.mem_cons_self _ _) acc acc2 hres
        refine ⟨(key, value) :: sub, hsub.cons₂ _, ?_⟩
        rw [hacc, h2]
        rfl

theorem paginateOffsetLoop_sublist {σ : Type} (step : Bytes × Bytes → σ → σ)
    (onResult : Bytes → Bytes → σ → Except Error σ) (offset endCount : Nat) (countTotal : Bool)
    (entries : List (Bytes × Bytes)) :
    (∀ kv ∈ entries, ∀ acc acc1, onResult kv.1 kv.2 acc = .ok acc1 → acc1 = step kv acc) →
    ∀ (count : Nat) (nextKey : Bytes) (acc acc1 : σ) (total : Nat) (nextKey1 : Bytes),
      paginateOffsetLoop onResult offset endCount countTotal entries count nextKey acc
        = .ok (acc1, total, nextKey1) →
      ∃ sub : List (Bytes × Bytes), sub.Sublist entries ∧ acc1 = sub.foldl (fun a kv => step kv a) acc := by
  induction entries with
  | nil =>
    intro _ count nextKey acc acc1 total nextKey1 h
    simp only [paginateOffsetLoop, Except.ok.injEq, Prod.mk.injEq] at h
    exact ⟨[], List.Sublist.refl _, h.1.symm⟩
  | cons kv rest ih =>
    intro hcb count nextKey acc acc1 total nextKey1 h
    obtain ⟨key, value⟩ := kv
    have hrest : ∀ kv ∈ rest, ∀ acc acc1, onResult kv.1 kv.2 acc = .ok acc1 → acc1 = step kv acc :=
      fun kv hkv => hcb kv (List.mem_cons_of_mem _ hkv)
    unfold paginateOffsetLoop at h
    simp only [] at h
    split at h
    · obtain ⟨sub, hsub, hacc⟩ := ih hrest _ _ _ _ _ _ h
      exact ⟨sub, hsub.cons _, hacc⟩
    · split at h
      · cases hres : onResult key value acc with
        | error e => rw [hres] at h; cases h
        | ok acc2 =>
          rw [hres] at h
          simp only [] at h
          obtain ⟨sub, hsub, hacc⟩ := ih hrest _ _ _ _ _ _ h
          have h2 := hcb (key, value) (List.mem_cons_self _ _) acc acc2 hres
          refine ⟨(key, value) :: sub, hsub.cons₂ _, ?_⟩
          rw [hacc, h2]
          rfl
      · split at h
        · split at h
          · simp only [Except.ok.injEq, Prod.mk.injEq] at h
            exact ⟨[], List.nil_sublist _, h.1.symm⟩
          · obtain ⟨sub, hsub, hacc⟩ := ih hrest _ _ _ _ _ _ h
            exact ⟨sub, hsub.cons _, hacc⟩
        · obtain ⟨sub, hsub, hacc⟩ := ih hrest _ _ _ _ _ _ h
          exact ⟨sub, hsub.cons _, hacc⟩

theorem Paginate_sublist {σ : Type} (step : Bytes × Bytes → σ → σ)
    (onResult : Bytes → Bytes → σ → Except Error σ) (entries : List (Bytes × Bytes))
    (page : Option PageRequest) (acc acc1 : σ) (pageRes : PageResponse)
    (hcb : ∀ kv ∈ entries, ∀ acc acc1, onResult kv.1 kv.2 acc = .ok acc1 → acc1 = step kv acc)
    (h : Paginate entries page onResult acc = .ok (acc1, pageRes)) :
    ∃ sub : List (Bytes × Bytes),
      sub.Sublist (if (initPageRequestDefaults page).Reverse then entries.reverse else entries)
      ∧ acc1 = sub.foldl (fun a kv => step kv a) acc := by
  unfold Paginate at h
  simp only [] at h
  split at h
  · cases h
  · cases hit : getIterator entries (initPageRequestDefaults page).Key
        (initPageRequestDefaults page).Reverse with
    | none => rw [hit] at h; cases h
    | some iterator =>
      rw [hit] at h
      simp only [] at h
      have hsubl := getIterator_sublist entries _ _ iterator hit
      have hmem := getIterator_mem entries _ _ iterator hit
      split at h
      · generalize hloop : paginateKeyLoop onResult _ _ _ _ = r at h
        cases r with
        | error e => cases h
        | ok res =>
          obtain ⟨acc2, nextKey⟩ := res
          simp only [Except.ok.injEq, Prod.mk.injEq] at h
          obtain ⟨sub, hsub, hacc⟩ := paginateKeyLoop_sublist step onResult _ _
            (fun kv hkv => hcb kv (hmem kv hkv)) _ _ _ _ hloop
          exact ⟨sub, hsub.trans hsubl, by rw [← h.1]; exact hacc⟩
      · generalize hloop : paginateOffsetLoop onResult _ _ _ _ _ _ _ = r at h
        cases r with
        | error e => cases h
        | ok res =>
          obtain ⟨acc2, count, nextKey⟩ := res
          simp only [Except.ok.injEq, Prod.mk.injEq] at h
          obtain ⟨sub, hsub, hacc⟩ := paginateOffsetLoop_sublist step onResult _ _ _ _
            (fun kv hkv => hcb kv (hmem kv hkv)) _ _ _ _ _ _ hloop
          exact ⟨sub, hsub.trans hsubl, by rw [← h.1]; exact hacc⟩

/-! ### The prefix store keeps the order of the store -/

theorem bytesLt_append_left (pre a b : Bytes) :
    bytesLt (pre ++ a) (pre ++ b) = bytesLt a b := by
  induction pre with
  | nil => rfl
  | cons p pre ih => simp [bytesLt, ih]

theorem prefixEntries_pairwise (s : KVStore) (pre : Bytes) (h : s.WF) :
    (s.prefixEntries pre).Pairwise (fun a b => bytesLt a.1 b.1 = true) := by
  unfold KVStore.prefixEntries
  refine List.Pairwise.filterMap _ ?_ h
  intro a a1 hlt b hb b1 hb1
  by_cases ha : pre.isPrefixOf a.1 = true
  · by_cases ha1 : pre.isPrefixOf a1.1 = true
    · simp only [ha, ha1, if_true, Option.mem_def, Option.some.injEq] at hb hb1
      subst hb
      subst hb1
      have e1 := List.prefix_iff_eq_append.mp (List.isPrefixOf_iff_prefix.mp ha)
      have e2 := List.prefix_iff_eq_append.mp (List.isPrefixOf_iff_prefix.mp ha1)
      rw [← e1, ← e2, bytesLt_append_left] at hlt
      exact hlt
    · simp [ha1] at hb1
  · simp [ha] at hb

theorem foldl_append_packetState (f : Bytes × Bytes → PacketState) (sub : List (Bytes × Bytes)) :
    ∀ acc : List PacketState,
      sub.foldl (fun a kv => a ++ [f kv]) acc = acc ++ sub.map f := by
  induction sub with
  | nil => intro acc; simp
  | cons kv sub ih => intro acc; simp [ih]

theorem PacketCommitments_visits_sublist (validate : Bytes → Bool) (ctx : Context)
    (req : QueryPacketCommitmentsRequest) (resp : QueryPacketCommitmentsResponse)
    (hkeys : ∀ kv ∈ ctx.store.prefixEntries (PacketCommitmentPrefixKey req.ChannelId),
      ∃ n, n < 2 ^ 64 ∧ kv.1 = Uint64ToBigEndian n)
    (h : PacketCommitments validate ctx (some req) = .ok resp) :
    ∃ sub : List (Bytes × Bytes),
      sub.Sublist
        (if (initPageRequestDefaults req.Pagination).Reverse
          then (ctx.store.prefixEntries (PacketCommitmentPrefixKey req.ChannelId)).reverse
          else ctx.store.prefixEntries (PacketCommitmentPrefixKey req.ChannelId))
      ∧ resp.Commitments
          = sub.map (fun kv => NewPacketState req.ChannelId (beValue kv.1) kv.2) := by
  unfold PacketCommitments at h
  simp only [] at h
  split at h
  · cases h
  · split at h
    · cases h
    · generalize hpag : Paginate _ _ _ _ = r at h
      cases r with
      | error e => cases h
      | ok res =>
        obtain ⟨commitments, pageRes⟩ := res
        simp only [Except.ok.injEq] at h
        have hcb : ∀ kv ∈ ctx.store.prefixEntries (PacketCommitmentPrefixKey req.ChannelId),
            ∀ acc acc1, packetCommitmentsCallback req.ChannelId kv.1 kv.2 acc = .ok acc1 →
              acc1 = acc ++ [NewPacketState req.ChannelId (beValue kv.1) kv.2] := by
          intro kv hkv acc acc1 hok
          obtain ⟨n, hn, hkey⟩ := hkeys kv hkv
          rw [hkey] at hok ⊢
          rw [beValue_Uint64ToBigEndian n hn]
          exact (packetCommitmentsCallback_ok req.ChannelId n hn kv.2 acc acc1 hok).2
        obtain ⟨sub, hsub, hacc⟩ := Paginate_sublist
          (fun kv acc => acc ++ [NewPacketState req.ChannelId (beValue kv.1) kv.2])
          _ _ _ _ _ _ hcb hpag
        refine ⟨sub, hsub, ?_⟩
        rw [← h]
        simp only []
        rw [hacc, foldl_append_packetState]
        simp

/-- The reverse cursor on the sample store: a reverse page request with the key of
sequence 2 and limit 1 returns the commitment at 2 and names the key of sequence 1
as the next key; with the key of sequence 300, the last key of the store, the
stepped iterator is exhausted and the call panics. -/
theorem PacketCommitments_reverse_cursor :
    PacketCommitments ChannelIdentifierValidator ascendingCtx
        (some (QueryPacketCommitmentsRequest.mk channel0
          (some (PageRequest.mk (Uint64ToBigEndian 2) 0 1 false true))))
      = .ok (QueryPacketCommitmentsResponse.mk [PacketState.mk channel0 2 [20]]
          (PageResponse.mk (Uint64ToBigEndian 1) 0) height1)
    ∧ PacketCommitments ChannelIdentifierValidator ascendingCtx
        (some (QueryPacketCommitmentsRequest.mk channel0
          (some (PageRequest.mk (Uint64ToBigEndian 300) 0 1 false true))))
      = .error .runtimePanic := by
  constructor <;> decide

/-- C10, as worded, fails on a reverse page request. The sample store is in ascending
byte order, "channel-0" exists and its commitment keys are the 8-byte big-endian
encodings of 1, 2 and 300; the request for "channel-0" with a page request whose
Reverse flag is set succeeds and returns the sequences 300, 2, 1, which are not in
strictly ascending order. -/
theorem commitments_reverse_not_ascending :
    ascendingCtx.store.WF
    ∧ ascendingCtx.store.prefixEntries (PacketCommitmentPrefixKey channel0)
        = [(Uint64ToBigEndian 1, [10]), (Uint64ToBigEndian 2, [20]),
            (Uint64ToBigEndian 300, [30])]
    ∧ PacketCommitments ChannelIdentifierValidator ascendingCtx
        (some (QueryPacketCommitmentsRequest.mk channel0
          (some (PageRequest.mk [] 0 0 false true))))
      = .ok (QueryPacketCommitmentsResponse.mk
          [PacketState.mk channel0 300 [30], PacketState.mk channel0 2 [20],
           PacketState.mk channel0 1 [10]]
          (PageResponse.mk [] 3) height1)
    ∧ ¬ ([PacketState.mk channel0 300 [30], PacketState.mk channel0 2 [20],
           PacketState.mk channel0 1 [10]].map (fun c => c.Sequence)).Pairwise
        (fun x y => x < y) := by
  refine ⟨?_, by decide, by decide, by decide⟩
  unfold KVStore.WF
  decide

/-- C10 (amended): iteration order of commitment keys matches numeric order. For all
64-bit sequences a and b, a is less than b exactly when the 8-byte big-endian
encoding of a is lexicographically smaller than that of b; hence on a store whose
keys are in ascending byte order and whose keys under the channel's commitment
prefix are 8-byte big-endian sequences, the entries a successful
`PacketCommitments` call returns are in strictly ascending sequence order when the
page request is a forward one (no page request, or Reverse unset) and in strictly
descending sequence order when its Reverse flag is set. -/
theorem commitments_in_sequence_order :
    (∀ a b : Nat, a < 2 ^ 64 → b < 2 ^ 64 →
      (a < b ↔ bytesLt (Uint64ToBigEndian a) (Uint64ToBigEndian b) = true))
    ∧ (∀ (validate : Bytes → Bool) (ctx : Context) (req : QueryPacketCommitmentsRequest)
        (resp : QueryPacketCommitmentsResponse),
        ctx.store.WF →
        (∀ kv ∈ ctx.store.prefixEntries (PacketCommitmentPrefixKey req.ChannelId),
          ∃ n, n < 2 ^ 64 ∧ kv.1 = Uint64ToBigEndian n) →
        PacketCommitments validate ctx (some req) = .ok resp →
        ((initPageRequestDefaults req.Pagination).Reverse = false →
          (resp.Commitments.map (fun c => c.Sequence)).Pairwise (fun x y => x < y))
        ∧ ((initPageRequestDefaults req.Pagination).Reverse = true →
          (resp.Commitments.map (fun c => c.Sequence)).Pairwise (fun x y => y < x))) := by
  constructor
  · intro a b ha hb
    exact (bytesLt_Uint64ToBigEndian a b ha hb).symm
  · intro validate ctx req resp hwf hkeys h
    obtain ⟨sub, hsub, hresp⟩ := PacketCommitments_visits_sublist validate ctx req resp hkeys h
    have hpw := prefixEntries_pairwise ctx.store (PacketCommitmentPrefixKey req.ChannelId) hwf
    constructor
    · intro hrev
      rw [hrev] at hsub
      simp only [Bool.false_eq_true, if_false] at hsub
      have hsorted := hpw.sublist hsub
      rw [hresp, List.map_map, List.pairwise_map]
      refine List.Pairwise.imp_of_mem ?_ hsorted
      intro a b ha hb hlt
      obtain ⟨n, hn, hkn⟩ := hkeys a (hsub.subset ha)
      obtain ⟨m, hm, hkm⟩ := hkeys b (hsub.subset hb)
      rw [hkn, hkm] at hlt
      simp only [Function.comp, NewPacketState, hkn, hkm, beValue_Uint64ToBigEndian n hn,
        beValue_Uint64ToBigEndian m hm]
      exact (bytesLt_Uint64ToBigEndian n m hn hm).mp hlt
    · intro hrev
      rw [hrev] at hsub
      simp only [if_true] at hsub
      have hsorted := (List.pairwise_reverse.mpr hpw).sublist hsub
      rw [hresp, List.map_map, List.pairwise_map]
      refine List.Pairwise.imp_of_mem ?_ hsorted
      intro a b ha hb hlt
      obtain ⟨n, hn, hkn⟩ := hkeys a (List.mem_reverse.mp (hsub.subset ha))
      obtain ⟨m, hm, hkm⟩ := hkeys b (List.mem_reverse.mp (hsub.subset hb))
      rw [hkn, hkm] at hlt
      simp only [Function.comp, NewPacketState, hkn, hkm, beValue_Uint64ToBigEndian n hn,
        beValue_Uint64ToBigEndian m hm]
      exact (bytesLt_Uint64ToBigEndian m n hm hn).mp hlt

/-- Witness of C10 (amended): with the Reverse flag set, the commitments stored at 1, 2
and 300 come back as 300, 2, 1, in strictly descending order. -/
theorem commitments_in_sequence_order_witness :
    PacketCommitments ChannelIdentifierValidator ascendingCtx
        (some (QueryPacketCommitmentsRequest.mk channel0
          (some (PageRequest.mk [] 0 0 false true))))
      = .ok (QueryPacketCommitmentsResponse.mk
          [PacketState.mk channel0 300 [30], PacketState.mk channel0 2 [20],
           PacketState.mk channel0 1 [10]]
          (PageResponse.mk [] 3) height1)
    ∧ ([PacketState.mk channel0 300 [30], PacketState.mk channel0 2 [20],
           PacketState.mk channel0 1 [10]].map (fun c => c.Sequence)).Pairwise
        (fun x y => y < x) :=
  ⟨by decide,
   (commitments_in_sequence_order.2 ChannelIdentifierValidator ascendingCtx
    (QueryPacketCommitmentsRequest.mk channel0 (some (PageRequest.mk [] 0 0 false true)))
    (QueryPacketCommitmentsResponse.mk
      [PacketState.mk channel0 300 [30], PacketState.mk channel0 2 [20],
       PacketState.mk channel0 1 [10]]
      (PageResponse.mk [] 3) height1)
    (by unfold KVStore.WF; decide)
    (by
      intro kv hkv
      have hmem : kv ∈ [(Uint64ToBigEndian 1, [10]), (Uint64ToBigEndian 2, [20]),
          (Uint64ToBigEndian 300, [30])] := by
        have he : ascendingCtx.store.prefixEntries (PacketCommitmentPrefixKey channel0)
            = [(Uint64ToBigEndian 1, [10]), (Uint64ToBigEndian 2, [20]),
                (Uint64ToBigEndian 300, [30])] := by decide
        rw [he] at hkv
        exact hkv
      simp only [List.mem_cons, List.mem_singleton, List.not_mem_nil, or_false] at hmem
      rcases hmem with h | h | h
      · exact ⟨1, by norm_num, by rw [h]⟩
      · exact ⟨2, by norm_num, by rw [h]⟩
      · exact ⟨300, by norm_num, by rw [h]⟩)
    (by decide)).2 (by decide)⟩

/-- C3 (the code at the failing inputs): on a well-formed store in which "channel-0"
exists and holds a single commitment at the non-zero sequence 47, the default page
request does not return that entry: the call fails with ErrInvalidPacket, because
the key ends in the byte of "/" and its last segment is empty. With the single
commitment at sequence 12032 the last segment is one byte long and the decoding
panics. -/
theorem PacketCommitments_fails_on_slash_sequence :
    (ChannelIdentifierValidator channel0 = true
      ∧ slashCtx.store.WF
      ∧ HasChannel slashCtx channel0 = true
      ∧ slashCtx.store.prefixEntries (PacketCommitmentPrefixKey channel0)
          = [(Uint64ToBigEndian 47, [171, 205])]
      ∧ PacketCommitments ChannelIdentifierValidator slashCtx
          (some (QueryPacketCommitmentsRequest.mk channel0 none)) = .error .ErrInvalidPacket)
    ∧ (slashInsideCtx.store.WF
      ∧ HasChannel slashInsideCtx channel0 = true
      ∧ slashInsideCtx.store.prefixEntries (PacketCommitmentPrefixKey channel0)
          = [(Uint64ToBigEndian 12032, [171, 205])]
      ∧ PacketCommitments ChannelIdentifierValidator slashInsideCtx
          (some (QueryPacketCommitmentsRequest.mk channel0 none)) = .error .runtimePanic) := by
  refine ⟨⟨by decide, ?_, by decide, by decide, by decide⟩, ?_, by decide, by decide, by decide⟩
  · unfold KVStore.WF; decide
  · unfold KVStore.WF; decide

/-! ### Keys without the separator byte -/

theorem stringsSplit_not_mem (sep : Nat) (l : Bytes) (h : sep ∉ l) :
    stringsSplit sep l = [l] := by
  induction l with
  | nil => rfl
  | cons b rest ih =>
    have hb : b ≠ sep := fun e => h (by rw [e]; exact List.mem_cons_self _ _)
    have hrest : sep ∉ rest := fun hm => h (List.mem_cons_of_mem _ hm)
    unfold stringsSplit
    rw [if_neg hb, ih hrest]

theorem packetCommitmentsCallback_no_slash (channelID : Bytes) (n : Nat) (hn : n < 2 ^ 64)
    (h0 : n ≠ 0) (hslash : slash ∉ Uint64ToBigEndian n) (value : Bytes)
    (acc : List PacketState) :
    packetCommitmentsCallback channelID (Uint64ToBigEndian n) value acc
      = .ok (acc ++ [NewPacketState channelID n value]) := by
  unfold packetCommitmentsCallback
  simp only [stringsSplit_not_mem slash _ hslash, List.getLast?_singleton,
    BigEndianToUint64_Uint64ToBigEndian n hn, if_neg h0]

theorem paginateOffsetLoop_all {σ : Type} (step : Bytes × Bytes → σ → σ)
    (onResult : Bytes → Bytes → σ → Except Error σ) (endCount : Nat) (countTotal : Bool)
    (entries : List (Bytes × Bytes)) :
    (∀ kv ∈ entries, ∀ acc, onResult kv.1 kv.2 acc = .ok (step kv acc)) →
    ∀ (count : Nat) (nextKey : Bytes) (acc : σ), count + entries.length ≤ endCount →
      paginateOffsetLoop onResult 0 endCount countTotal entries count nextKey acc
        = .ok (entries.foldl (fun a kv => step kv a) acc, count + entries.length, nextKey) := by
  induction entries with
  | nil => intro _ count nextKey acc _; simp [paginateOffsetLoop]
  | cons kv rest ih =>
    intro hcb count nextKey acc hlen
    obtain ⟨key, value⟩ := kv
    simp only [List.length_cons] at hlen
    have h1 : ¬ (count + 1 ≤ 0) := by omega
    have h2 : count + 1 ≤ endCount := by omega
    unfold paginateOffsetLoop
    simp only [h1, h2, if_false, if_true]
    rw [hcb (key, value) (List.mem_cons_self _ _) acc]
    simp only []
    rw [ih (fun kv hkv => hcb kv (List.mem_cons_of_mem _ hkv)) (count + 1) nextKey _ (by omega)]
    simp only [List.foldl_cons, List.length_cons, Except.ok.injEq, Prod.mk.injEq, true_and,
      and_true]
    omega

theorem getIterator_nil_key (entries : List (Bytes × Bytes)) (reverse : Bool) :
    getIterator entries [] reverse = some (if reverse then entries.reverse else entries) := by
  unfold getIterator
  cases reverse
  · simp [storeIterator_nil_key]
  · simp [storeReverseIterator]

/-- Full enumeration: `PacketCommitments` returns every commitment of a channel when none of
the stored keys contains the byte of "/". On a store in which the channel exists
and whose entries under the channel's commitment prefix are the big-endian keys of
the non-zero 64-bit sequences of `stored`, none with a byte 47 in its encoding, a
request with a valid channel id and a page request without key and offset whose
limit covers all entries succeeds and returns one packet state per stored entry,
in store order (in reversed store order when the Reverse flag is set), with no
next key. -/
theorem PacketCommitments_enumerates_all (validate : Bytes → Bool) (ctx : Context) (id : Bytes)
    (page : Option PageRequest) (stored : List (Nat × Bytes))
    (hvalid : validate id = true) (hchan : HasChannel ctx id = true)
    (hstore : ctx.store.prefixEntries (PacketCommitmentPrefixKey id)
      = stored.map (fun e => (Uint64ToBigEndian e.1, e.2)))
    (hseq : ∀ e ∈ stored, e.1 ≠ 0 ∧ e.1 < 2 ^ 64 ∧ slash ∉ Uint64ToBigEndian e.1)
    (hkey : (initPageRequestDefaults page).Key = [])
    (hoff : (initPageRequestDefaults page).Offset = 0)
    (hlen : stored.length ≤ (initPageRequestDefaults page).Limit)
    (hlim : (initPageRequestDefaults page).Limit < 2 ^ 64) :
    PacketCommitments validate ctx (some (QueryPacketCommitmentsRequest.mk id page))
      = .ok (QueryPacketCommitmentsResponse.mk
          ((if (initPageRequestDefaults page).Reverse then stored.reverse else stored).map
            (fun e => NewPacketState id e.1 e.2))
          (PageResponse.mk []
            (if (initPageRequestDefaults page).CountTotal then stored.length else 0))
          (GetSelfHeight ctx)) := by
  generalize hbase :
    (if (initPageRequestDefaults page).Reverse then stored.reverse else stored) = base
  have hbmem : ∀ e ∈ base, e ∈ stored := by
    intro e he
    rw [← hbase] at he
    split at he
    · exact List.mem_reverse.mp he
    · exact he
  have hblen : base.length = stored.length := by
    rw [← hbase]
    split
    · exact List.length_reverse _
    · rfl
  have hit : getIterator (stored.map (fun e => (Uint64ToBigEndian e.1, e.2)))
      (initPageRequestDefaults page).Key (initPageRequestDefaults page).Reverse
      = some (base.map (fun e => (Uint64ToBigEndian e.1, e.2))) := by
    rw [hkey, getIterator_nil_key, ← hbase]
    split
    · rw [List.map_reverse]
    · rfl
  have hcb : ∀ kv ∈ base.map (fun e => (Uint64ToBigEndian e.1, e.2)),
      ∀ acc, packetCommitmentsCallback id kv.1 kv.2 acc
        = .ok (acc ++ [NewPacketState id (beValue kv.1) kv.2]) := by
    intro kv hkv acc
    obtain ⟨e, he, rfl⟩ := List.mem_map.mp hkv
    obtain ⟨h0, hn, hs⟩ := hseq e (hbmem e he)
    simp only [beValue_Uint64ToBigEndian e.1 hn]
    exact packetCommitmentsCallback_no_slash id e.1 hn h0 hs e.2 acc
  have hmap : (base.map (fun e => (Uint64ToBigEndian e.1, e.2))).map
        (fun kv => NewPacketState id (beValue kv.1) kv.2)
      = base.map (fun e => NewPacketState id e.1 e.2) := by
    rw [List.map_map]
    apply List.map_congr_left
    intro e he
    simp only [Function.comp, beValue_Uint64ToBigEndian e.1 (hseq e (hbmem e he)).2.1]
  have hloop := paginateOffsetLoop_all
    (fun kv acc => acc ++ [NewPacketState id (beValue kv.1) kv.2])
    (packetCommitmentsCallback id) (initPageRequestDefaults page).Limit
    (initPageRequestDefaults page).CountTotal _ hcb 0 [] []
    (by simpa [hblen] using hlen)
  rw [foldl_append_packetState, hmap] at hloop
  rw [hkey] at hit
  simp only [PacketCommitments, hvalid, hchan, hstore, Paginate, hkey, hit, hoff,
    Nat.zero_add, Nat.mod_eq_of_lt hlim, hloop]
  simp [hblen]

/-- Witness of the full enumeration: the three commitments of the sample store, default
page. -/
theorem PacketCommitments_enumerates_all_witness :
    PacketCommitments ChannelIdentifierValidator ascendingCtx
        (some (QueryPacketCommitmentsRequest.mk channel0 none))
      = .ok (QueryPacketCommitmentsResponse.mk
          [PacketState.mk channel0 1 [10], PacketState.mk channel0 2 [20],
           PacketState.mk channel0 300 [30]]
          (PageResponse.mk [] 3) height1) :=
  (PacketCommitments_enumerates_all ChannelIdentifierValidator ascendingCtx channel0 none
    [(1, [10]), (2, [20]), (300, [30])] (by decide) (by decide) (by decide) (by decide)
    (by decide) (by decide) (by decide) (by decide)).trans (by decide)

/-! ### Idempotence of `UnreceivedPackets` -/

theorem UnreceivedPackets_ok_inv (validate : Bytes → Bool) (ctx : Context)
    (req : QueryUnreceivedPacketsRequest) (resp : QueryUnreceivedPacketsResponse)
    (h : UnreceivedPackets validate ctx (some req) = .ok resp) :
    validate req.ChannelId = true ∧ HasChannel ctx req.ChannelId = true
    ∧ (∀ s ∈ req.Sequences, s ≠ 0)
    ∧ resp = QueryUnreceivedPacketsResponse.mk
        (req.Sequences.filter (fun s => !ctx.store.Has (PacketReceiptKey req.ChannelId s)))
        (GetSelfHeight ctx) := by
  have hvalid : validate req.ChannelId = true := by
    cases hv : validate req.ChannelId
    · simp [UnreceivedPackets, hv] at h
    · rfl
  have hchan : HasChannel ctx req.ChannelId = true := by
    cases hc : HasChannel ctx req.ChannelId
    · simp [UnreceivedPackets, hvalid, hc] at h
    · rfl
  have hnz : ∀ s ∈ req.Sequences, s ≠ 0 := by
    intro s hs h0
    subst h0
    simp [UnreceivedPackets, hvalid, hchan, unreceivedLoop_zero ctx req.ChannelId _ [] hs] at h
  refine ⟨hvalid, hchan, hnz, ?_⟩
  simp [UnreceivedPackets, hvalid, hchan, unreceivedLoop_eq_filter ctx req.ChannelId _ [] hnz] at h
  exact h.symm

/-- C17: `UnreceivedPackets` is idempotent on a fixed store. For every store and
every request on which it succeeds with result list R, the call on the same store
and channel with R as the candidate list succeeds and returns the same response;
R is a sublist of the original candidates, so it is no longer than they are. -/
theorem UnreceivedPackets_idempotent (validate : Bytes → Bool) (ctx : Context)
    (req : QueryUnreceivedPacketsRequest) (resp : QueryUnreceivedPacketsResponse)
    (h : UnreceivedPackets validate ctx (some req) = .ok resp) :
    UnreceivedPackets validate ctx
        (some (QueryUnreceivedPacketsRequest.mk req.ChannelId resp.Sequences)) = .ok resp
    ∧ resp.Sequences.Sublist req.Sequences
    ∧ resp.Sequences.length ≤ req.Sequences.length := by
  obtain ⟨hvalid, hchan, hnz, hresp⟩ := UnreceivedPackets_ok_inv validate ctx req resp h
  have hsub : resp.Sequences.Sublist req.Sequences := by
    rw [hresp]; exact List.filter_sublist _
  refine ⟨?_, hsub, hsub.length_le⟩
  have hnz2 : ∀ s ∈ resp.Sequences, s ≠ 0 := fun s hs => hnz s (hsub.subset hs)
  have hloop := unreceivedLoop_eq_filter ctx req.ChannelId resp.Sequences [] hnz2
  simp only [UnreceivedPackets, hvalid, hchan, hloop]
  rw [hresp]
  simp [List.filter_filter]

/-- Witness of C17: the result 3, 3, 5 of the candidates 3, 1, 3, 5, 4 is returned
unchanged when queried again. -/
theorem UnreceivedPackets_idempotent_witness :
    UnreceivedPackets ChannelIdentifierValidator receiptCtx
        (some (QueryUnreceivedPacketsRequest.mk channel0 [3, 3, 5]))
      = .ok (QueryUnreceivedPacketsResponse.mk [3, 3, 5] height1)
    ∧ [3, 3, 5].Sublist [3, 1, 3, 5, 4]
    ∧ [3, 3, 5].length ≤ [3, 1, 3, 5, 4].length :=
  UnreceivedPackets_idempotent ChannelIdentifierValidator receiptCtx
    (QueryUnreceivedPacketsRequest.mk channel0 [3, 1, 3, 5, 4])
    (QueryUnreceivedPacketsResponse.mk [3, 3, 5] height1) (by decide)

/-! ### The last segment of a key that contains the separator -/

theorem stringsSplit_ne_nil (sep : Nat) (l : Bytes) : stringsSplit sep l ≠ [] := by
  cases l with
  | nil => simp [stringsSplit]
  | cons b rest =>
    unfold stringsSplit
    split
    · simp
    · split <;> simp

theorem stringsSplit_two_of_mem (sep : Nat) (l : Bytes) (h : sep ∈ l) :
    ∃ s t ss, stringsSplit sep l = s :: t :: ss := by
  induction l with
  | nil => simp at h
  | cons b rest ih =>
    unfold stringsSplit
    by_cases hb : b = sep
    · rw [if_pos hb]
      cases hsplit : stringsSplit sep rest with
      | nil => exact absurd hsplit (stringsSplit_ne_nil sep rest)
      | cons s ss => exact ⟨[], s, ss, rfl⟩
    · rw [if_neg hb]
      have hrest : sep ∈ rest := by
        rcases List.mem_cons.mp h with h0 | h0
        · exact absurd h0.symm hb
        · exact h0
      obtain ⟨s, t, ss, hs⟩ := ih hrest
      rw [hs]
      exact ⟨b :: s, t, ss, rfl⟩

theorem stringsSplit_getLast_append (sep : Nat) (seg : Bytes) (pre : Bytes) :
    (stringsSplit sep (pre ++ sep :: seg)).getLast? = (stringsSplit sep seg).getLast? := by
  induction pre with
  | nil =>
    simp only [List.nil_append]
    unfold stringsSplit
    rw [if_pos rfl]
    cases hsplit : stringsSplit sep seg with
    | nil => exact absurd hsplit (stringsSplit_ne_nil sep seg)
    | cons s ss =>
      rw [List.getLast?_cons_cons]
      cases seg <;> simp_all [stringsSplit]
  | cons b pre ih =>
    have hmem : sep ∈ pre ++ sep :: seg := by simp
    obtain ⟨s, t, ss, hs⟩ := stringsSplit_two_of_mem sep _ hmem
    rw [hs] at ih
    simp only [List.cons_append]
    rw [stringsSplit]
    by_cases hb : b = sep
    · rw [if_pos hb, hs, List.getLast?_cons_cons]
      exact ih
    · rw [if_neg hb, hs]
      simp only []
      rw [List.getLast?_cons_cons]
      rw [List.getLast?_cons_cons] at ih
      exact ih

theorem last_occurrence (sep : Nat) (l : Bytes) (h : sep ∈ l) :
    ∃ pre seg, l = pre ++ sep :: seg ∧ sep ∉ seg := by
  induction l with
  | nil => simp at h
  | cons b rest ih =>
    by_cases hrest : sep ∈ rest
    · obtain ⟨pre, seg, hl, hseg⟩ := ih hrest
      exact ⟨b :: pre, seg, by rw [hl]; rfl, hseg⟩
    · have hb : sep = b := by
        rcases List.mem_cons.mp h with h0 | h0
        · exact h0
        · exact absurd h0 hrest
      exact ⟨[], rest, by rw [hb]; rfl, hrest⟩

theorem stringsSplit_getLast_of_mem (sep : Nat) (l : Bytes) (h : sep ∈ l) :
    ∃ pre seg, l = pre ++ sep :: seg ∧ sep ∉ seg
      ∧ (stringsSplit sep l).getLast? = some seg := by
  obtain ⟨pre, seg, hl, hseg⟩ := last_occurrence sep l h
  refine ⟨pre, seg, hl, hseg, ?_⟩
  rw [hl, stringsSplit_getLast_append, stringsSplit_not_mem sep seg hseg]
  rfl

theorem binaryBigEndianUint64_short (bz : Bytes) (h : bz.length < 8) :
    binaryBigEndianUint64 bz = none := by
  cases hdec : binaryBigEndianUint64 bz with
  | none => rfl
  | some v =>
    have := binaryBigEndianUint64_some_length bz v hdec
    omega

theorem getLast?_after_separator (sep z : Nat) (pre seg : Bytes)
    (h : (pre ++ sep :: seg).getLast? = some z) :
    (seg = [] ∧ z = sep) ∨ (seg ≠ [] ∧ z ∈ seg) := by
  cases seg with
  | nil =>
    rw [List.getLast?_concat] at h
    exact Or.inl ⟨rfl, (Option.some.inj h).symm⟩
  | cons x xs =>
    refine Or.inr ⟨by simp, ?_⟩
    have h2 : (pre ++ sep :: x :: xs) = (pre ++ [sep]) ++ (x :: xs) := by simp
    rw [h2, List.getLast?_append_of_ne_nil _ (by simp)] at h
    exact List.mem_of_getLast?_eq_some h

theorem Uint64ToBigEndian_getLast (n : Nat) :
    (Uint64ToBigEndian n).getLast? = some (n % 256) := rfl

/-- Outcome of the key decoding of `PacketCommitments` on a big-endian key, by the
place of the byte of "/" in the key. For a 64-bit sequence n and its 8-byte key:
when no byte of the key is 47 and n is not zero the callback appends the packet
state of n; when the last byte is 47 the last segment is empty and the callback
returns ErrInvalidPacket; when some byte is 47 but not the last one the last
segment has between 1 and 7 bytes and the decoding panics. -/
theorem packetCommitmentsCallback_by_slash (channelID : Bytes) (n : Nat) (hn : n < 2 ^ 64)
    (value : Bytes) (acc : List PacketState) :
    (slash ∉ Uint64ToBigEndian n → n ≠ 0 →
      packetCommitmentsCallback channelID (Uint64ToBigEndian n) value acc
        = .ok (acc ++ [NewPacketState channelID n value]))
    ∧ (n % 256 = 47 →
      packetCommitmentsCallback channelID (Uint64ToBigEndian n) value acc
        = .error .ErrInvalidPacket)
    ∧ (n % 256 ≠ 47 → slash ∈ Uint64ToBigEndian n →
      packetCommitmentsCallback channelID (Uint64ToBigEndian n) value acc
        = .error .runtimePanic) := by
  refine ⟨fun hs h0 => packetCommitmentsCallback_no_slash channelID n hn h0 hs value acc, ?_, ?_⟩
  · intro hlast
    have hmem : slash ∈ Uint64ToBigEndian n := by
      have := List.mem_of_getLast?_eq_some (Uint64ToBigEndian_getLast n)
      rw [hlast] at this
      exact this
    obtain ⟨pre, seg, hl, hseg, hsplit⟩ := stringsSplit_getLast_of_mem slash _ hmem
    have hz := Uint64ToBigEndian_getLast n
    rw [hl, hlast] at hz
    rcases getLast?_after_separator slash 47 pre seg hz with ⟨hnil, _⟩ | ⟨_, hin⟩
    · subst hnil
      unfold packetCommitmentsCallback
      simp only [hsplit]
      rfl
    · exact absurd hin hseg
  · intro hlast hmem
    obtain ⟨pre, seg, hl, hseg, hsplit⟩ := stringsSplit_getLast_of_mem slash _ hmem
    have hz := Uint64ToBigEndian_getLast n
    rw [hl] at hz
    have hne : seg ≠ [] := by
      rcases getLast?_after_separator slash (n % 256) pre seg hz with ⟨_, h47⟩ | ⟨hne, _⟩
      · exact absurd h47 hlast
      · exact hne
    have hlen : seg.length < 8 := by
      have h8 := Uint64ToBigEndian_length n
      rw [hl] at h8
      simp only [List.length_append, List.length_cons] at h8
      omega
    have hpos : seg.length ≠ 0 := fun h0 => hne (List.length_eq_zero.mp h0)
    unfold packetCommitmentsCallback
    simp only [hsplit, BigEndianToUint64, if_neg hpos, binaryBigEndianUint64_short seg hlen]

/-- Witness of the outcome by the place of "/": sequence 300 is decoded, sequence 47
gives ErrInvalidPacket and sequence 12032 panics. -/
theorem packetCommitmentsCallback_by_slash_witness :
    packetCommitmentsCallback channel0 (Uint64ToBigEndian 300) [9] []
        = .ok ([] ++ [NewPacketState channel0 300 [9]])
    ∧ packetCommitmentsCallback channel0 (Uint64ToBigEndian 47) [9] []
        = .error .ErrInvalidPacket
    ∧ packetCommitmentsCallback channel0 (Uint64ToBigEndian 12032) [9] []
        = .error .runtimePanic :=
  ⟨(packetCommitmentsCallback_by_slash channel0 300 (by norm_num) [9] []).1
      (by decide) (by decide),
   (packetCommitmentsCallback_by_slash channel0 47 (by norm_num) [9] []).2.1 (by decide),
   (packetCommitmentsCallback_by_slash channel0 12032 (by norm_num) [9] []).2.2
      (by decide) (by decide)⟩

/-- C15 (the code at the failing input): the per-entry callback of
`PacketCommitments`, applied to the 8-byte big-endian key of the non-zero sequence
12032, does not return normally. The key is 0 0 0 0 0 0 47 0; split on "/" its
last segment is the single byte 0, and `binary.BigEndian.Uint64` reads past its
end: the result is a panic, neither a packet state nor ErrInvalidPacket. -/
theorem packetCommitmentsCallback_panics_at_12032 :
    12032 ≠ 0 ∧ 12032 < 2 ^ 64
    ∧ Uint64ToBigEndian 12032 = [0, 0, 0, 0, 0, 0, 47, 0]
    ∧ (stringsSplit slash (Uint64ToBigEndian 12032)).getLast? = some [0]
    ∧ BigEndianToUint64 [0] = none
    ∧ packetCommitmentsCallback channel0 (Uint64ToBigEndian 12032) [171, 205] []
        = .error .runtimePanic := by
  refine ⟨by decide, by norm_num, by decide, by decide, by decide, by decide⟩

/-! ### `Paginate` calls the callback on the window of the page request -/

theorem paginateKeyLoop_eq_visit {σ : Type} (onResult : Bytes → Bytes → σ → Except Error σ)
    (limit : Nat) (entries : List (Bytes × Bytes)) :
    ∀ (count : Nat) (acc : σ), count ≤ limit →
      (paginateKeyLoop onResult limit entries count acc).map (fun r => r.1)
        = visitEntries onResult (entries.take (limit - count)) acc := by
  induction entries with
  | nil => intro count acc _; simp [paginateKeyLoop, visitEntries, Except.map]
  | cons kv rest ih =>
    intro count acc hle
    obtain ⟨key, value⟩ := kv
    unfold paginateKeyLoop
    by_cases hc : count = limit
    · rw [if_pos hc, hc, Nat.sub_self]
      simp [visitEntries, Except.map]
    · rw [if_neg hc]
      have hk : limit - count = (limit - (count + 1)) + 1 := by omega
      rw [hk, List.take_succ_cons]
      unfold visitEntries
      cases hres : onResult key value acc with
      | error e => simp [Except.map]
      | ok acc1 =>
        simp only []
        exact ih (count + 1) acc1 (by omega)

theorem paginateOffsetLoop_eq_visit {σ : Type} (onResult : Bytes → Bytes → σ → Except Error σ)
    (offset endCount : Nat) (countTotal : Bool) (entries : List (Bytes × Bytes)) :
    ∀ (count : Nat) (nextKey : Bytes) (acc : σ),
      (paginateOffsetLoop onResult offset endCount countTotal entries count nextKey acc).map
          (fun r => r.1)
        = visitEntries onResult
            ((entries.drop (offset - count)).take (endCount - max offset count)) acc := by
  induction entries with
  | nil => intro count nextKey acc; simp [paginateOffsetLoop, visitEntries, Except.map]
  | cons kv rest ih =>
    intro count nextKey acc
    obtain ⟨key, value⟩ := kv
    unfold paginateOffsetLoop
    simp only []
    by_cases h1 : count + 1 ≤ offset
    · rw [if_pos h1]
      have hd : offset - count = (offset - (count + 1)) + 1 := by omega
      have hm : max offset count = max offset (count + 1) := by omega
      rw [hd, List.drop_succ_cons, hm]
      exact ih (count + 1) nextKey acc
    · rw [if_neg h1]
      have hd : offset - count = 0 := by omega
      have hd1 : offset - (count + 1) = 0 := by omega
      rw [hd, List.drop_zero]
      by_cases h2 : count + 1 ≤ endCount
      · rw [if_pos h2]
        have hk : endCount - max offset count = (endCount - max offset (count + 1)) + 1 := by
          omega
        rw [hk, List.take_succ_cons]
        unfold visitEntries
        cases hres : onResult key value acc with
        | error e => simp [Except.map]
        | ok acc1 =>
          simp only []
          have := ih (count + 1) nextKey acc1
          rw [hd1, List.drop_zero] at this
          exact this
      · rw [if_neg h2]
        have hk : endCount - max offset count = 0 := by omega
        have hk1 : endCount - max offset (count + 1) = 0 := by omega
        rw [hk, List.take_zero]
        have hrec : ∀ nk, (paginateOffsetLoop onResult offset endCount countTotal rest
            (count + 1) nk acc).map (fun r => r.1) = visitEntries onResult [] acc := by
          intro nk
          have := ih (count + 1) nk acc
          rw [hk1, List.take_zero] at this
          exact this
        split
        · split
          · simp [visitEntries, Except.map]
          · exact hrec key
        · exact hrec nextKey

theorem Paginate_eq_visit {σ : Type} (entries : List (Bytes × Bytes))
    (page : Option PageRequest) (onResult : Bytes → Bytes → σ → Except Error σ) (acc : σ)
    (hpage : ∀ p, page = some p → p.Offset = 0 ∨ p.Key = [])
    (hit : getIterator entries (initPageRequestDefaults page).Key
      (initPageRequestDefaults page).Reverse ≠ none) :
    (Paginate entries page onResult acc).map (fun r => r.1)
      = visitEntries onResult (pageWindow entries page) acc := by
  have hok : ¬ (0 < (initPageRequestDefaults page).Offset
      ∧ (initPageRequestDefaults page).Key.length ≠ 0) := by
    rintro ⟨hoff, hkey⟩
    cases page with
    | none => simp [initPageRequestDefaults] at hoff
    | some p =>
      have hk : (initPageRequestDefaults (some p)).Key = p.Key := by
        unfold initPageRequestDefaults; simp only [Option.getD_some]; split <;> rfl
      have ho : (initPageRequestDefaults (some p)).Offset = p.Offset := by
        unfold initPageRequestDefaults; simp only [Option.getD_some]; split <;> rfl
      rw [hk] at hkey
      rw [ho] at hoff
      rcases hpage p rfl with h0 | h0
      · omega
      · rw [h0] at hkey; simp at hkey
  unfold Paginate pageWindow
  simp only []
  rw [if_neg hok]
  cases hg : getIterator entries (initPageRequestDefaults page).Key
      (initPageRequestDefaults page).Reverse with
  | none => exact absurd hg hit
  | some iterator =>
    simp only []
    by_cases hkey : (initPageRequestDefaults page).Key.length ≠ 0
    · rw [if_pos hkey, if_pos hkey]
      have := paginateKeyLoop_eq_visit onResult (initPageRequestDefaults page).Limit
        iterator 0 acc (Nat.zero_le _)
      rw [Nat.sub_zero] at this
      rw [← this]
      cases paginateKeyLoop onResult (initPageRequestDefaults page).Limit iterator 0 acc with
      | error e => rfl
      | ok r => rfl
    · rw [if_neg hkey, if_neg hkey]
      have := paginateOffsetLoop_eq_visit onResult (initPageRequestDefaults page).Offset
        (((initPageRequestDefaults page).Offset + (initPageRequestDefaults page).Limit)
          % 2 ^ 64)
        (initPageRequestDefaults page).CountTotal iterator 0 [] acc
      rw [Nat.sub_zero, Nat.max_eq_left (Nat.zero_le _)] at this
      rw [← this]
      cases paginateOffsetLoop onResult (initPageRequestDefaults page).Offset
        (((initPageRequestDefaults page).Offset + (initPageRequestDefaults page).Limit)
          % 2 ^ 64)
        (initPageRequestDefaults page).CountTotal iterator 0 [] acc with
      | error e => rfl
      | ok r => rfl

/-! ### Entries returned by `PacketCommitments` -/

theorem packetCommitmentsCallback_eq (channelID key value : Bytes) (acc : List PacketState) :
    packetCommitmentsCallback channelID key value acc
      = match keySequence key with
        | none => .error .runtimePanic
        | some sequence =>
          if sequence = 0 then .error .ErrInvalidPacket
          else .ok (acc ++ [NewPacketState channelID sequence value]) := by
  unfold packetCommitmentsCallback keySequence
  simp only []
  cases hl : (stringsSplit slash key).getLast? with
  | none => rfl
  | some last =>
    cases hb : BigEndianToUint64 last <;> simp [Option.bind, hb]

theorem visitEntries_callback_ok (channelID : Bytes) (window : List (Bytes × Bytes)) :
    ∀ acc res : List PacketState,
      visitEntries (packetCommitmentsCallback channelID) window acc = .ok res →
      res = acc ++ window.map
          (fun kv => NewPacketState channelID ((keySequence kv.1).getD 0) kv.2)
      ∧ ∀ kv ∈ window, ∃ s, keySequence kv.1 = some s ∧ s ≠ 0 := by
  induction window with
  | nil =>
    intro acc res h
    simp only [visitEntries, Except.ok.injEq] at h
    simp [h]
  | cons kv rest ih =>
    intro acc res h
    obtain ⟨key, value⟩ := kv
    unfold visitEntries at h
    rw [packetCommitmentsCallback_eq] at h
    cases hseq : keySequence key with
    | none => rw [hseq] at h; cases h
    | some s =>
      rw [hseq] at h
      simp only [] at h
      by_cases h0 : s = 0
      · rw [if_pos h0] at h; cases h
      · rw [if_neg h0] at h
        simp only [] at h
        obtain ⟨hres, hall⟩ := ih _ _ h
        constructor
        · rw [hres]
          simp [hseq]
        · intro kv hkv
          rcases List.mem_cons.mp hkv with hk | hk
          · subst hk
            exact ⟨s, hseq, h0⟩
          · exact hall kv hk

theorem visitEntries_callback_zero (channelID : Bytes) (pre : List (Bytes × Bytes))
    (k v : Bytes) (rest : List (Bytes × Bytes)) (hk : keySequence k = some 0) :
    ∀ acc : List PacketState, (∀ e ∈ pre, ∃ s, keySequence e.1 = some s ∧ s ≠ 0) →
      visitEntries (packetCommitmentsCallback channelID) (pre ++ (k, v) :: rest) acc
        = .error .ErrInvalidPacket := by
  induction pre with
  | nil =>
    intro acc _
    simp only [List.nil_append]
    unfold visitEntries
    rw [packetCommitmentsCallback_eq, hk]
    rfl
  | cons e pre ih =>
    intro acc hpre
    obtain ⟨key, value⟩ := e
    obtain ⟨s, hs, h0⟩ := hpre (key, value) (List.mem_cons_self _ _)
    simp only [List.cons_append]
    unfold visitEntries
    rw [packetCommitmentsCallback_eq]
    simp only [] at hs
    rw [hs]
    simp only [if_neg h0]
    exact ih _ (fun e he => hpre e (List.mem_cons_of_mem _ he))

theorem Paginate_ok_visit {σ : Type} (entries : List (Bytes × Bytes))
    (page : Option PageRequest) (onResult : Bytes → Bytes → σ → Except Error σ) (acc : σ)
    (res : σ) (pageRes : PageResponse)
    (h : Paginate entries page onResult acc = .ok (res, pageRes)) :
    visitEntries onResult (pageWindow entries page) acc = .ok res := by
  have hpage : ∀ p, page = some p → p.Offset = 0 ∨ p.Key = [] := by
    intro p hp
    subst hp
    by_contra hbad
    have hoff : 0 < p.Offset := by omega
    have hkey : p.Key.length ≠ 0 := by
      intro hl
      exact hbad (Or.inr (List.length_eq_zero.mp hl))
    have hk : (initPageRequestDefaults (some p)).Key = p.Key := by
      unfold initPageRequestDefaults; simp only [Option.getD_some]; split <;> rfl
    have ho : (initPageRequestDefaults (some p)).Offset = p.Offset := by
      unfold initPageRequestDefaults; simp only [Option.getD_some]; split <;> rfl
    unfold Paginate at h
    simp only [hk, ho] at h
    rw [if_pos ⟨hoff, hkey⟩] at h
    cases h
  have hit : getIterator entries (initPageRequestDefaults page).Key
      (initPageRequestDefaults page).Reverse ≠ none := by
    intro hnone
    unfold Paginate at h
    simp only [hnone] at h
    split at h <;> cases h
  rw [← Paginate_eq_visit entries page onResult acc hpage hit, h]
  rfl

theorem prefixEntries_mem (s : KVStore) (pre key value : Bytes)
    (h : (key, value) ∈ s.prefixEntries pre) : (pre ++ key, value) ∈ s.entries := by
  unfold KVStore.prefixEntries at h
  obtain ⟨kv, hkv, hf⟩ := List.mem_filterMap.mp h
  by_cases hp : pre.isPrefixOf kv.1 = true
  · simp only [hp, if_true, Option.some.injEq, Prod.mk.injEq] at hf
    have e1 := List.prefix_iff_eq_append.mp (List.isPrefixOf_iff_prefix.mp hp)
    rw [← hf.1, e1, ← hf.2]
    exact hkv
  · simp [hp] at hf

theorem bytesLt_irrefl (a : Bytes) : bytesLt a a = false := by
  induction a with
  | nil => rfl
  | cons x xs ih => simp [bytesLt, ih]

theorem lookup_of_mem_pairwise (entries : List (Bytes × Bytes)) (key value : Bytes) :
    entries.Pairwise (fun a b => bytesLt a.1 b.1 = true) → (key, value) ∈ entries →
      entries.lookup key = some value := by
  induction entries with
  | nil => intro _ hmem; simp at hmem
  | cons kv rest ih =>
    intro h hmem
    obtain ⟨k, v⟩ := kv
    rw [List.pairwise_cons] at h
    by_cases hk : key = k
    · subst hk
      rcases List.mem_cons.mp hmem with h1 | h1
      · simp only [Prod.mk.injEq, true_and] at h1
        simp [List.lookup, h1]
      · have := h.1 _ h1
        simp only [bytesLt_irrefl] at this
        cases this
    · rcases List.mem_cons.mp hmem with h1 | h1
      · simp only [Prod.mk.injEq] at h1
        exact absurd h1.1 hk
      · have hne : (key == k) = false := by simpa using hk
        simp only [List.lookup, hne]
        exact ih h.2 h1

theorem Get_of_mem_WF (s : KVStore) (h : s.WF) (key value : Bytes)
    (hmem : (key, value) ∈ s.entries) : s.Get key = some value :=
  lookup_of_mem_pairwise s.entries key value h hmem

theorem PacketCommitments_ok_visit (validate : Bytes → Bool) (ctx : Context)
    (req : QueryPacketCommitmentsRequest) (resp : QueryPacketCommitmentsResponse)
    (h : PacketCommitments validate ctx (some req) = .ok resp) :
    visitEntries (packetCommitmentsCallback req.ChannelId)
      (pageWindow (ctx.store.prefixEntries (PacketCommitmentPrefixKey req.ChannelId))
        req.Pagination) [] = .ok resp.Commitments := by
  unfold PacketCommitments at h
  simp only [] at h
  split at h
  · cases h
  · split at h
    · cases h
    · generalize hpag : Paginate _ _ _ _ = r at h
      cases r with
      | error e => cases h
      | ok res =>
        obtain ⟨commitments, pageRes⟩ := res
        simp only [Except.ok.injEq] at h
        rw [← h]
        exact Paginate_ok_visit _ _ _ _ _ _ hpag

theorem PacketCommitments_error_of_visit (validate : Bytes → Bool) (ctx : Context)
    (req : QueryPacketCommitmentsRequest) (e : Error)
    (hvalid : validate req.ChannelId = true) (hchan : HasChannel ctx req.ChannelId = true)
    (hpage : ∀ p, req.Pagination = some p → p.Offset = 0 ∨ p.Key = [])
    (h : visitEntries (packetCommitmentsCallback req.ChannelId)
      (pageWindow (ctx.store.prefixEntries (PacketCommitmentPrefixKey req.ChannelId))
        req.Pagination) [] = .error e) :
    PacketCommitments validate ctx (some req) = .error e := by
  have hit : getIterator (ctx.store.prefixEntries (PacketCommitmentPrefixKey req.ChannelId))
      (initPageRequestDefaults req.Pagination).Key
      (initPageRequestDefaults req.Pagination).Reverse ≠ none := by
    intro hnone
    unfold pageWindow at h
    simp only [hnone, visitEntries] at h
    cases h
  have hv := Paginate_eq_visit
    (ctx.store.prefixEntries (PacketCommitmentPrefixKey req.ChannelId)) req.Pagination
    (packetCommitmentsCallback req.ChannelId) [] hpage hit
  rw [h] at hv
  unfold PacketCommitments
  simp only [hvalid, hchan, Bool.not_true, Bool.false_eq_true, if_false]
  generalize Paginate _ _ _ _ = r at hv
  cases r with
  | error e1 =>
    simp only [Except.map, Except.error.injEq] at hv
    rw [hv]
  | ok res => simp [Except.map] at hv

/-- C16: every entry returned by a successful `PacketCommitments` call is well
formed. Its ChannelId is the request's channel id, its Sequence is not zero and is
the sequence decoded from a key stored under the channel's commitment prefix, and
its Data is the value stored under that key. And when the page request is
accepted and the entries it selects reach a key that decodes to sequence 0 (every
selected key before it decodes to a non-zero sequence), the whole call fails with
ErrInvalidPacket and returns no entries. -/
theorem PacketCommitments_entries_well_formed (validate : Bytes → Bool) (ctx : Context)
    (req : QueryPacketCommitmentsRequest) :
    (∀ resp, PacketCommitments validate ctx (some req) = .ok resp →
      ∀ c ∈ resp.Commitments,
        c.ChannelId = req.ChannelId ∧ c.Sequence ≠ 0
        ∧ ∃ key, keySequence key = some c.Sequence
            ∧ (PacketCommitmentPrefixKey req.ChannelId ++ key, c.Data) ∈ ctx.store.entries
            ∧ (ctx.store.WF →
                ctx.store.Get (PacketCommitmentPrefixKey req.ChannelId ++ key) = some c.Data))
    ∧ (validate req.ChannelId = true → HasChannel ctx req.ChannelId = true →
      (∀ p, req.Pagination = some p → p.Offset = 0 ∨ p.Key = []) →
      ∀ pre k v rest,
        pageWindow (ctx.store.prefixEntries (PacketCommitmentPrefixKey req.ChannelId))
          req.Pagination = pre ++ (k, v) :: rest →
        (∀ e ∈ pre, ∃ s, keySequence e.1 = some s ∧ s ≠ 0) →
        keySequence k = some 0 →
        PacketCommitments validate ctx (some req) = .error .ErrInvalidPacket) := by
  constructor
  · intro resp h c hc
    have hvisit := PacketCommitments_ok_visit validate ctx req resp h
    obtain ⟨hres, hall⟩ := visitEntries_callback_ok req.ChannelId _ _ _ hvisit
    rw [hres, List.nil_append] at hc
    obtain ⟨kv, hkv, hckv⟩ := List.mem_map.mp hc
    obtain ⟨s, hs, h0⟩ := hall kv hkv
    have hwin : kv ∈ ctx.store.prefixEntries (PacketCommitmentPrefixKey req.ChannelId) := by
      unfold pageWindow at hkv
      simp only [] at hkv
      cases hg : getIterator (ctx.store.prefixEntries (PacketCommitmentPrefixKey req.ChannelId))
          (initPageRequestDefaults req.Pagination).Key
          (initPageRequestDefaults req.Pagination).Reverse with
      | none =>
        rw [hg] at hkv
        cases hkv
      | some iterator =>
        rw [hg] at hkv
        simp only [] at hkv
        apply getIterator_mem _ _ _ iterator hg
        split at hkv
        · exact List.mem_of_mem_take hkv
        · exact List.mem_of_mem_drop (List.mem_of_mem_take hkv)
    have hstore := prefixEntries_mem ctx.store _ kv.1 kv.2 hwin
    rw [← hckv]
    simp only [NewPacketState, hs, Option.getD_some]
    exact ⟨trivial, h0, kv.1, hs, hstore, fun hwf => Get_of_mem_WF ctx.store hwf _ _ hstore⟩
  · intro hvalid hchan hpage pre k v rest hwin hpre hk
    apply PacketCommitments_error_of_visit validate ctx req _ hvalid hchan hpage
    rw [hwin]
    exact visitEntries_callback_zero req.ChannelId pre k v rest hk [] hpre

/-- Witness of C16: on the store with commitments at 5 and 47 the default page
selects both keys, the first decodes to 5 and the second to 0, and the call fails
with ErrInvalidPacket. -/
theorem PacketCommitments_entries_well_formed_witness :
    PacketCommitments ChannelIdentifierValidator zeroKeyCtx
      (some (QueryPacketCommitmentsRequest.mk channel0 none)) = .error .ErrInvalidPacket :=
  (PacketCommitments_entries_well_formed ChannelIdentifierValidator zeroKeyCtx
    (QueryPacketCommitmentsRequest.mk channel0 none)).2 (by decide) (by decide)
    (by intro p hp; cases hp)
    [(Uint64ToBigEndian 5, [50])] (Uint64ToBigEndian 47) [51] [] (by decide)
    (by
      intro e he
      simp only [List.mem_singleton] at he
      subst he
      exact ⟨5, by decide, by decide⟩)
    (by decide)

end ChannelV2

namespace Transfer

/-! ## Theorems on the transfer application -/

theorem findAllocation_spendAllocation (port channel : Identifier) (denom : Denom)
    (amount : Nat) (allocations : List Allocation) (al : Allocation)
    (h : findAllocation port channel allocations = some al) :
    findAllocation port channel (spendAllocation port channel denom amount allocations)
      = some { al with spendLimit := fun d => if d = denom then al.spendLimit d - amount
                                              else al.spendLimit d } := by
  induction allocations with
  | nil => simp [findAllocation] at h
  | cons a rest ih =>
    unfold findAllocation at h
    unfold spendAllocation
    by_cases hm : a.sourcePort = port ∧ a.sourceChannel = channel
    · rw [if_pos hm] at h
      rw [if_pos hm]
      cases h
      unfold findAllocation
      rw [if_pos hm]
    · rw [if_neg hm] at h
      rw [if_neg hm]
      unfold findAllocation
      rw [if_neg hm]
      exact ih h

theorem SendPacket_ok_inv (c : Chain) (port channel : Identifier)
    (data : FungibleTokenPacketData) (th tt : Nat) (c1 : Chain) (packet : Packet)
    (h : SendPacket c port channel data th tt = .ok (c1, packet)) :
    ∃ ch, c.channels port channel = some ch ∧ ch.state = .Open
      ∧ timeoutInFuture th tt c.height c.timestamp = true
      ∧ packet = Packet.mk (c.nextSequenceSend port channel) port channel
          ch.counterpartyPort ch.counterpartyChannel data th tt
      ∧ c1.grants = c.grants ∧ c1.balances = c.balances ∧ c1.escrow = c.escrow
      ∧ c1.totalEscrow = c.totalEscrow ∧ c1.channels = c.channels
      ∧ c1.commitments port channel (c.nextSequenceSend port channel) = some packet := by
  unfold SendPacket at h
  cases hch : c.channels port channel with
  | none => rw [hch] at h; cases h
  | some ch =>
    rw [hch] at h
    simp only [] at h
    by_cases hs : ch.state = .Open
    · cases ht : timeoutInFuture th tt c.height c.timestamp
      · simp [hs, ht] at h
      · simp only [hs, ht, ne_eq, not_true_eq_false, if_false, Bool.not_true,
          Bool.false_eq_true, Except.ok.injEq, Prod.mk.injEq] at h
        obtain ⟨hc1, hp⟩ := h
        subst hc1
        subst hp
        exact ⟨ch, rfl, hs, rfl, rfl, rfl, rfl, rfl, rfl, rfl, by simp⟩
    · simp [hs] at h

theorem SendPacket_ok (c : Chain) (port channel : Identifier)
    (data : FungibleTokenPacketData) (th tt : Nat) (ch : Channel)
    (hch : c.channels port channel = some ch) (hs : ch.state = .Open)
    (ht : timeoutInFuture th tt c.height c.timestamp = true) :
    ∃ c1 packet, SendPacket c port channel data th tt = .ok (c1, packet) := by
  unfold SendPacket
  simp [hch, hs, ht]

theorem escrowOrBurn_ok_inv (c : Chain) (port channel : Identifier) (sender : Address)
    (denom : Denom) (amount : Nat) (c1 : Chain)
    (h : escrowOrBurn c port channel sender denom amount = .ok c1) :
    amount ≤ c.balances sender denom
    ∧ c1.balances sender denom = c.balances sender denom - amount
    ∧ c1.grants = c.grants ∧ c1.commitments = c.commitments ∧ c1.channels = c.channels
    ∧ c1.totalEscrow denom
        = (if senderIsSource port channel denom then c.totalEscrow denom + amount
           else c.totalEscrow denom)
    ∧ c1.escrow port channel denom
        = (if senderIsSource port channel denom then c.escrow port channel denom + amount
           else c.escrow port channel denom) := by
  unfold escrowOrBurn at h
  by_cases hb : c.balances sender denom < amount
  · rw [if_pos hb] at h; cases h
  · rw [if_neg hb] at h
    cases hsrc : senderIsSource port channel denom
    · simp only [hsrc, Bool.false_eq_true, if_false, Except.ok.injEq] at h
      subst h
      simp
      omega
    · simp only [hsrc, if_true, Except.ok.injEq] at h
      subst h
      simp
      omega

theorem escrowOrBurn_ok (c : Chain) (port channel : Identifier) (sender : Address)
    (denom : Denom) (amount : Nat) (hb : amount ≤ c.balances sender denom) :
    ∃ c1, escrowOrBurn c port channel sender denom amount = .ok c1 := by
  unfold escrowOrBurn
  rw [if_neg (by omega)]
  split <;> exact ⟨_, rfl⟩

theorem SendTransfer_ok_inv (c : Chain) (msg : MsgTransfer) (c2 : Chain) (packet : Packet)
    (h : SendTransfer c msg = .ok (c2, packet)) :
    ∃ c1, SendPacket c msg.sourcePort msg.sourceChannel
        (FungibleTokenPacketData.mk msg.denom msg.amount msg.sender msg.receiver)
        msg.timeoutHeight msg.timeoutTimestamp = .ok (c1, packet)
      ∧ escrowOrBurn c1 msg.sourcePort msg.sourceChannel msg.sender msg.denom msg.amount
          = .ok c2 := by
  unfold SendTransfer at h
  generalize hsp : SendPacket c msg.sourcePort msg.sourceChannel _ _ _ = r at h
  cases r with
  | error e => cases h
  | ok res =>
    obtain ⟨c1, p⟩ := res
    simp only [] at h
    generalize heb : escrowOrBurn c1 msg.sourcePort msg.sourceChannel msg.sender msg.denom
      msg.amount = r2 at h
    cases r2 with
    | error e => cases h
    | ok c3 =>
      simp only [Except.ok.injEq, Prod.mk.injEq] at h
      obtain ⟨h1, h2⟩ := h
      subst h1
      subst h2
      exact ⟨c1, rfl, heb⟩

theorem SendTransfer_ok (c : Chain) (msg : MsgTransfer) (ch : Channel)
    (hch : c.channels msg.sourcePort msg.sourceChannel = some ch) (hs : ch.state = .Open)
    (ht : timeoutInFuture msg.timeoutHeight msg.timeoutTimestamp c.height c.timestamp = true)
    (hb : msg.amount ≤ c.balances msg.sender msg.denom) :
    ∃ c2 packet, SendTransfer c msg = .ok (c2, packet) := by
  obtain ⟨c1, packet, hsp⟩ := SendPacket_ok c msg.sourcePort msg.sourceChannel
    (FungibleTokenPacketData.mk msg.denom msg.amount msg.sender msg.receiver)
    msg.timeoutHeight msg.timeoutTimestamp ch hch hs ht
  obtain ⟨_, _, _, _, _, _, hbal, _⟩ := SendPacket_ok_inv _ _ _ _ _ _ _ _ hsp
  obtain ⟨c2, heb⟩ := escrowOrBurn_ok c1 msg.sourcePort msg.sourceChannel msg.sender
    msg.denom msg.amount (by rw [hbal]; exact hb)
  exact ⟨c2, packet, by unfold SendTransfer; rw [hsp]; simp only []; rw [heb]⟩

theorem MsgExec_authorized (c : Chain) (grantee : Address) (msg : MsgTransfer)
    (allocations : List Allocation) (al : Allocation)
    (hgrant : c.grants msg.sender grantee = some allocations)
    (hfind : findAllocation msg.sourcePort msg.sourceChannel allocations = some al)
    (hallow : al.allowList = [] ∨ msg.receiver ∈ al.allowList)
    (ha : msg.amount ≤ al.spendLimit msg.denom) :
    MsgExec c grantee msg
      = SendTransfer
          { c with
            grants := fun g e =>
              if g = msg.sender ∧ e = grantee then
                some (spendAllocation msg.sourcePort msg.sourceChannel msg.denom msg.amount
                  allocations)
              else c.grants g e }
          msg := by
  unfold MsgExec
  rw [hgrant]
  simp only [hfind]
  have h1 : ¬ (al.allowList ≠ [] ∧ msg.receiver ∉ al.allowList) := by
    rintro ⟨hne, hnot⟩
    rcases hallow with h | h
    · exact hne h
    · exact hnot h
  rw [if_neg h1, if_neg (by omega)]

/-- C11: a successful authorized transfer decrements the spend limit of the
allocation by exactly the transferred amount. In every chain state where
(granter, grantee) holds an allocation for the port and channel of the transfer
with limit L for its denomination, for every amount a below L (so for every a
with 0 < a < L) and a receiver the allocation allows: whenever `MsgExec` succeeds, the remaining spend
limit of that allocation for the denomination is L - a and the granter's balance
is a less than before; and `MsgExec` does succeed when the channel is open, the
timeout is in the future and the granter holds at least a. -/
theorem authorized_transfer_decrements_limit (c : Chain) (grantee : Address)
    (msg : MsgTransfer) (allocations : List Allocation) (al : Allocation) (L : Nat)
    (hgrant : c.grants msg.sender grantee = some allocations)
    (hfind : findAllocation msg.sourcePort msg.sourceChannel allocations = some al)
    (hallow : al.allowList = [] ∨ msg.receiver ∈ al.allowList)
    (hL : al.spendLimit msg.denom = L) (hlt : msg.amount < L) :
    (∀ c1 packet, MsgExec c grantee msg = .ok (c1, packet) →
      remainingSpendLimit c1 msg.sender grantee msg.sourcePort msg.sourceChannel msg.denom
        = some (L - msg.amount)
      ∧ c1.balances msg.sender msg.denom + msg.amount = c.balances msg.sender msg.denom)
    ∧ (∀ ch, c.channels msg.sourcePort msg.sourceChannel = some ch → ch.state = .Open →
      timeoutInFuture msg.timeoutHeight msg.timeoutTimestamp c.height c.timestamp = true →
      msg.amount ≤ c.balances msg.sender msg.denom →
      ∃ c1 packet, MsgExec c grantee msg = .ok (c1, packet)) := by
  have hexec := MsgExec_authorized c grantee msg allocations al hgrant hfind hallow
    (by omega)
  constructor
  · intro c2 packet h
    rw [hexec] at h
    obtain ⟨c1, hsp, heb⟩ := SendTransfer_ok_inv _ _ _ _ h
    obtain ⟨ch, _, _, _, _, hg1, hb1, _⟩ := SendPacket_ok_inv _ _ _ _ _ _ _ _ hsp
    obtain ⟨hle, hbal, hg2, _⟩ := escrowOrBurn_ok_inv _ _ _ _ _ _ _ heb
    constructor
    · unfold remainingSpendLimit
      rw [hg2, hg1]
      simp only [and_self, if_true]
      rw [findAllocation_spendAllocation _ _ _ _ _ _ hfind]
      simp [hL]
    · rw [hbal, hb1]
      rw [hb1] at hle
      simp only [] at hle ⊢
      omega
  · intro ch hch hs ht hb
    rw [hexec]
    exact SendTransfer_ok _ msg ch hch hs ht hb

/-- Witness of C11: with a grant of 1000 uatom from "alice" to "carol", the
authorized transfer of 100 leaves a spend limit of 900 and "alice" with 900. -/
theorem authorized_transfer_decrements_limit_witness :
    remainingSpendLimit
        (afterTx (MsgGrant chainA "alice" "carol" [sampleAllocation 1000])
          (MsgExec (MsgGrant chainA "alice" "carol" [sampleAllocation 1000]) "carol"
            (sampleTransfer 100)))
        "alice" "carol" "transfer" "channel-0" uatom = some 900
    ∧ (afterTx (MsgGrant chainA "alice" "carol" [sampleAllocation 1000])
          (MsgExec (MsgGrant chainA "alice" "carol" [sampleAllocation 1000]) "carol"
            (sampleTransfer 100))).balances "alice" uatom = 900
    ∧ ∃ c1 packet, MsgExec (MsgGrant chainA "alice" "carol" [sampleAllocation 1000]) "carol"
        (sampleTransfer 100) = .ok (c1, packet) :=
  ⟨by decide, by decide,
   (authorized_transfer_decrements_limit
      (MsgGrant chainA "alice" "carol" [sampleAllocation 1000]) "carol" (sampleTransfer 100)
      [sampleAllocation 1000] (sampleAllocation 1000) 1000 (by rfl) (by rfl)
      (Or.inr (by decide)) (by decide) (by decide)).2 channelEndA (by decide)
      (by decide) (by decide) (by decide)⟩

/-- C12: exceeding the spend limit fails atomically. In every chain state where
(granter, grantee) holds an allocation for the port and channel of the transfer
with limit L for its denomination and the receiver is allowed, `MsgExec` of a
transfer of an amount above L fails with InsufficientFunds, and the state after
the transaction is the state before it: the spend limit is still L, the granter's
balance is unchanged, and no commitment was written, so no packet can be proved
to the receiving chain. -/
theorem exceeding_spend_limit_fails (c : Chain) (grantee : Address)
    (msg : MsgTransfer) (allocations : List Allocation) (al : Allocation) (L : Nat)
    (hgrant : c.grants msg.sender grantee = some allocations)
    (hfind : findAllocation msg.sourcePort msg.sourceChannel allocations = some al)
    (hallow : al.allowList = [] ∨ msg.receiver ∈ al.allowList)
    (hL : al.spendLimit msg.denom = L)
    (hgt : L < msg.amount) :
    MsgExec c grantee msg = .error .InsufficientFunds
    ∧ afterTx c (MsgExec c grantee msg) = c
    ∧ remainingSpendLimit (afterTx c (MsgExec c grantee msg)) msg.sender grantee
        msg.sourcePort msg.sourceChannel msg.denom = some L
    ∧ (afterTx c (MsgExec c grantee msg)).balances msg.sender msg.denom
        = c.balances msg.sender msg.denom
    ∧ ∀ packet, verifyCommitment (afterTx c (MsgExec c grantee msg)) packet
        = verifyCommitment c packet := by
  have herr : MsgExec c grantee msg = .error .InsufficientFunds := by
    unfold MsgExec
    rw [hgrant]
    simp only [hfind]
    have h1 : ¬ (al.allowList ≠ [] ∧ msg.receiver ∉ al.allowList) := by
      rintro ⟨hne, hnot⟩
      rcases hallow with h | h
      · exact hne h
      · exact hnot h
    rw [if_neg h1, if_pos (by omega)]
  have hsame : afterTx c (MsgExec c grantee msg) = c := by rw [herr]; rfl
  refine ⟨herr, hsame, ?_, by rw [hsame], fun packet => by rw [hsame]⟩
  rw [hsame]
  simp only [remainingSpendLimit, hgrant, hfind, Option.map, hL]

/-- Witness of C12: with a grant of 1000 uatom, the authorized transfer of 1001
fails with InsufficientFunds. -/
theorem exceeding_spend_limit_fails_witness :
    MsgExec (MsgGrant chainA "alice" "carol" [sampleAllocation 1000]) "carol"
      (sampleTransfer 1001) = .error .InsufficientFunds :=
  (exceeding_spend_limit_fails
    (MsgGrant chainA "alice" "carol" [sampleAllocation 1000]) "carol" (sampleTransfer 1001)
    [sampleAllocation 1000] (sampleAllocation 1000) 1000 (by rfl) (by rfl)
    (Or.inr (by decide)) (by decide) (by decide)).1

theorem SendTransfer_effect (c : Chain) (msg : MsgTransfer) (c2 : Chain) (packet : Packet)
    (h : SendTransfer c msg = .ok (c2, packet)) :
    ∃ ch, c.channels msg.sourcePort msg.sourceChannel = some ch ∧ ch.state = .Open
      ∧ packet = Packet.mk (c.nextSequenceSend msg.sourcePort msg.sourceChannel)
          msg.sourcePort msg.sourceChannel ch.counterpartyPort ch.counterpartyChannel
          (FungibleTokenPacketData.mk msg.denom msg.amount msg.sender msg.receiver)
          msg.timeoutHeight msg.timeoutTimestamp
      ∧ msg.amount ≤ c.balances msg.sender msg.denom
      ∧ c2.balances msg.sender msg.denom = c.balances msg.sender msg.denom - msg.amount
      ∧ c2.commitments msg.sourcePort msg.sourceChannel
          (c.nextSequenceSend msg.sourcePort msg.sourceChannel) = some packet
      ∧ c2.totalEscrow msg.denom
          = (if senderIsSource msg.sourcePort msg.sourceChannel msg.denom then
              c.totalEscrow msg.denom + msg.amount
             else c.totalEscrow msg.denom)
      ∧ c2.escrow msg.sourcePort msg.sourceChannel msg.denom
          = (if senderIsSource msg.sourcePort msg.sourceChannel msg.denom then
              c.escrow msg.sourcePort msg.sourceChannel msg.denom + msg.amount
             else c.escrow msg.sourcePort msg.sourceChannel msg.denom) := by
  obtain ⟨c1, hsp, heb⟩ := SendTransfer_ok_inv _ _ _ _ h
  obtain ⟨ch, hch, hs, _, hp, _, hb1, he1, ht1, _, hc1⟩ := SendPacket_ok_inv _ _ _ _ _ _ _ _ hsp
  obtain ⟨hle, hbal, _, hcm, _, htot, hesc⟩ := escrowOrBurn_ok_inv _ _ _ _ _ _ _ heb
  refine ⟨ch, hch, hs, hp, ?_, ?_, ?_, ?_, ?_⟩
  · rw [hb1] at hle; exact hle
  · rw [hbal, hb1]
  · rw [hcm]; exact hc1
  · rw [htot, ht1]
  · rw [hesc, he1]

/-- C14: a timeout reverses the send exactly. For every transfer that was sent
(`SendTransfer` succeeded on chain A with the packet) and for every state of the
receiving chain B whose clock is past the packet's timeout and which has not
received the packet: B rejects the packet whatever proof is submitted, so every
balance on B is unchanged; `TimeoutPacket` on A with the relayer's proof of
non-receipt succeeds; and after it the sender's balance, the escrow of the
channel and the total escrow of the denomination are what they were before the
send. -/
theorem timeout_reverses_send (A B A1 : Chain) (msg : MsgTransfer) (packet : Packet)
    (hsend : SendTransfer A msg = .ok (A1, packet))
    (hproof : verifyNoReceipt B packet = true) :
    (A1.balances msg.sender msg.denom + msg.amount = A.balances msg.sender msg.denom)
    ∧ (∀ verified, (∃ e, RecvPacket B packet verified = .error e)
        ∧ afterTx B (RecvPacket B packet verified) = B)
    ∧ ∃ A2, TimeoutPacket A1 packet (verifyNoReceipt B packet) = .ok A2
        ∧ A2.balances msg.sender msg.denom = A.balances msg.sender msg.denom
        ∧ A2.escrow msg.sourcePort msg.sourceChannel msg.denom
            = A.escrow msg.sourcePort msg.sourceChannel msg.denom
        ∧ A2.totalEscrow msg.denom = A.totalEscrow msg.denom := by
  obtain ⟨ch, hch, hs, hp, hle, hbal, hcm, htot, hesc⟩ := SendTransfer_effect _ _ _ _ hsend
  have htimed : timedOut packet.timeoutHeight packet.timeoutTimestamp B.height B.timestamp
      = true := by
    unfold verifyNoReceipt at hproof
    simp only [Bool.and_eq_true] at hproof
    exact hproof.1
  refine ⟨by rw [hbal]; omega, ?_, ?_⟩
  · intro verified
    have herr : ∃ e, RecvPacket B packet verified = .error e := by
      unfold RecvPacket
      cases verified
      · exact ⟨_, rfl⟩
      · simp only [Bool.not_true, Bool.false_eq_true, if_false]
        cases B.channels packet.destPort packet.destChannel with
        | none => exact ⟨_, rfl⟩
        | some chB =>
          simp only []
          split
          · exact ⟨_, rfl⟩
          · split
            · exact ⟨_, rfl⟩
            · exact ⟨_, rfl⟩
    obtain ⟨e, he⟩ := herr
    exact ⟨⟨e, he⟩, by rw [he]; rfl⟩
  · rw [hproof]
    have hcommit : A1.commitments packet.sourcePort packet.sourceChannel packet.sequence
        = some packet := by
      rw [hp] at hcm ⊢
      exact hcm
    unfold TimeoutPacket
    simp only [Bool.not_true, Bool.false_eq_true, if_false, hcommit, ne_eq, not_true_eq_false]
    unfold refund
    have hpd : packet.data = FungibleTokenPacketData.mk msg.denom msg.amount msg.sender
        msg.receiver := by rw [hp]
    have hpp : packet.sourcePort = msg.sourcePort := by rw [hp]
    have hpc : packet.sourceChannel = msg.sourceChannel := by rw [hp]
    simp only [hpd, hpp, hpc]
    cases hsrc : senderIsSource msg.sourcePort msg.sourceChannel msg.denom
    · simp only [hsrc, Bool.false_eq_true, if_false] at htot hesc ⊢
      refine ⟨_, rfl, ?_, ?_, ?_⟩
      · simp only [and_self, if_true]
        rw [hbal]; omega
      · exact hesc
      · exact htot
    · simp only [hsrc, if_true] at htot hesc ⊢
      have hno : ¬ (A1.escrow msg.sourcePort msg.sourceChannel msg.denom < msg.amount
          ∨ A1.totalEscrow msg.denom < msg.amount) := by
        rw [hesc, htot]; omega
      rw [if_neg hno]
      refine ⟨_, rfl, ?_, ?_, ?_⟩
      · simp only [and_self, if_true]
        rw [hbal]; omega
      · simp only [and_self, if_true]
        rw [hesc]; omega
      · simp only [if_true]
        rw [htot]; omega

/-- Witness of C14: "alice" sends 100 uatom from chain A with timeout height 15;
chain B is at height 20 and has no receipt, the timeout is proved and "alice"
holds 1000 uatom again. -/
theorem timeout_reverses_send_witness :
    verifyNoReceipt chainB samplePacket = true
    ∧ (afterTx chainA (SendTransfer chainA (sampleTransfer 100))).balances "alice" uatom = 900
    ∧ ∃ A2, TimeoutPacket (afterTx chainA (SendTransfer chainA (sampleTransfer 100)))
          samplePacket (verifyNoReceipt chainB samplePacket) = .ok A2
        ∧ A2.balances "alice" uatom = 1000
        ∧ A2.escrow "transfer" "channel-0" uatom = 0
        ∧ A2.totalEscrow uatom = 0 :=
  ⟨by decide, by decide,
   (timeout_reverses_send chainA chainB
      (afterTx chainA (SendTransfer chainA (sampleTransfer 100))) (sampleTransfer 100)
      samplePacket (by rfl) (by decide)).2.2⟩

theorem SendPacket_frame (c : Chain) (port channel : Identifier)
    (data : FungibleTokenPacketData) (th tt : Nat) (c1 : Chain) (packet : Packet)
    (h : SendPacket c port channel data th tt = .ok (c1, packet)) :
    c1.height = c.height ∧ c1.timestamp = c.timestamp ∧ c1.channels = c.channels
    ∧ c1.receipts = c.receipts ∧ c1.nextSequenceRecv = c.nextSequenceRecv
    ∧ c1.totalEscrow = c.totalEscrow ∧ c1.escrow = c.escrow := by
  unfold SendPacket at h
  cases hch : c.channels port channel with
  | none => rw [hch] at h; cases h
  | some ch =>
    rw [hch] at h
    simp only [] at h
    by_cases hs : ch.state = .Open
    · cases ht : timeoutInFuture th tt c.height c.timestamp
      · simp [hs, ht] at h
      · simp only [hs, ht, ne_eq, not_true_eq_false, if_false, Bool.not_true,
          Bool.false_eq_true, Except.ok.injEq, Prod.mk.injEq] at h
        obtain ⟨hc1, _⟩ := h
        subst hc1
        exact ⟨rfl, rfl, rfl, rfl, rfl, rfl, rfl⟩
    · simp [hs] at h

theorem escrowOrBurn_frame (c : Chain) (port channel : Identifier) (sender : Address)
    (denom : Denom) (amount : Nat) (c1 : Chain)
    (h : escrowOrBurn c port channel sender denom amount = .ok c1) :
    c1.height = c.height ∧ c1.timestamp = c.timestamp ∧ c1.channels = c.channels
    ∧ c1.receipts = c.receipts ∧ c1.nextSequenceRecv = c.nextSequenceRecv
    ∧ (senderIsSource port channel denom = false →
        c1.totalEscrow = c.totalEscrow ∧ c1.escrow = c.escrow) := by
  unfold escrowOrBurn at h
  by_cases hb : c.balances sender denom < amount
  · rw [if_pos hb] at h; cases h
  · rw [if_neg hb] at h
    cases hsrc : senderIsSource port channel denom
    · simp only [hsrc, Bool.false_eq_true, if_false, Except.ok.injEq] at h
      subst h
      exact ⟨rfl, rfl, rfl, rfl, rfl, fun _ => ⟨rfl, rfl⟩⟩
    · simp only [hsrc, if_true, Except.ok.injEq] at h
      subst h
      exact ⟨rfl, rfl, rfl, rfl, rfl, fun hf => by cases hf⟩

theorem SendTransfer_frame (c : Chain) (msg : MsgTransfer) (c2 : Chain) (packet : Packet)
    (h : SendTransfer c msg = .ok (c2, packet)) :
    c2.height = c.height ∧ c2.timestamp = c.timestamp ∧ c2.channels = c.channels
    ∧ c2.receipts = c.receipts ∧ c2.nextSequenceRecv = c.nextSequenceRecv
    ∧ (senderIsSource msg.sourcePort msg.sourceChannel msg.denom = false →
        c2.totalEscrow = c.totalEscrow ∧ c2.escrow = c.escrow) := by
  obtain ⟨c1, hsp, heb⟩ := SendTransfer_ok_inv _ _ _ _ h
  obtain ⟨a1, a2, a3, a4, a5, a6, a7⟩ := SendPacket_frame _ _ _ _ _ _ _ _ hsp
  obtain ⟨b1, b2, b3, b4, b5, b6⟩ := escrowOrBurn_frame _ _ _ _ _ _ _ heb
  refine ⟨by rw [b1, a1], by rw [b2, a2], by rw [b3, a3], by rw [b4, a4], by rw [b5, a5], ?_⟩
  intro hsrc
  obtain ⟨e1, e2⟩ := b6 hsrc
  exact ⟨by rw [e1, a6], by rw [e2, a7]⟩

theorem RecvPacket_ok (c : Chain) (packet : Packet) (ch : Channel)
    (hch : c.channels packet.destPort packet.destChannel = some ch)
    (hopen : ch.state = .Open)
    (hcp : ch.counterpartyPort = packet.sourcePort ∧ ch.counterpartyChannel = packet.sourceChannel)
    (hlive : timedOut packet.timeoutHeight packet.timeoutTimestamp c.height c.timestamp = false)
    (hseq : sequenceAcceptable c packet.destPort packet.destChannel packet.sequence = true) :
    ∃ c1 : Chain,
      RecvPacket c packet true
          = .ok ({ (OnRecvPacket c1 packet).1 with
                    acknowledgements := fun p ch1 s =>
                      if p = packet.destPort ∧ ch1 = packet.destChannel ∧ s = packet.sequence
                      then some (OnRecvPacket c1 packet).2
                      else (OnRecvPacket c1 packet).1.acknowledgements p ch1 s },
                 (OnRecvPacket c1 packet).2)
      ∧ c1.balances = c.balances ∧ c1.escrow = c.escrow ∧ c1.totalEscrow = c.totalEscrow
      ∧ c1.channels = c.channels ∧ c1.height = c.height ∧ c1.timestamp = c.timestamp
      ∧ c1.nextSequenceSend = c.nextSequenceSend ∧ c1.commitments = c.commitments := by
  unfold sequenceAcceptable at hseq
  rw [hch] at hseq
  simp only [] at hseq
  unfold RecvPacket
  simp only [Bool.not_true, Bool.false_eq_true, if_false, hch, hopen, ne_eq,
    not_true_eq_false, hcp.1, hcp.2, or_self, hlive]
  cases hord : ch.ordering with
  | Ordered =>
    rw [hord] at hseq
    simp only [decide_eq_true_eq] at hseq
    simp only []
    rw [if_neg (by simp [← hseq])]
    exact ⟨_, rfl, rfl, rfl, rfl, rfl, rfl, rfl, rfl, rfl⟩
  | Unordered =>
    rw [hord] at hseq
    simp only [Bool.not_eq_true'] at hseq
    simp only []
    rw [if_neg (by simp [hseq])]
    exact ⟨_, rfl, rfl, rfl, rfl, rfl, rfl, rfl, rfl, rfl⟩

theorem OnRecvPacket_mint (c : Chain) (packet : Packet)
    (hnot : packet.data.denom.trace.head? ≠ some (packet.sourcePort, packet.sourceChannel))
    (hmax : c.balances packet.data.receiver
        (voucherDenom packet.destPort packet.destChannel packet.data.denom)
      + packet.data.amount ≤ maxAmount) :
    OnRecvPacket c packet
      = ({ c with
            balances := fun a dn =>
              if a = packet.data.receiver
                  ∧ dn = voucherDenom packet.destPort packet.destChannel packet.data.denom then
                c.balances a dn + packet.data.amount
              else c.balances a dn }, .success) := by
  unfold OnRecvPacket
  simp only [hnot, if_false]
  unfold voucherDenom at hmax ⊢
  rw [if_neg (by omega)]

theorem OnRecvPacket_release (c : Chain) (packet : Packet)
    (hsrc : packet.data.denom.trace.head? = some (packet.sourcePort, packet.sourceChannel))
    (hesc : packet.data.amount ≤ c.escrow packet.destPort packet.destChannel
      (Denom.mk packet.data.denom.trace.tail packet.data.denom.base))
    (htot : packet.data.amount
      ≤ c.totalEscrow (Denom.mk packet.data.denom.trace.tail packet.data.denom.base)) :
    OnRecvPacket c packet
      = ({ c with
            balances := fun a dn =>
              if a = packet.data.receiver
                  ∧ dn = Denom.mk packet.data.denom.trace.tail packet.data.denom.base then
                c.balances a dn + packet.data.amount
              else c.balances a dn
            escrow := fun p ch dn =>
              if p = packet.destPort ∧ ch = packet.destChannel
                  ∧ dn = Denom.mk packet.data.denom.trace.tail packet.data.denom.base then
                c.escrow p ch dn - packet.data.amount
              else c.escrow p ch dn
            totalEscrow := fun dn =>
              if dn = Denom.mk packet.data.denom.trace.tail packet.data.denom.base then
                c.totalEscrow dn - packet.data.amount
              else c.totalEscrow dn }, .success) := by
  unfold OnRecvPacket
  simp only [hsrc, if_true]
  rw [if_neg (by omega)]

theorem RecvPacket_mint (c : Chain) (packet : Packet) (ch : Channel)
    (hch : c.channels packet.destPort packet.destChannel = some ch)
    (hopen : ch.state = .Open)
    (hcp : ch.counterpartyPort = packet.sourcePort ∧ ch.counterpartyChannel = packet.sourceChannel)
    (hlive : timedOut packet.timeoutHeight packet.timeoutTimestamp c.height c.timestamp = false)
    (hseq : sequenceAcceptable c packet.destPort packet.destChannel packet.sequence = true)
    (hnot : packet.data.denom.trace.head? ≠ some (packet.sourcePort, packet.sourceChannel))
    (hmax : c.balances packet.data.receiver
        (voucherDenom packet.destPort packet.destChannel packet.data.denom)
      + packet.data.amount ≤ maxAmount) :
    ∃ c2 : Chain, RecvPacket c packet true = .ok (c2, .success)
      ∧ c2.balances packet.data.receiver
          (voucherDenom packet.destPort packet.destChannel packet.data.denom)
        = c.balances packet.data.receiver
            (voucherDenom packet.destPort packet.destChannel packet.data.denom)
          + packet.data.amount
      ∧ c2.totalEscrow = c.totalEscrow ∧ c2.escrow = c.escrow ∧ c2.channels = c.channels
      ∧ c2.height = c.height ∧ c2.timestamp = c.timestamp
      ∧ c2.nextSequenceSend = c.nextSequenceSend := by
  obtain ⟨c1, heq, hb, he, ht, hc, hh, hts, hn, _⟩ :=
    RecvPacket_ok c packet ch hch hopen hcp hlive hseq
  rw [heq, OnRecvPacket_mint c1 packet hnot (by rw [hb]; exact hmax)]
  refine ⟨_, rfl, ?_, ht, he, hc, hh, hts, hn⟩
  simp only [and_self, if_true, hb]

theorem RecvPacket_release (c : Chain) (packet : Packet) (ch : Channel)
    (hch : c.channels packet.destPort packet.destChannel = some ch)
    (hopen : ch.state = .Open)
    (hcp : ch.counterpartyPort = packet.sourcePort ∧ ch.counterpartyChannel = packet.sourceChannel)
    (hlive : timedOut packet.timeoutHeight packet.timeoutTimestamp c.height c.timestamp = false)
    (hseq : sequenceAcceptable c packet.destPort packet.destChannel packet.sequence = true)
    (hsrc : packet.data.denom.trace.head? = some (packet.sourcePort, packet.sourceChannel))
    (hesc : packet.data.amount ≤ c.escrow packet.destPort packet.destChannel
      (Denom.mk packet.data.denom.trace.tail packet.data.denom.base))
    (htot : packet.data.amount
      ≤ c.totalEscrow (Denom.mk packet.data.denom.trace.tail packet.data.denom.base)) :
    ∃ c2 : Chain, RecvPacket c packet true = .ok (c2, .success)
      ∧ c2.balances packet.data.receiver
          (Denom.mk packet.data.denom.trace.tail packet.data.denom.base)
        = c.balances packet.data.receiver
            (Denom.mk packet.data.denom.trace.tail packet.data.denom.base)
          + packet.data.amount
      ∧ c2.totalEscrow (Denom.mk packet.data.denom.trace.tail packet.data.denom.base)
        = c.totalEscrow (Denom.mk packet.data.denom.trace.tail packet.data.denom.base)
          - packet.data.amount
      ∧ c2.escrow packet.destPort packet.destChannel
          (Denom.mk packet.data.denom.trace.tail packet.data.denom.base)
        = c.escrow packet.destPort packet.destChannel
            (Denom.mk packet.data.denom.trace.tail packet.data.denom.base)
          - packet.data.amount := by
  obtain ⟨c1, heq, hb, he, ht, hc, hh, hts, hn, _⟩ :=
    RecvPacket_ok c packet ch hch hopen hcp hlive hseq
  rw [heq, OnRecvPacket_release c1 packet hsrc (by rw [he]; exact hesc) (by rw [ht]; exact htot)]
  refine ⟨_, rfl, ?_, ?_, ?_⟩
  · simp only [and_self, if_true, hb]
  · simp only [if_true, ht]
  · simp only [and_self, if_true, he]

theorem verifyCommitment_of_sent (c c2 : Chain) (msg : MsgTransfer) (packet : Packet)
    (h : SendTransfer c msg = .ok (c2, packet)) : verifyCommitment c2 packet = true := by
  obtain ⟨ch, _, _, hp, _, _, hcm, _⟩ := SendTransfer_effect _ _ _ _ h
  unfold verifyCommitment
  rw [decide_eq_true_eq]
  rw [hp] at hcm ⊢
  exact hcm

theorem sequenceAcceptable_congr (c c1 : Chain) (port channel : Identifier) (sequence : Nat)
    (hc : c1.channels = c.channels) (hr : c1.receipts = c.receipts)
    (hn : c1.nextSequenceRecv = c.nextSequenceRecv) :
    sequenceAcceptable c1 port channel sequence = sequenceAcceptable c port channel sequence := by
  unfold sequenceAcceptable
  rw [hc, hr, hn]

/-- C13: escrow round trip. Chain A is the source of the denomination and sends the
amount n over its channel; chain B, whose end of the channel is open, receives the
packet in time and sends the voucher back; A receives the returned packet in
time. Then: after the send the total escrow of A for the denomination is the
pre-send value plus n; B mints n vouchers to the receiver; sending them back burns
them and leaves the total escrow of B unchanged for every denomination (so it
stays 0 for the voucher); and once A has received the returned voucher its total
escrow for the denomination is back at the pre-send value and the sender's balance
is restored. Every step succeeds with the proof of an honest relayer. -/
theorem escrow_round_trip (A B A1 : Chain) (msg : MsgTransfer) (p1 : Packet) (chB : Channel)
    (th2 tt2 : Nat)
    (hsrc : senderIsSource msg.sourcePort msg.sourceChannel msg.denom = true)
    (hsend : SendTransfer A msg = .ok (A1, p1))
    (hchB : B.channels p1.destPort p1.destChannel = some chB)
    (hopenB : chB.state = .Open)
    (hcpB : chB.counterpartyPort = msg.sourcePort ∧ chB.counterpartyChannel = msg.sourceChannel)
    (hliveB : timedOut p1.timeoutHeight p1.timeoutTimestamp B.height B.timestamp = false)
    (hseqB : sequenceAcceptable B p1.destPort p1.destChannel p1.sequence = true)
    (hmax : B.balances msg.receiver (voucherDenom p1.destPort p1.destChannel msg.denom)
      + msg.amount ≤ maxAmount)
    (hfut2 : timeoutInFuture th2 tt2 B.height B.timestamp = true)
    (hliveA : timedOut th2 tt2 A.height A.timestamp = false)
    (hseqA : sequenceAcceptable A msg.sourcePort msg.sourceChannel
      (B.nextSequenceSend p1.destPort p1.destChannel) = true) :
    A1.totalEscrow msg.denom = A.totalEscrow msg.denom + msg.amount
    ∧ ∃ B1, RecvPacket B p1 (verifyCommitment A1 p1) = .ok (B1, .success)
      ∧ B1.balances msg.receiver (voucherDenom p1.destPort p1.destChannel msg.denom)
          = B.balances msg.receiver (voucherDenom p1.destPort p1.destChannel msg.denom)
            + msg.amount
      ∧ ∃ B2 p2,
          SendTransfer B1
            (MsgTransfer.mk p1.destPort p1.destChannel
              (voucherDenom p1.destPort p1.destChannel msg.denom) msg.amount msg.receiver
              msg.sender th2 tt2) = .ok (B2, p2)
        ∧ B2.balances msg.receiver (voucherDenom p1.destPort p1.destChannel msg.denom)
            = B.balances msg.receiver (voucherDenom p1.destPort p1.destChannel msg.denom)
        ∧ B2.totalEscrow = B.totalEscrow
        ∧ ∃ A2, RecvPacket A1 p2 (verifyCommitment B2 p2) = .ok (A2, .success)
          ∧ A2.totalEscrow msg.denom = A.totalEscrow msg.denom
          ∧ A2.balances msg.sender msg.denom = A.balances msg.sender msg.denom := by
  obtain ⟨chA, hchA, hopenA, hp1, hleA, hbalA, hcmA, htotA, hescA⟩ :=
    SendTransfer_effect _ _ _ _ hsend
  obtain ⟨fh, fts, fch, frc, fnr, _⟩ := SendTransfer_frame _ _ _ _ hsend
  have hv1 := verifyCommitment_of_sent _ _ _ _ hsend
  simp only [hsrc, if_true] at htotA hescA
  have hd1 : p1.data = FungibleTokenPacketData.mk msg.denom msg.amount msg.sender msg.receiver := by
    rw [hp1]
  have hs1 : p1.sourcePort = msg.sourcePort ∧ p1.sourceChannel = msg.sourceChannel := by
    rw [hp1]; exact ⟨rfl, rfl⟩
  have hdest1 : p1.destPort = chA.counterpartyPort ∧ p1.destChannel = chA.counterpartyChannel := by
    rw [hp1]; exact ⟨rfl, rfl⟩
  refine ⟨htotA, ?_⟩
  -- chain B receives the packet and mints the voucher
  have hnot1 : p1.data.denom.trace.head? ≠ some (p1.sourcePort, p1.sourceChannel) := by
    rw [hd1, hs1.1, hs1.2]
    unfold senderIsSource at hsrc
    simpa using hsrc
  obtain ⟨B1, hrecv1, hbalB1, htotB1, _, hchB1, hhB1, htsB1, hnsB1⟩ :=
    RecvPacket_mint B p1 chB hchB hopenB (by rw [hs1.1, hs1.2]; exact hcpB) hliveB hseqB hnot1
      (by rw [hd1]; exact hmax)
  rw [hd1] at hbalB1
  simp only [] at hbalB1
  rw [hv1]
  refine ⟨B1, hrecv1, hbalB1, ?_⟩
  -- chain B sends the voucher back and burns it
  obtain ⟨B2, p2, hsend2⟩ := SendTransfer_ok B1
    (MsgTransfer.mk p1.destPort p1.destChannel
      (voucherDenom p1.destPort p1.destChannel msg.denom) msg.amount msg.receiver
      msg.sender th2 tt2) chB (by rw [hchB1]; exact hchB) hopenB
    (by rw [hhB1, htsB1]; exact hfut2) (by simp only []; rw [hbalB1]; omega)
  obtain ⟨chB', hchB', _, hp2, _, hbalB2, _, _, _⟩ := SendTransfer_effect _ _ _ _ hsend2
  obtain ⟨_, _, _, _, _, hburn⟩ := SendTransfer_frame _ _ _ _ hsend2
  have hv2 := verifyCommitment_of_sent _ _ _ _ hsend2
  have hchBeq : chB' = chB := by
    simp only [] at hchB'
    rw [hchB1, hchB] at hchB'
    exact (Option.some.inj hchB').symm
  subst hchBeq
  simp only [] at hbalB2 hp2
  have hnosrc : senderIsSource p1.destPort p1.destChannel
      (voucherDenom p1.destPort p1.destChannel msg.denom) = false := by
    simp [senderIsSource, voucherDenom]
  obtain ⟨htotB2, _⟩ := hburn hnosrc
  refine ⟨B2, p2, hsend2, by rw [hbalB2, hbalB1]; omega, by rw [htotB2, htotB1], ?_⟩
  -- chain A receives the returned voucher and releases the escrow
  have hd2 : p2.data = FungibleTokenPacketData.mk
      (voucherDenom p1.destPort p1.destChannel msg.denom) msg.amount msg.receiver msg.sender := by
    rw [hp2]
  have hs2 : p2.sourcePort = p1.destPort ∧ p2.sourceChannel = p1.destChannel := by
    rw [hp2]; exact ⟨rfl, rfl⟩
  have hdest2 : p2.destPort = msg.sourcePort ∧ p2.destChannel = msg.sourceChannel := by
    rw [hp2]; exact ⟨hcpB.1, hcpB.2⟩
  have hseq2 : p2.sequence = B.nextSequenceSend p1.destPort p1.destChannel := by
    rw [hp2, hnsB1]
  have ht2 : p2.timeoutHeight = th2 ∧ p2.timeoutTimestamp = tt2 := by
    rw [hp2]; exact ⟨rfl, rfl⟩
  have hden : Denom.mk p2.data.denom.trace.tail p2.data.denom.base = msg.denom := by
    rw [hd2]; rfl
  obtain ⟨A2, hrecv2, hbalA2, htotA2, _⟩ :=
    RecvPacket_release A1 p2 chA
      (by rw [hdest2.1, hdest2.2, fch]; exact hchA) hopenA
      (by rw [hs2.1, hs2.2]; exact ⟨hdest1.1.symm, hdest1.2.symm⟩)
      (by rw [ht2.1, ht2.2, fh, fts]; exact hliveA)
      (by
        rw [hdest2.1, hdest2.2, hseq2, sequenceAcceptable_congr A A1 _ _ _ fch frc fnr]
        exact hseqA)
      (by rw [hd2, hs2.1, hs2.2]; rfl)
      (by rw [hden, hd2, hdest2.1, hdest2.2, hescA]; simp only []; omega)
      (by rw [hden, hd2, htotA]; simp only []; omega)
  rw [hv2]
  rw [hden, hd2] at hbalA2 htotA2
  simp only [] at hbalA2 htotA2
  refine ⟨A2, hrecv2, by rw [htotA2, htotA]; omega, by rw [hbalA2, hbalA]; omega⟩

/-- Witness of C13: "alice" sends 100 uatom from chain A to "bob" on chain B, who
sends the 100 vouchers back with timeout height 25. -/
theorem escrow_round_trip_witness :
    (afterTx chainA (SendTransfer chainA (roundTripTransfer 100))).totalEscrow uatom
        = chainA.totalEscrow uatom + 100
    ∧ ∃ B1, RecvPacket chainB roundTripPacket
          (verifyCommitment (afterTx chainA (SendTransfer chainA (roundTripTransfer 100)))
            roundTripPacket) = .ok (B1, .success)
      ∧ B1.balances "bob" voucherUatom = chainB.balances "bob" voucherUatom + 100
      ∧ ∃ B2 p2,
          SendTransfer B1
            (MsgTransfer.mk "transfer" "channel-7" voucherUatom 100 "bob" "alice" 25 0)
            = .ok (B2, p2)
        ∧ B2.balances "bob" voucherUatom = chainB.balances "bob" voucherUatom
        ∧ B2.totalEscrow = chainB.totalEscrow
        ∧ ∃ A2, RecvPacket (afterTx chainA (SendTransfer chainA (roundTripTransfer 100))) p2
              (verifyCommitment B2 p2) = .ok (A2, .success)
          ∧ A2.totalEscrow uatom = chainA.totalEscrow uatom
          ∧ A2.balances "alice" uatom = chainA.balances "alice" uatom :=
  escrow_round_trip chainA chainB
    (afterTx chainA (SendTransfer chainA (roundTripTransfer 100))) (roundTripTransfer 100)
    roundTripPacket channelEndB 25 0 (by decide) (by rfl) (by decide) (by decide) (by decide)
    (by decide) (by decide) (by decide) (by decide) (by decide) (by decide)

end Transfer
